import Mathlib

/-!
Verification of the track publication lifecycle of `src/lib/localparticipant.js`
(LocalParticipant).  The JavaScript code is shallowly embedded: the participant's
mutable collections become lists inside a state structure `LP`, the `updated`
listener of `_getOrCreateLocalTrackPublication` becomes the function
`updatedHandler`, the public methods become state-passing functions, and the
interleaving of user calls and signaling notifications becomes an event machine
`step`/`run` whose reachable states are analysed by induction.
-/

namespace TwilioVideo

/-- The kind of a local track: audio, video or data.  `localparticipant.js`
selects the kind-partitioned publication map by this tag. -/
inductive Kind
  | audio
  | video
  | data
deriving DecidableEq

/-- A LocalTrack as the publication lifecycle observes it: its registry key `id`,
the identity `msId` of its underlying MediaStreamTrack, and its `kind`.
Structural equality models JavaScript object identity; distinct track objects
are always given distinct field values in the scenarios considered. -/
structure Track where
  id : Nat
  msId : Nat
  kind : Kind
deriving DecidableEq

/-- Modelled from the spec: the Publication Factory (`util.asLocalTrackPublication`,
not under src/) produces an immutable record exposing the published track, its
server-assigned identifier and (through the track) its kind. -/
structure Publication where
  track : Track
  trackSid : Nat
deriving DecidableEq

/-- Modelled from the spec: a TrackSignaling record of the external signaling
collaborator (not under src/): optional `error`, optional assigned `sid`, and a
`failed` mark set by `publishFailed`.  `ref` is the record's object identity
(stable under mutation); `live` says whether the record is still in the
collaborator's per-participant map (`signaling.tracks`). -/
structure SigRec where
  ref : Nat
  tid : Nat
  error : Option Nat := none
  sid : Option Nat := none
  failed : Bool := false
  live : Bool := true
deriving DecidableEq

/-- Connection state of the signaling channel (`this._signaling.state`). -/
inductive SigState
  | connecting
  | connected
  | disconnected
deriving DecidableEq

/-- Notifications emitted by the LocalParticipant that the claims mention. -/
inductive Notif
  | trackAdded (t : Track)
  | trackRemoved (t : Track)
  | trackPublished (p : Publication)
  | trackPublicationFailed (e : Nat) (t : Track)
deriving DecidableEq

/-- The settlement of one publish attempt's pending promise: reject with the
signaling error (publication-failed), reject because the track left the
registry (race-superseded, the `was unpublished` rejection), or resolve with
the publication. -/
inductive Outcome
  | publicationFailed (e : Nat)
  | raceSuperseded
  | published (p : Publication)
deriving DecidableEq

/-- One pending publish attempt: the promise of `_getOrCreateLocalTrackPublication`
together with its `updated` listener.  `track` is the captured `localTrack`,
`ref` the captured TrackSignaling record, `attached` whether the `updated`
listener is still registered, `outcome` the settlement, if any. -/
structure Attempt where
  track : Track
  ref : Nat
  attached : Bool
  outcome : Option Outcome
deriving DecidableEq

/-- An argument passed to a public track method: a LocalTrack, a raw
MediaStreamTrack (identity `m`, of media kind `k`), or a value of no accepted
type. -/
inductive PubArg
  | lt (t : Track)
  | mst (m : Nat) (k : Kind)
  | bad
deriving DecidableEq

/-- The LocalParticipant state: the track registry `tracks`, the flat
publication registry `trackPublications`, the three kind-partitioned
publication registries, the signaling collaborator's record store `sigs`, the
signaling connection state, whether disconnect teardown has run, the
synchronously emitted notifications, the notifications scheduled with
`setTimeout` for a later turn, and the outstanding publish attempts. -/
structure LP where
  tracks : List Track := []
  trackPublications : List Publication := []
  audioTrackPublications : List Publication := []
  videoTrackPublications : List Publication := []
  dataTrackPublications : List Publication := []
  sigs : List SigRec := []
  sigState : SigState := .connecting
  teardown : Bool := false
  emitted : List Notif := []
  scheduled : List Notif := []
  attempts : List Attempt := []
deriving DecidableEq

/-- Modelled from the spec: the invalid-argument error of the error taxonomy
(`E.INVALID_TYPE`, whose constructor lives outside src/). -/
def INVALID_TYPE_ERR : Nat := 1000

/-- The TypeError raised when `unpublishTrack` dereferences a missing
TrackSignaling record (`trackSignaling.publishFailed` on `undefined`). -/
def UNEXPECTED_ERR : Nat := 1001

/-- Does `trackPublication.track === track || trackPublication.track.mediaStreamTrack
=== track` hold (the predicate of the module-level `getTrackPublication`)?  For a
LocalTrack argument only the first disjunct can hold, for a MediaStreamTrack
argument only the second, because the two JavaScript types are disjoint. -/
def pubMatches (p : Publication) : PubArg → Bool
  | .lt t => decide (p.track = t)
  | .mst m _ => p.track.msId == m
  | .bad => false

/-- The module-level `getTrackPublication` of localparticipant.js: the first
publication whose track matches the argument by identity or by underlying
media-source identity, else none. -/
def getTrackPublication (pubs : List Publication) (a : PubArg) : Option Publication :=
  pubs.find? fun p => pubMatches p a

/-- Lookup in the track registry by track id (`this.tracks.get(id)`). -/
def tracksFind (s : LP) (tid : Nat) : Option Track :=
  s.tracks.find? fun u => u.id == tid

/-- Modelled from the spec: the collaborator's per-participant record map
(`this._signaling.tracks.get(id)`, not under src/) — the record for `tid`
still present in the map. -/
def sigLookup (sigs : List SigRec) (tid : Nat) : Option SigRec :=
  sigs.find? fun r => r.live && r.tid == tid

/-- Dereference a captured TrackSignaling record by its object identity. -/
def sigByRef (sigs : List SigRec) (rf : Nat) : Option SigRec :=
  sigs.find? fun r => r.ref == rf

/-- Modelled from the spec: `signaling.addTrack` (not under src/) creates a fresh
TrackSignaling record for the submitted track and puts it into the map,
superseding any stale record for the same track id. -/
def addSig (sigs : List SigRec) (tid : Nat) : List SigRec :=
  (sigs.map fun r => if r.tid = tid then { r with live := false } else r)
    ++ [{ ref := sigs.length, tid := tid }]

/-- Modelled from the spec: `signaling.removeTrack` (not under src/) withdraws the
track's TrackSignaling record from the map; captured references stay valid. -/
def killSig (sigs : List SigRec) (tid : Nat) : List SigRec :=
  sigs.map fun r => if r.tid = tid then { r with live := false } else r

/-- Mutate the TrackSignaling record with object identity `rf` in place. -/
def updateRef (s : LP) (rf : Nat) (f : SigRec → SigRec) : LP :=
  { s with sigs := s.sigs.map fun r => if r.ref = rf then f r else r }

/-- The `publishedKindTracks` selection of localparticipant.js: the
kind-partitioned publication registry for a kind. -/
def kindPubs (s : LP) : Kind → List Publication
  | .audio => s.audioTrackPublications
  | .video => s.videoTrackPublications
  | .data => s.dataTrackPublications

/-- Replace the kind-partitioned publication registry for a kind. -/
def withKindPubs (s : LP) : Kind → List Publication → LP
  | .audio, l => { s with audioTrackPublications := l }
  | .video, l => { s with videoTrackPublications := l }
  | .data, l => { s with dataTrackPublications := l }

/-- `Map.set(sid, publication)`: replace an entry with the same sid, else append. -/
def insertPub (pubs : List Publication) (p : Publication) : List Publication :=
  if pubs.any (fun q => q.trackSid == p.trackSid)
  then pubs.map fun q => if q.trackSid = p.trackSid then p else q
  else pubs ++ [p]

/-- `Map.delete(sid)` on a publication registry. -/
def removeSid (pubs : List Publication) (sd : Nat) : List Publication :=
  pubs.filter fun q => !(q.trackSid == sd)

/-- Modelled from the spec: `Participant.prototype._addTrack` (Track Registry of
the Participant base, not under src/) inserts the track when its id is absent
and emits `trackAdded` exactly once per transition; the controller's
`localTrackAdded` listener (detached after teardown) then submits the track to
signaling, creating its TrackSignaling record. -/
def addTrackP (s : LP) (t : Track) : LP :=
  if (tracksFind s t.id).isSome then s
  else
    let s1 : LP := { s with tracks := s.tracks ++ [t], emitted := s.emitted ++ [.trackAdded t] }
    if s1.teardown then s1
    else { s1 with sigs := addSig s1.sigs t.id }

/-- Modelled from the spec: `Participant.prototype._removeTrack` (not under src/)
removes the track when registered and emits `trackRemoved` exactly once per
transition; the controller's `localTrackRemoved` listener (detached after
teardown) then withdraws the track from signaling. -/
def removeTrackP (s : LP) (t : Track) : LP :=
  match tracksFind s t.id with
  | none => s
  | some u =>
    let s1 : LP := { s with tracks := s.tracks.filter fun v => !(v.id == t.id),
                            emitted := s.emitted ++ [.trackRemoved u] }
    if s1.teardown then s1
    else { s1 with sigs := killSig s1.sigs u.id }

/-- The `updated` listener of `_getOrCreateLocalTrackPublication` (lines
218-272 of localparticipant.js), run for the captured `localTrack` `lt` and
captured TrackSignaling record `rf`.  Returns the new state, the settlement of
the pending promise (none: keep waiting), and whether the listener detached
itself. -/
def updatedHandler (s : LP) (lt : Track) (rf : Nat) : LP × Option Outcome × Bool :=
  match sigByRef s.sigs rf with
  | none => (s, none, false)
  | some ts =>
    match ts.error with
    | some e =>
      let s1 := removeTrackP s lt
      ({ s1 with scheduled := s1.scheduled ++ [Notif.trackPublicationFailed e lt] },
       some (Outcome.publicationFailed e), true)
    | none =>
      if (tracksFind s lt.id).isNone then
        (s, some Outcome.raceSuperseded, true)
      else
        match ts.sid with
        | none => (s, none, false)
        | some sd =>
          match getTrackPublication s.trackPublications (PubArg.lt lt) with
          | some p =>
            (if s.sigState = SigState.connected
             then { s with scheduled := s.scheduled ++ [Notif.trackPublished p] }
             else s,
             some (Outcome.published p), true)
          | none =>
            let p : Publication := { track := lt, trackSid := sd }
            let s1 : LP := { s with trackPublications := insertPub s.trackPublications p }
            let s2 := withKindPubs s1 lt.kind (insertPub (kindPubs s1 lt.kind) p)
            (if s2.sigState = SigState.connected
             then { s2 with scheduled := s2.scheduled ++ [Notif.trackPublished p] }
             else s2,
             some (Outcome.published p), true)

/-- The result of a `publishTrack` call: a synchronous throw (never produced by
the source, which funnels validation errors into a rejected promise), an
immediate resolution with an existing publication, a promise rejected with the
validation error, the `Unexpected error` rejection when no TrackSignaling
record exists, or a pending promise with an attached `updated` listener. -/
inductive PubCallResult
  | thrown (e : Nat)
  | resolvedExisting (p : Publication)
  | rejectedInvalid (e : Nat)
  | rejectedNoSignaling
  | pendingAttempt
deriving DecidableEq

/-- Modelled from the spec: `util.asLocalTrack` (not under src/) passes an
accepted LocalTrack through, wraps a MediaStreamTrack into the corresponding
LocalTrack carrying the same identity, and raises invalid-argument on any
value of no accepted type. -/
def asLocalTrack : PubArg → Except Nat Track
  | .lt t => .ok t
  | .mst m k => .ok { id := m, msId := m, kind := k }
  | .bad => .error INVALID_TYPE_ERR

/-- `LocalParticipant#publishTrack` (lines 372-395) followed by
`_getOrCreateLocalTrackPublication` (lines 199-217): resolve immediately with
an existing publication, reject invalid arguments via promise rejection,
otherwise register the track, and either resolve with a publication found
after the registry swap, reject for a missing TrackSignaling record, or leave
a pending attempt with the `updated` listener attached. -/
def publishTrackFn (s : LP) (a : PubArg) : LP × PubCallResult :=
  match getTrackPublication s.trackPublications a with
  | some p => (s, .resolvedExisting p)
  | none =>
    match asLocalTrack a with
    | .error e => (s, .rejectedInvalid e)
    | .ok t0 =>
      let s1 := addTrackP s t0
      let lt := (tracksFind s1 t0.id).getD t0
      match getTrackPublication s1.trackPublications (.lt lt) with
      | some p => (s1, .resolvedExisting p)
      | none =>
        match sigLookup s1.sigs lt.id with
        | none => (s1, .rejectedNoSignaling)
        | some r =>
          ({ s1 with attempts := s1.attempts ++ [⟨lt, r.ref, true, none⟩] }, .pendingAttempt)

/-- The return of an `unpublishTrack` call: a synchronous throw or the removed
publication (null when none existed). -/
inductive UnpubRet
  | thrown (e : Nat)
  | ret (p : Option Publication)
deriving DecidableEq

/-- The track id under which a public method looks an argument up in the track
registry (`track.id`); none when validation rejects the argument first. -/
def argTrackId : PubArg → Option Nat
  | .lt t => some t.id
  | .mst m _ => some m
  | .bad => none

/-- Modelled from the spec: `TrackSignaling.publishFailed` (not under src/) marks
the record as failed with an `unpublished` condition — terminal, so only a
record with no error, no sid and no prior mark transitions — and its `updated`
notification is delivered to listeners after the synchronous caller finishes,
which is why an in-flight publish takes the `no longer present in the
registry` branch rather than the error branch.  Returns the marked state and
whether the record transitioned. -/
def publishFailedMark (s : LP) (r : SigRec) : LP × Bool :=
  if r.error.isNone && r.sid.isNone && !r.failed then
    (updateRef s r.ref (fun x => { x with failed := true }), true)
  else (s, false)

/-- `LocalParticipant#unpublishTrack` (lines 515-546): validate, return null for
an unregistered track, mark the TrackSignaling record failed, delete the
matching publication from the kind-partitioned and flat registries, remove the
track from the registry, and return the removed publication.  The middle
component is the record whose deferred `updated` notification is still to be
delivered, if the mark transitioned. -/
def unpublishTrackFn (s : LP) (a : PubArg) : LP × Option Nat × UnpubRet :=
  match argTrackId a with
  | none => (s, none, .thrown INVALID_TYPE_ERR)
  | some tid0 =>
    match tracksFind s tid0 with
    | none => (s, none, .ret none)
    | some lt =>
      match sigLookup s.sigs lt.id with
      | none => (s, none, .thrown UNEXPECTED_ERR)
      | some r =>
        let z := publishFailedMark s r
        let pub := getTrackPublication z.1.trackPublications (.lt lt)
        let s2 :=
          match pub with
          | some p =>
            let sA := withKindPubs z.1 lt.kind (removeSid (kindPubs z.1 lt.kind) p.trackSid)
            { sA with trackPublications := removeSid sA.trackPublications p.trackSid }
          | none => z.1
        let s3 := removeTrackP s2 lt
        (s3, if z.2 then some r.ref else none, .ret pub)

/-- Deliver an `updated` notification of the record `rf` to every still-attached
listener, in attachment order, threading the state through the handlers as the
event emitter does. -/
def deliverAux (rf : Nat) : List Attempt → LP → LP × List Attempt
  | [], s => (s, [])
  | a :: rest, s =>
    if a.attached = true ∧ a.ref = rf then
      let h := updatedHandler s a.track a.ref
      let a2 : Attempt := { a with attached := !h.2.2,
                                   outcome := match h.2.1 with
                                              | some o => some o
                                              | none => a.outcome }
      let t := deliverAux rf rest h.1
      (t.1, a2 :: t.2)
    else
      let t := deliverAux rf rest s
      (t.1, a :: t.2)

/-- Deliver an `updated` notification of record `rf` to the participant's
attempts. -/
def deliver (s : LP) (rf : Nat) : LP :=
  let z := deliverAux rf s.attempts s
  { z.1 with attempts := z.2 }

/-- An event of the interleaving semantics: a `publishTrack` call, the
collaborator reporting a server-assigned sid or an error for a track's record
(followed by its `updated` delivery), an `unpublishTrack` call (followed by
the deferred `updated` delivery of `publishFailed`), and the signaling
channel's state transitions. -/
inductive Ev
  | publish (a : PubArg)
  | sigSid (tid sd : Nat)
  | sigError (tid e : Nat)
  | unpub (a : PubArg)
  | connect
  | disconnect
deriving DecidableEq

/-- Modelled from the spec: server-assigned identifiers are unique — the
collaborator never reports a sid that any record already carries. -/
def sidFresh (s : LP) (sd : Nat) : Bool :=
  s.sigs.all fun r => !(r.sid == some sd)

/-- One step of the interleaving semantics.  `sigSid`/`sigError` mutate a live
record exactly when the record is still pristine (a TrackSignaling record is
settled at most once) and, modelled from the spec, the collaborator is
quiescent after the one-time disconnect transition.  `disconnect` runs the
one-time teardown of `_handleTrackSignalingEvents`. -/
def step (s : LP) : Ev → LP
  | .publish a => (publishTrackFn s a).1
  | .sigSid tid sd =>
    if s.teardown then s
    else
      match sigLookup s.sigs tid with
      | none => s
      | some r =>
        if r.error.isNone && r.sid.isNone && !r.failed && sidFresh s sd then
          deliver (updateRef s r.ref fun x => { x with sid := some sd }) r.ref
        else s
  | .sigError tid e =>
    if s.teardown then s
    else
      match sigLookup s.sigs tid with
      | none => s
      | some r =>
        if r.error.isNone && r.sid.isNone && !r.failed then
          deliver (updateRef s r.ref fun x => { x with error := some e }) r.ref
        else s
  | .unpub a =>
    match unpublishTrackFn s a with
    | (s1, some rf, _) => deliver s1 rf
    | (s1, none, _) => s1
  | .connect => if s.teardown then s else { s with sigState := .connected }
  | .disconnect => if s.teardown then s else { s with sigState := .disconnected, teardown := true }

/-- The freshly constructed LocalParticipant (no tracks passed to the
constructor). -/
def init : LP := {}

/-- Run a sequence of events from the fresh participant. -/
def run (evs : List Ev) : LP := evs.foldl step init

/-- A state is reachable when some event sequence produces it. -/
def Reachable (s : LP) : Prop := ∃ evs, run evs = s

/-- All publication registry entries: the flat registry together with the three
kind-partitioned registries. -/
def allPubs (s : LP) : List Publication :=
  s.trackPublications ++ s.audioTrackPublications
    ++ s.videoTrackPublications ++ s.dataTrackPublications

/-- The result of `publishTracks`: a synchronous throw on a non-array argument,
else `Promise.all` over the per-element `publishTrack` results. -/
inductive PubsCallResult
  | thrown (e : Nat)
  | promiseAll (rs : List PubCallResult)
deriving DecidableEq

/-- An argument to `publishTracks`/`unpublishTracks`: an array of track
arguments or a non-array value. -/
inductive TracksArg
  | arr (l : List PubArg)
  | notArr
deriving DecidableEq

/-- `LocalParticipant#publishTracks` (lines 408-415): throw `INVALID_TYPE`
synchronously on a non-array, else `Promise.all(tracks.map(this.publishTrack))`
— the map runs the publishes synchronously in order. -/
def publishTracksFn (s : LP) (ta : TracksArg) : LP × PubsCallResult :=
  match ta with
  | .notArr => (s, .thrown INVALID_TYPE_ERR)
  | .arr l =>
    let z := l.foldl (fun (acc : LP × List PubCallResult) a =>
      let r := publishTrackFn acc.1 a
      (r.1, acc.2 ++ [r.2])) (s, [])
    (z.1, .promiseAll z.2)

/-- The return of `unpublishTracks`: a synchronous throw or the list of removed
publications. -/
inductive UnpubsRet
  | thrown (e : Nat)
  | ret (ps : List Publication)
deriving DecidableEq

/-- The `reduce` body of `unpublishTracks`: unpublish each element in order,
collect the non-null publications, and let a validation throw propagate with
the mutations made so far kept.  The deferred `updated` deliveries are handled
by the event machine, not here. -/
def unpublishEach (s : LP) : List PubArg → LP × UnpubsRet
  | [] => (s, .ret [])
  | a :: rest =>
    match unpublishTrackFn s a with
    | (s1, _, .thrown e) => (s1, .thrown e)
    | (s1, _, .ret p?) =>
      match unpublishEach s1 rest with
      | (s2, .thrown e) => (s2, .thrown e)
      | (s2, .ret ps) =>
        (s2, .ret (match p? with | some p => p :: ps | none => ps))

/-- `LocalParticipant#unpublishTracks` (lines 559-570): throw `INVALID_TYPE`
synchronously on a non-array, else reduce `unpublishTrack` over the elements,
collecting the non-null results. -/
def unpublishTracksFn (s : LP) (ta : TracksArg) : LP × UnpubsRet :=
  match ta with
  | .notArr => (s, .thrown INVALID_TYPE_ERR)
  | .arr l => unpublishEach s l

/-- The auto-stop set `_tracksToStop` (constructor lines 64-66): with
`shouldStopLocalTracks` the constructor-supplied tracks that are not data
tracks, else empty. -/
def tracksToStop (shouldStopLocalTracks : Bool) (localTracks : List Track) : List Track :=
  if shouldStopLocalTracks then localTracks.filter (fun t => decide (t.kind ≠ Kind.data))
  else []

/-- An action of the `stateChanged` disconnect handler, in execution order:
remove the handler's own listener, remove the four LocalTrack event listeners,
stop a track of the auto-stop set. -/
inductive TeardownAction
  | removeStateChangedListener
  | removeTrackAddedListener
  | removeTrackDisabledListener
  | removeTrackEnabledListener
  | removeTrackRemovedListener
  | stopTrack (t : Track)
deriving DecidableEq

/-- Is this teardown action a track stop? -/
def TeardownAction.isStop : TeardownAction → Bool
  | .stopTrack _ => true
  | _ => false

/-- Which of the controller's listeners are still attached: the `stateChanged`
listener on the signaling channel and the four LocalTrack listeners on the
participant. -/
structure ListenerState where
  stateChangedAttached : Bool := true
  trackListenersAttached : Bool := true
deriving DecidableEq

/-- The `stateChanged` listener of `_handleTrackSignalingEvents` (lines
178-193): on the transition to `disconnected` — and only while its own
listener is still attached — it removes its own `stateChanged` listener, then
the four LocalTrack event listeners, and only then stops every track of the
auto-stop set, in that order. -/
def onStateChanged (ls : ListenerState) (toStop : List Track) (st : SigState) :
    ListenerState × List TeardownAction :=
  if ls.stateChangedAttached && decide (st = SigState.disconnected) then
    ({ stateChangedAttached := false, trackListenersAttached := false },
     [TeardownAction.removeStateChangedListener,
      TeardownAction.removeTrackAddedListener,
      TeardownAction.removeTrackDisabledListener,
      TeardownAction.removeTrackEnabledListener,
      TeardownAction.removeTrackRemovedListener]
       ++ toStop.map TeardownAction.stopTrack)
  else (ls, [])

/-- Settle every attempt listening on record `rf` with outcome `o`; others are
untouched. -/
def settleAll (rf : Nat) (o : Outcome) (l : List Attempt) : List Attempt :=
  l.map fun a =>
    if a.attached = true ∧ a.ref = rf then { a with attached := false, outcome := some o }
    else a

theorem tracksFind_some {s : LP} {tid : Nat} {u : Track}
    (h : tracksFind s tid = some u) : u ∈ s.tracks ∧ u.id = tid := by
  refine ⟨List.mem_of_find?_eq_some h, ?_⟩
  have h2 := List.find?_some h
  simpa using h2

theorem tracksFind_none {s : LP} {tid : Nat} (h : tracksFind s tid = none) :
    ∀ u ∈ s.tracks, u.id ≠ tid := by
  intro u hu
  have h2 := List.find?_eq_none.mp h u hu
  simpa using h2

theorem tracksFind_isSome_of_mem {s : LP} {u : Track} (hu : u ∈ s.tracks) :
    (tracksFind s u.id).isSome = true := by
  cases h : tracksFind s u.id with
  | some v => rfl
  | none => exact absurd rfl (tracksFind_none h u hu)

theorem tracksFind_some_of_mem {s : LP} {u : Track}
    (hinj : ∀ x ∈ s.tracks, ∀ y ∈ s.tracks, x.id = y.id → x = y)
    (hu : u ∈ s.tracks) : tracksFind s u.id = some u := by
  cases h : tracksFind s u.id with
  | none => exact absurd rfl (tracksFind_none h u hu)
  | some v =>
    obtain ⟨hv, hid⟩ := tracksFind_some h
    rw [hinj v hv u hu hid]

theorem sigLookup_some {sigs : List SigRec} {tid : Nat} {r : SigRec}
    (h : sigLookup sigs tid = some r) : r ∈ sigs ∧ r.live = true ∧ r.tid = tid := by
  refine ⟨List.mem_of_find?_eq_some h, ?_⟩
  have h2 := List.find?_some h
  simp only [Bool.and_eq_true, beq_iff_eq] at h2
  exact h2

theorem sigLookup_none {sigs : List SigRec} {tid : Nat} (h : sigLookup sigs tid = none) :
    ∀ r ∈ sigs, r.live = true → r.tid ≠ tid := by
  intro r hr hlive
  have h2 := List.find?_eq_none.mp h r hr
  simp only [Bool.and_eq_true, beq_iff_eq, not_and] at h2
  exact h2 hlive

theorem sigByRef_some {sigs : List SigRec} {rf : Nat} {r : SigRec}
    (h : sigByRef sigs rf = some r) : r ∈ sigs ∧ r.ref = rf := by
  refine ⟨List.mem_of_find?_eq_some h, ?_⟩
  have h2 := List.find?_some h
  simpa using h2

theorem sigByRef_of_mem {sigs : List SigRec} {r : SigRec}
    (hinj : ∀ x ∈ sigs, ∀ y ∈ sigs, x.ref = y.ref → x = y)
    (hr : r ∈ sigs) : sigByRef sigs r.ref = some r := by
  cases h : sigByRef sigs r.ref with
  | none =>
    have h2 := List.find?_eq_none.mp h r hr
    simp at h2
  | some x =>
    obtain ⟨hx, hrefx⟩ := sigByRef_some h
    rw [hinj x hx r hr hrefx]

theorem sigByRef_map {sigs : List SigRec} {rf : Nat} {f : SigRec → SigRec}
    (hf : ∀ r, (f r).ref = r.ref) :
    sigByRef (sigs.map f) rf = (sigByRef sigs rf).map f := by
  induction sigs with
  | nil => simp [sigByRef]
  | cons r rest ih =>
    simp only [List.map_cons, sigByRef, List.find?_cons] at *
    rw [hf r]
    cases heq : (r.ref == rf) with
    | true => simp
    | false => simpa using ih

theorem getTrackPublication_some {pubs : List Publication} {a : PubArg} {p : Publication}
    (h : getTrackPublication pubs a = some p) : p ∈ pubs ∧ pubMatches p a = true := by
  unfold getTrackPublication at h
  have h1 := List.mem_of_find?_eq_some h
  have h2 := List.find?_some h
  exact ⟨h1, by simpa using h2⟩

theorem getTrackPublication_none {pubs : List Publication} {a : PubArg}
    (h : getTrackPublication pubs a = none) : ∀ p ∈ pubs, pubMatches p a = false := by
  intro p hp
  have h2 := List.find?_eq_none.mp h p hp
  simpa using h2

theorem pubMatches_lt {p : Publication} {t : Track} :
    pubMatches p (PubArg.lt t) = true ↔ p.track = t := by
  simp [pubMatches]

theorem mem_insertPub_elim {pubs : List Publication} {p q : Publication}
    (h : q ∈ insertPub pubs p) : q ∈ pubs ∨ q = p := by
  unfold insertPub at h
  split at h
  · obtain ⟨x, hx, hval⟩ := List.mem_map.mp h
    by_cases hs : x.trackSid = p.trackSid
    · right; simp only [hs, if_pos] at hval; exact hval.symm
    · left; simp only [hs, if_neg, not_false_iff] at hval; exact hval ▸ hx
  · rcases List.mem_append.mp h with h1 | h1
    · exact Or.inl h1
    · right; simpa using h1

theorem self_mem_insertPub (pubs : List Publication) (p : Publication) :
    p ∈ insertPub pubs p := by
  unfold insertPub
  split
  · next hany =>
    obtain ⟨x, hx, hxs⟩ := List.any_eq_true.mp hany
    have hs : x.trackSid = p.trackSid := by simpa using hxs
    exact List.mem_map.mpr ⟨x, hx, by simp [hs]⟩
  · exact List.mem_append.mpr (Or.inr (by simp))

theorem mem_insertPub_of_unique {pubs : List Publication} {p q : Publication}
    (hq : q ∈ pubs) (huniq : q.trackSid = p.trackSid → q = p) : q ∈ insertPub pubs p := by
  unfold insertPub
  split
  · refine List.mem_map.mpr ⟨q, hq, ?_⟩
    by_cases hs : q.trackSid = p.trackSid
    · simp [hs, (huniq hs).symm]
    · simp [hs]
  · exact List.mem_append.mpr (Or.inl hq)

theorem insertPub_eq_append {pubs : List Publication} {p : Publication}
    (h : ∀ q ∈ pubs, q.trackSid ≠ p.trackSid) : insertPub pubs p = pubs ++ [p] := by
  unfold insertPub
  split
  · next hany =>
    obtain ⟨x, hx, hxs⟩ := List.any_eq_true.mp hany
    exact absurd (by simpa using hxs) (h x hx)
  · rfl

theorem mem_removeSid {pubs : List Publication} {sd : Nat} {q : Publication} :
    q ∈ removeSid pubs sd ↔ q ∈ pubs ∧ q.trackSid ≠ sd := by
  simp [removeSid, List.mem_filter]

@[simp] theorem withKindPubs_tracks (s : LP) (k : Kind) (l : List Publication) :
    (withKindPubs s k l).tracks = s.tracks := by cases k <;> rfl

@[simp] theorem withKindPubs_flat (s : LP) (k : Kind) (l : List Publication) :
    (withKindPubs s k l).trackPublications = s.trackPublications := by cases k <;> rfl

@[simp] theorem withKindPubs_sigs (s : LP) (k : Kind) (l : List Publication) :
    (withKindPubs s k l).sigs = s.sigs := by cases k <;> rfl

@[simp] theorem withKindPubs_sigState (s : LP) (k : Kind) (l : List Publication) :
    (withKindPubs s k l).sigState = s.sigState := by cases k <;> rfl

@[simp] theorem withKindPubs_teardown (s : LP) (k : Kind) (l : List Publication) :
    (withKindPubs s k l).teardown = s.teardown := by cases k <;> rfl

@[simp] theorem withKindPubs_emitted (s : LP) (k : Kind) (l : List Publication) :
    (withKindPubs s k l).emitted = s.emitted := by cases k <;> rfl

@[simp] theorem withKindPubs_scheduled (s : LP) (k : Kind) (l : List Publication) :
    (withKindPubs s k l).scheduled = s.scheduled := by cases k <;> rfl

@[simp] theorem withKindPubs_attempts (s : LP) (k : Kind) (l : List Publication) :
    (withKindPubs s k l).attempts = s.attempts := by cases k <;> rfl

@[simp] theorem kindPubs_withKindPubs_same (s : LP) (k : Kind) (l : List Publication) :
    kindPubs (withKindPubs s k l) k = l := by cases k <;> rfl

theorem kindPubs_withKindPubs_ne (s : LP) {k j : Kind} (l : List Publication) (h : j ≠ k) :
    kindPubs (withKindPubs s k l) j = kindPubs s j := by
  cases k <;> cases j <;> first | rfl | exact absurd rfl h

theorem mem_allPubs {s : LP} {p : Publication} :
    p ∈ allPubs s ↔ p ∈ s.trackPublications ∨ p ∈ kindPubs s Kind.audio
      ∨ p ∈ kindPubs s Kind.video ∨ p ∈ kindPubs s Kind.data := by
  simp [allPubs, kindPubs, List.mem_append, or_assoc]

theorem mem_allPubs_of_flat {s : LP} {p : Publication}
    (h : p ∈ s.trackPublications) : p ∈ allPubs s :=
  mem_allPubs.mpr (Or.inl h)

theorem mem_allPubs_of_kind {s : LP} {p : Publication} {k : Kind}
    (h : p ∈ kindPubs s k) : p ∈ allPubs s := by
  cases k
  · exact mem_allPubs.mpr (Or.inr (Or.inl h))
  · exact mem_allPubs.mpr (Or.inr (Or.inr (Or.inl h)))
  · exact mem_allPubs.mpr (Or.inr (Or.inr (Or.inr h)))

theorem killSig_ref (tid : Nat) :
    ∀ r : SigRec,
      ((fun r : SigRec => if r.tid = tid then { r with live := false } else r) r).ref = r.ref := by
  intro r; by_cases h : r.tid = tid <;> simp [h]

theorem sigByRef_killSig (sigs : List SigRec) (tid rf : Nat) :
    sigByRef (killSig sigs tid) rf
      = (sigByRef sigs rf).map fun r => if r.tid = tid then { r with live := false } else r :=
  sigByRef_map (killSig_ref tid)

theorem mem_killSig {sigs : List SigRec} {tid : Nat} {x : SigRec} :
    x ∈ killSig sigs tid ↔
      ∃ r ∈ sigs, x = if r.tid = tid then { r with live := false } else r := by
  simp only [killSig, List.mem_map]
  constructor
  · rintro ⟨r, hr, rfl⟩; exact ⟨r, hr, rfl⟩
  · rintro ⟨r, hr, rfl⟩; exact ⟨r, hr, rfl⟩

theorem killSig_id_of_ne {tid : Nat} {r : SigRec} (h : r.tid ≠ tid) :
    (if r.tid = tid then { r with live := false } else r) = r := by simp [h]

theorem mem_killSig_of_ne {sigs : List SigRec} {tid : Nat} {r : SigRec}
    (hr : r ∈ sigs) (h : r.tid ≠ tid) : r ∈ killSig sigs tid :=
  mem_killSig.mpr ⟨r, hr, (killSig_id_of_ne h).symm⟩

theorem removeTrackP_flat (s : LP) (t : Track) :
    (removeTrackP s t).trackPublications = s.trackPublications := by
  unfold removeTrackP
  cases tracksFind s t.id with
  | none => rfl
  | some u => by_cases h : s.teardown <;> simp [h]

theorem removeTrackP_kind (s : LP) (t : Track) (k : Kind) :
    kindPubs (removeTrackP s t) k = kindPubs s k := by
  unfold removeTrackP
  cases tracksFind s t.id with
  | none => rfl
  | some u => by_cases h : s.teardown <;> cases k <;> simp [h, kindPubs]

theorem removeTrackP_scheduled (s : LP) (t : Track) :
    (removeTrackP s t).scheduled = s.scheduled := by
  unfold removeTrackP
  cases tracksFind s t.id with
  | none => rfl
  | some u => by_cases h : s.teardown <;> simp [h]

theorem removeTrackP_attempts (s : LP) (t : Track) :
    (removeTrackP s t).attempts = s.attempts := by
  unfold removeTrackP
  cases tracksFind s t.id with
  | none => rfl
  | some u => by_cases h : s.teardown <;> simp [h]

theorem removeTrackP_sigState (s : LP) (t : Track) :
    (removeTrackP s t).sigState = s.sigState := by
  unfold removeTrackP
  cases tracksFind s t.id with
  | none => rfl
  | some u => by_cases h : s.teardown <;> simp [h]

theorem removeTrackP_teardown (s : LP) (t : Track) :
    (removeTrackP s t).teardown = s.teardown := by
  unfold removeTrackP
  cases tracksFind s t.id with
  | none => rfl
  | some u => by_cases h : s.teardown <;> simp [h]

theorem removeTrackP_sigs_cases (s : LP) (t : Track) :
    (removeTrackP s t).sigs = s.sigs ∨ (removeTrackP s t).sigs = killSig s.sigs t.id := by
  unfold removeTrackP
  cases h : tracksFind s t.id with
  | none => exact Or.inl rfl
  | some u =>
    by_cases htd : s.teardown
    · exact Or.inl (by simp [htd])
    · right
      have hid : u.id = t.id := (tracksFind_some h).2
      simp [htd, hid]

theorem removeTrackP_tracks_subset {s : LP} {t : Track} :
    ∀ u ∈ (removeTrackP s t).tracks, u ∈ s.tracks := by
  unfold removeTrackP
  cases tracksFind s t.id with
  | none => intro u hu; exact hu
  | some w =>
    by_cases htd : s.teardown <;>
      · intro u hu
        simp [htd] at hu
        exact hu.1

theorem mem_removeTrackP_tracks_of_ne {s : LP} {t : Track} {u : Track}
    (hu : u ∈ s.tracks) (hne : u.id ≠ t.id) : u ∈ (removeTrackP s t).tracks := by
  unfold removeTrackP
  cases tracksFind s t.id with
  | none => exact hu
  | some w => by_cases htd : s.teardown <;> simp [htd] <;> exact ⟨hu, hne⟩

theorem tracksFind_removeTrackP_self (s : LP) (t : Track) :
    tracksFind (removeTrackP s t) t.id = none := by
  cases h : tracksFind (removeTrackP s t) t.id with
  | none => rfl
  | some u =>
    obtain ⟨hu, hid⟩ := tracksFind_some h
    have hmem : u ∈ s.tracks := removeTrackP_tracks_subset u hu
    unfold removeTrackP at hu
    cases h2 : tracksFind s t.id with
    | none => exact absurd hid (tracksFind_none h2 u hmem)
    | some w =>
      rw [h2] at hu
      by_cases htd : s.teardown <;> simp [htd] at hu <;> exact absurd hid hu.2

/-- The reachability invariant of the machine.  `pubTracks` is the registry
consistency property itself; `settle` says a listener is attached exactly
while its attempt is unsettled; `attachedRec` ties every attached listener to
its TrackSignaling record (pristine and live, with its track registered, while
the participant is not torn down); the remaining components are the bookkeeping
facts (unique record identities, at most one live record per track id, unique
sids, kind maps well-placed and contained in the flat registry, every
publication backed by a live record carrying its sid, unique track ids, and a
pending attempt behind every registered-but-unpublished track) that make the
others inductive. -/
structure Inv (s : LP) : Prop where
  pubTracks : ∀ p ∈ allPubs s, p.track ∈ s.tracks
  settle : ∀ a ∈ s.attempts, a.attached = true ↔ a.outcome = none
  attachedRec : ∀ a ∈ s.attempts, a.attached = true →
    ∃ r, sigByRef s.sigs a.ref = some r ∧ r.tid = a.track.id ∧
      (s.teardown = false → r.error = none ∧ r.sid = none ∧ r.failed = false ∧
        r.live = true ∧ a.track ∈ s.tracks)
  refBound : ∀ r ∈ s.sigs, r.ref < s.sigs.length
  refInj : ∀ r1 ∈ s.sigs, ∀ r2 ∈ s.sigs, r1.ref = r2.ref → r1 = r2
  liveUnique : ∀ r1 ∈ s.sigs, ∀ r2 ∈ s.sigs, r1.live = true → r2.live = true →
    r1.tid = r2.tid → r1 = r2
  sidUnique : ∀ p ∈ allPubs s, ∀ q ∈ allPubs s, p.trackSid = q.trackSid → p = q
  kindOk : ∀ k : Kind, ∀ p ∈ kindPubs s k, p.track.kind = k
  kindSub : ∀ k : Kind, ∀ p ∈ kindPubs s k, p ∈ s.trackPublications
  pubRec : ∀ p ∈ allPubs s, ∃ r ∈ s.sigs, r.live = true ∧ r.tid = p.track.id ∧
    r.sid = some p.trackSid
  trackIdInj : ∀ u ∈ s.tracks, ∀ v ∈ s.tracks, u.id = v.id → u = v
  pendingWitness : s.teardown = false → ∀ u ∈ s.tracks,
    (∀ p ∈ s.trackPublications, p.track ≠ u) →
    ∃ a ∈ s.attempts, a.attached = true ∧ a.track = u

theorem deliverAux_nomatch {rf : Nat} {l : List Attempt} {s : LP}
    (h : ∀ a ∈ l, a.attached = true → a.ref ≠ rf) :
    deliverAux rf l s = (s, l) := by
  induction l generalizing s with
  | nil => rfl
  | cons a rest ih =>
    have hcond : ¬(a.attached = true ∧ a.ref = rf) := by
      rintro ⟨h1, h2⟩
      exact h a (List.mem_cons_self a rest) h1 h2
    have ih2 := ih (s := s) fun x hx => h x (List.mem_cons_of_mem a hx)
    simp [deliverAux, hcond, ih2]

theorem deliverAux_getElem_detached {rf : Nat} {l : List Attempt} {s : LP} {i : Nat}
    {a : Attempt} (hi : l[i]? = some a) (ha : a.attached = false) :
    (deliverAux rf l s).2[i]? = some a := by
  induction l generalizing s i with
  | nil => simp at hi
  | cons b rest ih =>
    cases i with
    | zero =>
      have hb : b = a := by simpa using hi
      have hcond : ¬(a.attached = true ∧ a.ref = rf) := by simp [ha]
      simp [deliverAux, hb, hcond]
    | succ n =>
      simp only [List.getElem?_cons_succ] at hi
      by_cases hc : b.attached = true ∧ b.ref = rf
      · simp only [deliverAux, hc, and_self, if_pos]
        simpa using ih hi
      · simp only [deliverAux, hc, if_neg, not_false_iff]
        simpa using ih hi

theorem deliverAux_gone {rf tid : Nat} {l : List Attempt} {s : LP} {r : SigRec}
    (hr : sigByRef s.sigs rf = some r) (herr : r.error = none)
    (hgone : tracksFind s tid = none)
    (htid : ∀ a ∈ l, a.attached = true → a.ref = rf → a.track.id = tid) :
    deliverAux rf l s = (s, settleAll rf Outcome.raceSuperseded l) := by
  induction l with
  | nil => simp [deliverAux, settleAll]
  | cons a rest ih =>
    have ih2 := ih fun x hx => htid x (List.mem_cons_of_mem a hx)
    by_cases hm : a.attached = true ∧ a.ref = rf
    · have htrack : a.track.id = tid := htid a (List.mem_cons_self a rest) hm.1 hm.2
      have hhand : updatedHandler s a.track rf = (s, some Outcome.raceSuperseded, true) := by
        simp [updatedHandler, hr, herr, htrack, hgone]
      simp [deliverAux, hm, hm.2, hhand, settleAll, ih2]
    · simp [deliverAux, hm, settleAll, ih2]

theorem killSig_idem (sigs : List SigRec) (tid : Nat) :
    killSig (killSig sigs tid) tid = killSig sigs tid := by
  unfold killSig
  rw [List.map_map]
  apply List.map_congr_left
  intro r _
  by_cases h : r.tid = tid <;> simp [h]

theorem removeTrackP_tracks_sublist (s : LP) (t : Track) :
    List.Sublist (removeTrackP s t).tracks s.tracks := by
  unfold removeTrackP
  cases tracksFind s t.id with
  | none => exact List.Sublist.refl _
  | some u => by_cases htd : s.teardown <;> simp [htd]

theorem updatedHandler_error_spec {s : LP} {lt : Track} {rf : Nat} {r : SigRec} {e : Nat}
    (hr : sigByRef s.sigs rf = some r) (herr : r.error = some e) :
    updatedHandler s lt rf =
      ({ removeTrackP s lt with
          scheduled := (removeTrackP s lt).scheduled ++ [Notif.trackPublicationFailed e lt] },
       some (Outcome.publicationFailed e), true) := by
  simp [updatedHandler, hr, herr]

theorem updatedHandler_gone_spec {s : LP} {lt : Track} {rf : Nat} {r : SigRec}
    (hr : sigByRef s.sigs rf = some r) (herr : r.error = none)
    (hgone : tracksFind s lt.id = none) :
    updatedHandler s lt rf = (s, some Outcome.raceSuperseded, true) := by
  simp [updatedHandler, hr, herr, hgone]

theorem updatedHandler_pending_spec {s : LP} {lt : Track} {rf : Nat} {r : SigRec} {w : Track}
    (hr : sigByRef s.sigs rf = some r) (herr : r.error = none)
    (hreg : tracksFind s lt.id = some w) (hsid : r.sid = none) :
    updatedHandler s lt rf = (s, none, false) := by
  simp [updatedHandler, hr, herr, hreg, hsid]

theorem updatedHandler_sid_reuse_spec {s : LP} {lt : Track} {rf : Nat} {r : SigRec}
    {w : Track} {sd : Nat} {p : Publication}
    (hr : sigByRef s.sigs rf = some r) (herr : r.error = none)
    (hreg : tracksFind s lt.id = some w) (hsid : r.sid = some sd)
    (hget : getTrackPublication s.trackPublications (PubArg.lt lt) = some p) :
    updatedHandler s lt rf =
      ((if s.sigState = SigState.connected
        then { s with scheduled := s.scheduled ++ [Notif.trackPublished p] } else s),
       some (Outcome.published p), true) := by
  simp [updatedHandler, hr, herr, hreg, hsid, hget]

theorem updatedHandler_sid_create_spec {s : LP} {lt : Track} {rf : Nat} {r : SigRec}
    {w : Track} {sd : Nat}
    (hr : sigByRef s.sigs rf = some r) (herr : r.error = none)
    (hreg : tracksFind s lt.id = some w) (hsid : r.sid = some sd)
    (hget : getTrackPublication s.trackPublications (PubArg.lt lt) = none) :
    updatedHandler s lt rf =
      ((if s.sigState = SigState.connected
        then { withKindPubs { s with trackPublications := insertPub s.trackPublications ⟨lt, sd⟩ }
                 lt.kind
                 (insertPub (kindPubs { s with trackPublications := insertPub s.trackPublications ⟨lt, sd⟩ } lt.kind) ⟨lt, sd⟩) with
               scheduled := s.scheduled ++ [Notif.trackPublished ⟨lt, sd⟩] }
        else withKindPubs { s with trackPublications := insertPub s.trackPublications ⟨lt, sd⟩ }
               lt.kind
               (insertPub (kindPubs { s with trackPublications := insertPub s.trackPublications ⟨lt, sd⟩ } lt.kind) ⟨lt, sd⟩)),
       some (Outcome.published ⟨lt, sd⟩), true) := by
  by_cases hc : s.sigState = SigState.connected <;>
    simp [updatedHandler, hr, herr, hreg, hsid, hget, hc]

theorem deliverAux_error {rf tid e : Nat} {l : List Attempt} {s : LP}
    (hr : ∃ r, sigByRef s.sigs rf = some r ∧ r.error = some e)
    (htid : ∀ a ∈ l, a.attached = true → a.ref = rf → a.track.id = tid) :
    ∃ s2, deliverAux rf l s = (s2, settleAll rf (Outcome.publicationFailed e) l)
      ∧ s2.trackPublications = s.trackPublications
      ∧ (∀ k, kindPubs s2 k = kindPubs s k)
      ∧ List.Sublist s2.tracks s.tracks
      ∧ (∀ u ∈ s.tracks, u.id ≠ tid → u ∈ s2.tracks)
      ∧ (s2.sigs = s.sigs ∨ s2.sigs = killSig s.sigs tid)
      ∧ s2.teardown = s.teardown ∧ s2.sigState = s.sigState
      ∧ ((∃ a ∈ l, a.attached = true ∧ a.ref = rf) → ∀ u ∈ s2.tracks, u.id ≠ tid) := by
  induction l generalizing s with
  | nil =>
    refine ⟨s, by simp [deliverAux, settleAll], rfl, fun k => rfl, List.Sublist.refl _,
      fun u hu _ => hu, Or.inl rfl, rfl, rfl, ?_⟩
    rintro ⟨a, ha, -⟩
    simp at ha
  | cons a rest ih =>
    by_cases hm : a.attached = true ∧ a.ref = rf
    · obtain ⟨r, hrr, herr⟩ := hr
      have htrack : a.track.id = tid := htid a (List.mem_cons_self a rest) hm.1 hm.2
      have hhand : updatedHandler s a.track rf = _ := updatedHandler_error_spec hrr herr
      have hdet : (updatedHandler s a.track rf).2.2 = true := by rw [hhand]
      have hout : (updatedHandler s a.track rf).2.1 = some (Outcome.publicationFailed e) := by
        rw [hhand]
      have hEsigs : (updatedHandler s a.track rf).1.sigs = (removeTrackP s a.track).sigs := by
        rw [hhand]
      have hEflat : (updatedHandler s a.track rf).1.trackPublications = s.trackPublications := by
        rw [hhand]
        exact removeTrackP_flat s a.track
      have hEkind : ∀ k, kindPubs (updatedHandler s a.track rf).1 k = kindPubs s k := by
        intro k
        rw [hhand]
        have hk := removeTrackP_kind s a.track k
        cases k <;> simpa [kindPubs] using hk
      have hEtracks : (updatedHandler s a.track rf).1.tracks = (removeTrackP s a.track).tracks := by
        rw [hhand]
      have hEtd : (updatedHandler s a.track rf).1.teardown = s.teardown := by
        rw [hhand]
        exact removeTrackP_teardown s a.track
      have hEss : (updatedHandler s a.track rf).1.sigState = s.sigState := by
        rw [hhand]
        exact removeTrackP_sigState s a.track
      have hrE : ∃ r2, sigByRef (updatedHandler s a.track rf).1.sigs rf = some r2
          ∧ r2.error = some e := by
        rw [hEsigs]
        rcases removeTrackP_sigs_cases s a.track with hcase | hcase
        · exact ⟨r, by rw [hcase]; exact hrr, herr⟩
        · refine ⟨if r.tid = a.track.id then { r with live := false } else r, ?_, ?_⟩
          · rw [hcase, sigByRef_killSig, hrr]
            rfl
          · by_cases hrt : r.tid = a.track.id <;> simp [hrt, herr]
      obtain ⟨s2, heq, hflat, hkind, hsub, hkeep, hsigs, htd, hss, -⟩ :=
        ih (s := (updatedHandler s a.track rf).1) hrE
          (fun x hx => htid x (List.mem_cons_of_mem a hx))
      have hnotid : ∀ u ∈ s2.tracks, u.id ≠ tid := by
        intro u hu
        have hu2 : u ∈ (updatedHandler s a.track rf).1.tracks := hsub.mem hu
        rw [hEtracks] at hu2
        have h3 := tracksFind_none (tracksFind_removeTrackP_self s a.track) u hu2
        rw [htrack] at h3
        exact h3
      refine ⟨s2, ?_, ?_, ?_, ?_, ?_, ?_, ?_, ?_, fun _ => hnotid⟩
      · simp only [deliverAux, if_pos hm, hm.2]
        rw [heq]
        simp [settleAll, hm, hdet, hout]
      · rw [hflat, hEflat]
      · intro k
        rw [hkind k, hEkind k]
      · refine List.Sublist.trans hsub ?_
        rw [hEtracks]
        exact removeTrackP_tracks_sublist s a.track
      · intro u hu hne
        have hu2 : u ∈ (updatedHandler s a.track rf).1.tracks := by
          rw [hEtracks]
          exact mem_removeTrackP_tracks_of_ne hu (htrack ▸ hne)
        exact hkeep u hu2 hne
      · rcases hsigs with hc2 | hc2
        · rcases removeTrackP_sigs_cases s a.track with hc1 | hc1
          · exact Or.inl (by rw [hc2, hEsigs, hc1])
          · exact Or.inr (by rw [hc2, hEsigs, hc1, htrack])
        · rcases removeTrackP_sigs_cases s a.track with hc1 | hc1
          · exact Or.inr (by rw [hc2, hEsigs, hc1])
          · exact Or.inr (by rw [hc2, hEsigs, hc1, htrack, killSig_idem])
      · rw [htd, hEtd]
      · rw [hss, hEss]
    · obtain ⟨s2, heq, hflat, hkind, hsub, hkeep, hsigs, htd, hss, hmk⟩ :=
        ih (s := s) hr (fun x hx => htid x (List.mem_cons_of_mem a hx))
      refine ⟨s2, ?_, hflat, hkind, hsub, hkeep, hsigs, htd, hss, ?_⟩
      · simp only [deliverAux, if_neg hm]
        rw [heq]
        simp [settleAll, hm]
      · rintro ⟨x, hx, hx1, hx2⟩
        rcases List.mem_cons.mp hx with hx3 | hx3
        · exact absurd ⟨hx3 ▸ hx1, hx3 ▸ hx2⟩ hm
        · exact hmk ⟨x, hx3, hx1, hx2⟩

theorem tracksFind_congr {s1 s2 : LP} (h : s1.tracks = s2.tracks) (tid : Nat) :
    tracksFind s1 tid = tracksFind s2 tid := by
  unfold tracksFind
  rw [h]

theorem kindPubs_setFlat (s : LP) (x : List Publication) (k : Kind) :
    kindPubs { s with trackPublications := x } k = kindPubs s k := by
  cases k <;> rfl

theorem getTrackPublication_append_none {l1 l2 : List Publication} {a : PubArg}
    (h : getTrackPublication l1 a = none) :
    getTrackPublication (l1 ++ l2) a = getTrackPublication l2 a := by
  induction l1 with
  | nil => simp
  | cons p rest ih =>
    unfold getTrackPublication at *
    simp only [List.cons_append, List.find?_cons] at *
    cases hp : pubMatches p a with
    | true => rw [hp] at h; simp at h
    | false =>
      rw [hp] at h
      exact ih h

theorem getTrackPublication_singleton_lt (u : Track) (sd : Nat) :
    getTrackPublication [⟨u, sd⟩] (PubArg.lt u) = some ⟨u, sd⟩ := by
  simp [getTrackPublication, List.find?, pubMatches]

theorem deliverAux_sid {rf sd : Nat} {u : Track} {l : List Attempt} {s : LP} {r : SigRec}
    (hrr : sigByRef s.sigs rf = some r) (herr : r.error = none) (hsid : r.sid = some sd)
    (hu : ∃ w, tracksFind s u.id = some w)
    (htr : ∀ a ∈ l, a.attached = true → a.ref = rf → a.track = u)
    (hpub : getTrackPublication s.trackPublications (PubArg.lt u) = none
          ∨ getTrackPublication s.trackPublications (PubArg.lt u) = some ⟨u, sd⟩)
    (hfresh : ∀ p ∈ allPubs s, p.trackSid = sd → p = ⟨u, sd⟩)
    (hks : ∀ k : Kind, ∀ p ∈ kindPubs s k, p ∈ s.trackPublications) :
    ∃ s2, deliverAux rf l s = (s2, settleAll rf (Outcome.published ⟨u, sd⟩) l)
      ∧ s2.tracks = s.tracks
      ∧ s2.sigs = s.sigs
      ∧ s2.teardown = s.teardown
      ∧ s2.sigState = s.sigState
      ∧ (∀ p ∈ s2.trackPublications, p ∈ s.trackPublications ∨ p = ⟨u, sd⟩)
      ∧ (∀ p ∈ s.trackPublications, p ∈ s2.trackPublications)
      ∧ (∀ k : Kind, ∀ p ∈ kindPubs s2 k, p ∈ kindPubs s k ∨ (p = ⟨u, sd⟩ ∧ k = u.kind))
      ∧ (∀ k : Kind, ∀ p ∈ kindPubs s k, p ∈ kindPubs s2 k)
      ∧ (∀ k : Kind, ∀ p ∈ kindPubs s2 k, p ∈ s2.trackPublications)
      ∧ ((∃ a ∈ l, a.attached = true ∧ a.ref = rf) →
          Publication.mk u sd ∈ s2.trackPublications) := by
  induction l generalizing s with
  | nil =>
    refine ⟨s, by simp [deliverAux, settleAll], rfl, rfl, rfl, rfl,
      fun p hp => Or.inl hp, fun p hp => hp, fun k p hp => Or.inl hp, fun k p hp => hp,
      hks, ?_⟩
    rintro ⟨a, ha, -⟩
    simp at ha
  | cons a rest ih =>
    obtain ⟨w, hw⟩ := hu
    by_cases hm : a.attached = true ∧ a.ref = rf
    · have hau : a.track = u := htr a (List.mem_cons_self a rest) hm.1 hm.2
      rcases hpub with hget | hget
      · -- create branch: the matched handler constructs the publication
        have hhand : updatedHandler s u rf = _ :=
          updatedHandler_sid_create_spec hrr herr hw hsid hget
        have hnosd : ∀ q ∈ s.trackPublications, q.trackSid ≠ sd := by
          intro q hq hqs
          have hq2 := hfresh q (mem_allPubs_of_flat hq) hqs
          have : pubMatches q (PubArg.lt u) = true := by
            rw [hq2]
            simp [pubMatches]
          have h3 := getTrackPublication_none hget q hq
          rw [this] at h3
          simp at h3
        have hins : insertPub s.trackPublications (⟨u, sd⟩ : Publication)
            = s.trackPublications ++ [⟨u, sd⟩] := insertPub_eq_append hnosd
        -- the state after the create branch, ignoring the scheduled notification
        have hdet : (updatedHandler s u rf).2.2 = true := by rw [hhand]
        have hout : (updatedHandler s u rf).2.1 = some (Outcome.published ⟨u, sd⟩) := by
          rw [hhand]
        set sB : LP := withKindPubs { s with trackPublications := insertPub s.trackPublications ⟨u, sd⟩ }
          u.kind
          (insertPub (kindPubs { s with trackPublications := insertPub s.trackPublications ⟨u, sd⟩ } u.kind) ⟨u, sd⟩)
          with hsB
        have hBflat : ∀ z : LP, z = sB ∨
            z = { sB with scheduled := s.scheduled ++ [Notif.trackPublished ⟨u, sd⟩] } →
            z.trackPublications = s.trackPublications ++ [⟨u, sd⟩]
              ∧ z.tracks = s.tracks ∧ z.sigs = s.sigs ∧ z.teardown = s.teardown
              ∧ z.sigState = s.sigState
              ∧ (∀ k : Kind, kindPubs z k
                  = if k = u.kind
                    then insertPub (kindPubs s u.kind) ⟨u, sd⟩ else kindPubs s k) := by
          intro z hz
          have hzf : z.trackPublications = sB.trackPublications := by
            rcases hz with hz | hz <;> rw [hz]
          have hzk : ∀ k : Kind, kindPubs z k = kindPubs sB k := by
            intro k
            rcases hz with hz | hz
            · rw [hz]
            · rw [hz]; cases k <;> simp [kindPubs]
          refine ⟨?_, ?_, ?_, ?_, ?_, ?_⟩
          · rw [hzf, hsB]
            simp [hins]
          · rcases hz with hz | hz <;> rw [hz] <;> simp [hsB]
          · rcases hz with hz | hz <;> rw [hz] <;> simp [hsB]
          · rcases hz with hz | hz <;> rw [hz] <;> simp [hsB]
          · rcases hz with hz | hz <;> rw [hz] <;> simp [hsB]
          · intro k
            rw [hzk k, hsB]
            by_cases hk : k = u.kind
            · subst hk
              simp [kindPubs_setFlat]
            · rw [if_neg hk, kindPubs_withKindPubs_ne _ _ hk, kindPubs_setFlat]
        have hE1 : (updatedHandler s u rf).1 = sB ∨ (updatedHandler s u rf).1
            = { sB with scheduled := s.scheduled ++ [Notif.trackPublished ⟨u, sd⟩] } := by
          rw [hhand]
          by_cases hc : s.sigState = SigState.connected
          · right
            rw [if_pos hc]
          · left
            rw [if_neg hc]
        obtain ⟨hEflat, hEtracks, hEsigs, hEtd, hEss, hEkind⟩ :=
          hBflat (updatedHandler s u rf).1 hE1
        -- re-establish the premises at the post-create state
        have hrr1 : sigByRef (updatedHandler s u rf).1.sigs rf = some r := by rw [hEsigs]; exact hrr
        have hu1 : ∃ w2, tracksFind (updatedHandler s u rf).1 u.id = some w2 :=
          ⟨w, by rw [tracksFind_congr hEtracks]; exact hw⟩
        have hpub1 : getTrackPublication (updatedHandler s u rf).1.trackPublications (PubArg.lt u) = none
            ∨ getTrackPublication (updatedHandler s u rf).1.trackPublications (PubArg.lt u)
                = some ⟨u, sd⟩ := by
          right
          rw [hEflat, getTrackPublication_append_none hget, getTrackPublication_singleton_lt]
        have hmem1 : ∀ p ∈ allPubs (updatedHandler s u rf).1,
            p ∈ allPubs s ∨ p = (⟨u, sd⟩ : Publication) := by
          intro p hp
          rcases mem_allPubs.mp hp with hp2 | hp2 | hp2 | hp2
          · rw [hEflat] at hp2
            rcases List.mem_append.mp hp2 with h3 | h3
            · exact Or.inl (mem_allPubs_of_flat h3)
            · exact Or.inr (by simpa using h3)
          all_goals
            first
            | (rw [hEkind Kind.audio] at hp2
               by_cases hk : Kind.audio = u.kind
               · rw [if_pos hk] at hp2
                 rcases mem_insertPub_elim hp2 with h3 | h3
                 · exact Or.inl (mem_allPubs_of_kind (hk ▸ h3))
                 · exact Or.inr h3
               · rw [if_neg hk] at hp2
                 exact Or.inl (mem_allPubs_of_kind hp2))
            | (rw [hEkind Kind.video] at hp2
               by_cases hk : Kind.video = u.kind
               · rw [if_pos hk] at hp2
                 rcases mem_insertPub_elim hp2 with h3 | h3
                 · exact Or.inl (mem_allPubs_of_kind (hk ▸ h3))
                 · exact Or.inr h3
               · rw [if_neg hk] at hp2
                 exact Or.inl (mem_allPubs_of_kind hp2))
            | (rw [hEkind Kind.data] at hp2
               by_cases hk : Kind.data = u.kind
               · rw [if_pos hk] at hp2
                 rcases mem_insertPub_elim hp2 with h3 | h3
                 · exact Or.inl (mem_allPubs_of_kind (hk ▸ h3))
                 · exact Or.inr h3
               · rw [if_neg hk] at hp2
                 exact Or.inl (mem_allPubs_of_kind hp2))
        have hfresh1 : ∀ p ∈ allPubs (updatedHandler s u rf).1, p.trackSid = sd
            → p = (⟨u, sd⟩ : Publication) := by
          intro p hp hps
          rcases hmem1 p hp with h3 | h3
          · exact hfresh p h3 hps
          · exact h3
        have hks1 : ∀ k : Kind, ∀ p ∈ kindPubs (updatedHandler s u rf).1 k,
            p ∈ (updatedHandler s u rf).1.trackPublications := by
          intro k p hp
          rw [hEflat]
          rw [hEkind k] at hp
          by_cases hk : k = u.kind
          · rw [if_pos hk] at hp
            rcases mem_insertPub_elim hp with h3 | h3
            · exact List.mem_append.mpr (Or.inl (hks u.kind p h3))
            · exact List.mem_append.mpr (Or.inr (by simpa using h3))
          · rw [if_neg hk] at hp
            exact List.mem_append.mpr (Or.inl (hks k p hp))
        obtain ⟨s2, heq, h2tracks, h2sigs, h2td, h2ss, h2fU, h2fL, h2kU, h2kL, h2ks, h2mk⟩ :=
          ih (s := (updatedHandler s u rf).1) hrr1 hu1
            (fun x hx h1 h2 => htr x (List.mem_cons_of_mem a hx) h1 h2)
            hpub1 hfresh1 hks1
        have hflat1mem : ∀ p ∈ (updatedHandler s u rf).1.trackPublications,
            p ∈ s.trackPublications ∨ p = (⟨u, sd⟩ : Publication) := by
          intro p hp
          rw [hEflat] at hp
          rcases List.mem_append.mp hp with h3 | h3
          · exact Or.inl h3
          · exact Or.inr (by simpa using h3)
        refine ⟨s2, ?_, ?_, ?_, ?_, ?_, ?_, ?_, ?_, ?_, h2ks, ?_⟩
        · simp only [deliverAux, if_pos hm, hm.2, hau]
          rw [heq]
          simp [settleAll, hm, hdet, hout, hau]
        · rw [h2tracks, hEtracks]
        · rw [h2sigs, hEsigs]
        · rw [h2td, hEtd]
        · rw [h2ss, hEss]
        · intro p hp
          rcases h2fU p hp with h3 | h3
          · exact hflat1mem p h3
          · exact Or.inr h3
        · intro p hp
          refine h2fL p ?_
          rw [hEflat]
          exact List.mem_append.mpr (Or.inl hp)
        · intro k p hp
          rcases h2kU k p hp with h3 | h3
          · rw [hEkind k] at h3
            by_cases hk : k = u.kind
            · rw [if_pos hk] at h3
              rcases mem_insertPub_elim h3 with h4 | h4
              · exact Or.inl (hk ▸ h4)
              · exact Or.inr ⟨h4, hk⟩
            · rw [if_neg hk] at h3
              exact Or.inl h3
          · exact Or.inr h3
        · intro k p hp
          refine h2kL k p ?_
          rw [hEkind k]
          by_cases hk : k = u.kind
          · rw [if_pos hk]
            refine mem_insertPub_of_unique (hk ▸ hp) ?_
            intro hps
            exact hfresh p (mem_allPubs_of_kind hp) hps
          · rw [if_neg hk]
            exact hp
        · intro _
          refine h2fL _ ?_
          rw [hEflat]
          exact List.mem_append.mpr (Or.inr (by simp))
      · -- reuse branch: the publication already exists
        have hhand : updatedHandler s u rf = _ :=
          updatedHandler_sid_reuse_spec hrr herr hw hsid hget
        have hdet : (updatedHandler s u rf).2.2 = true := by rw [hhand]
        have hout : (updatedHandler s u rf).2.1 = some (Outcome.published ⟨u, sd⟩) := by
          rw [hhand]
        have hE1 : (updatedHandler s u rf).1 = s ∨ (updatedHandler s u rf).1
            = { s with scheduled := s.scheduled ++ [Notif.trackPublished ⟨u, sd⟩] } := by
          rw [hhand]
          by_cases hc : s.sigState = SigState.connected
          · right; rw [if_pos hc]
          · left; rw [if_neg hc]
        have hEflat : (updatedHandler s u rf).1.trackPublications = s.trackPublications := by
          rcases hE1 with hz | hz <;> rw [hz]
        have hEtracks : (updatedHandler s u rf).1.tracks = s.tracks := by
          rcases hE1 with hz | hz <;> rw [hz]
        have hEsigs : (updatedHandler s u rf).1.sigs = s.sigs := by
          rcases hE1 with hz | hz <;> rw [hz]
        have hEtd : (updatedHandler s u rf).1.teardown = s.teardown := by
          rcases hE1 with hz | hz <;> rw [hz]
        have hEss : (updatedHandler s u rf).1.sigState = s.sigState := by
          rcases hE1 with hz | hz <;> rw [hz]
        have hEkind : ∀ k : Kind, kindPubs (updatedHandler s u rf).1 k = kindPubs s k := by
          intro k
          rcases hE1 with hz | hz <;> rw [hz]
          cases k <;> simp [kindPubs]
        have hrr1 : sigByRef (updatedHandler s u rf).1.sigs rf = some r := by
          rw [hEsigs]; exact hrr
        have hu1 : ∃ w2, tracksFind (updatedHandler s u rf).1 u.id = some w2 :=
          ⟨w, by rw [tracksFind_congr hEtracks]; exact hw⟩
        have hpub1 : getTrackPublication (updatedHandler s u rf).1.trackPublications (PubArg.lt u) = none
            ∨ getTrackPublication (updatedHandler s u rf).1.trackPublications (PubArg.lt u)
                = some ⟨u, sd⟩ := by
          right; rw [hEflat]; exact hget
        have hfresh1 : ∀ p ∈ allPubs (updatedHandler s u rf).1, p.trackSid = sd
            → p = (⟨u, sd⟩ : Publication) := by
          intro p hp hps
          refine hfresh p ?_ hps
          rcases mem_allPubs.mp hp with h3 | h3 | h3 | h3
          · exact mem_allPubs_of_flat (hEflat ▸ h3)
          · exact mem_allPubs_of_kind (hEkind Kind.audio ▸ h3)
          · exact mem_allPubs_of_kind (hEkind Kind.video ▸ h3)
          · exact mem_allPubs_of_kind (hEkind Kind.data ▸ h3)
        have hks1 : ∀ k : Kind, ∀ p ∈ kindPubs (updatedHandler s u rf).1 k,
            p ∈ (updatedHandler s u rf).1.trackPublications := by
          intro k p hp
          rw [hEflat]
          rw [hEkind k] at hp
          exact hks k p hp
        obtain ⟨s2, heq, h2tracks, h2sigs, h2td, h2ss, h2fU, h2fL, h2kU, h2kL, h2ks, h2mk⟩ :=
          ih (s := (updatedHandler s u rf).1) hrr1 hu1
            (fun x hx h1 h2 => htr x (List.mem_cons_of_mem a hx) h1 h2)
            hpub1 hfresh1 hks1
        refine ⟨s2, ?_, ?_, ?_, ?_, ?_, ?_, ?_, ?_, ?_, h2ks, ?_⟩
        · simp only [deliverAux, if_pos hm, hm.2, hau]
          rw [heq]
          simp [settleAll, hm, hdet, hout, hau]
        · rw [h2tracks, hEtracks]
        · rw [h2sigs, hEsigs]
        · rw [h2td, hEtd]
        · rw [h2ss, hEss]
        · intro p hp
          rcases h2fU p hp with h3 | h3
          · exact Or.inl (hEflat ▸ h3)
          · exact Or.inr h3
        · intro p hp
          exact h2fL p (hEflat ▸ hp)
        · intro k p hp
          rcases h2kU k p hp with h3 | h3
          · exact Or.inl (hEkind k ▸ h3)
          · exact Or.inr h3
        · intro k p hp
          exact h2kL k p (hEkind k ▸ hp)
        · intro _
          refine h2fL _ ?_
          rw [hEflat]
          exact (getTrackPublication_some hget).1
    · obtain ⟨s2, heq, h2tracks, h2sigs, h2td, h2ss, h2fU, h2fL, h2kU, h2kL, h2ks, h2mk⟩ :=
        ih (s := s) hrr ⟨w, hw⟩
          (fun x hx h1 h2 => htr x (List.mem_cons_of_mem a hx) h1 h2)
          hpub hfresh hks
      refine ⟨s2, ?_, h2tracks, h2sigs, h2td, h2ss, h2fU, h2fL, h2kU, h2kL, h2ks, ?_⟩
      · simp only [deliverAux, if_neg hm]
        rw [heq]
        simp [settleAll, hm]
      · rintro ⟨x, hx, hx1, hx2⟩
        rcases List.mem_cons.mp hx with hx3 | hx3
        · exact absurd ⟨hx3 ▸ hx1, hx3 ▸ hx2⟩ hm
        · exact h2mk ⟨x, hx3, hx1, hx2⟩

theorem find?_append_none {α : Type} {p : α → Bool} {l1 l2 : List α}
    (h : l1.find? p = none) : (l1 ++ l2).find? p = l2.find? p := by
  rw [List.find?_append, h]
  rfl

theorem find?_append_some {α : Type} {p : α → Bool} {l1 l2 : List α} {a : α}
    (h : l1.find? p = some a) : (l1 ++ l2).find? p = some a := by
  rw [List.find?_append, h]
  rfl

theorem mem_addSig {sigs : List SigRec} {tid : Nat} {x : SigRec} :
    x ∈ addSig sigs tid ↔
      (∃ r ∈ sigs, x = if r.tid = tid then { r with live := false } else r)
        ∨ x = { ref := sigs.length, tid := tid } := by
  simp only [addSig, List.mem_append, List.mem_map, List.mem_singleton]
  constructor
  · rintro (⟨r, hr, rfl⟩ | h)
    · exact Or.inl ⟨r, hr, rfl⟩
    · exact Or.inr h
  · rintro (⟨r, hr, rfl⟩ | h)
    · exact Or.inl ⟨r, hr, rfl⟩
    · exact Or.inr h

theorem addSig_length (sigs : List SigRec) (tid : Nat) :
    (addSig sigs tid).length = sigs.length + 1 := by
  simp [addSig]

theorem killSig_entry_ref (tid : Nat) (r : SigRec) :
    (if r.tid = tid then { r with live := false } else r).ref = r.ref := by
  by_cases h : r.tid = tid <;> simp [h]

theorem killSig_entry_tid (tid : Nat) (r : SigRec) :
    (if r.tid = tid then { r with live := false } else r).tid = r.tid := by
  by_cases h : r.tid = tid <;> simp [h]

theorem killSig_entry_error (tid : Nat) (r : SigRec) :
    (if r.tid = tid then { r with live := false } else r).error = r.error := by
  by_cases h : r.tid = tid <;> simp [h]

theorem killSig_entry_sid (tid : Nat) (r : SigRec) :
    (if r.tid = tid then { r with live := false } else r).sid = r.sid := by
  by_cases h : r.tid = tid <;> simp [h]

theorem killSig_entry_live {tid : Nat} {r : SigRec}
    (h : (if r.tid = tid then { r with live := false } else r).live = true) :
    r.live = true ∧ r.tid ≠ tid := by
  by_cases h2 : r.tid = tid
  · rw [if_pos h2] at h; simp at h
  · rw [if_neg h2] at h; exact ⟨h, h2⟩

theorem sigByRef_addSig_old {sigs : List SigRec} {tid rf : Nat} {r : SigRec}
    (h : sigByRef sigs rf = some r) :
    sigByRef (addSig sigs tid) rf
      = some (if r.tid = tid then { r with live := false } else r) := by
  unfold addSig sigByRef
  refine find?_append_some ?_
  have h2 := @sigByRef_map sigs rf
    (fun r => if r.tid = tid then { r with live := false } else r)
    (fun r => killSig_entry_ref tid r)
  unfold sigByRef at h2 h
  rw [h2, h]
  rfl

theorem sigByRef_addSig_new {sigs : List SigRec} {tid : Nat}
    (hb : ∀ r ∈ sigs, r.ref < sigs.length) :
    sigByRef (addSig sigs tid) sigs.length = some { ref := sigs.length, tid := tid } := by
  unfold addSig sigByRef
  rw [find?_append_none]
  · simp [List.find?]
  · refine List.find?_eq_none.mpr ?_
    intro x hx
    obtain ⟨r, hr, rfl⟩ := List.mem_map.mp hx
    have h2 := hb r hr
    rw [killSig_entry_ref]
    simp
    omega

theorem sigLookup_addSig (sigs : List SigRec) (tid : Nat) :
    sigLookup (addSig sigs tid) tid = some { ref := sigs.length, tid := tid } := by
  unfold addSig sigLookup
  rw [find?_append_none]
  · simp [List.find?]
  · refine List.find?_eq_none.mpr ?_
    intro x hx
    obtain ⟨r, hr, rfl⟩ := List.mem_map.mp hx
    by_cases h : r.tid = tid <;> simp [h]

theorem addTrackP_present {s : LP} {t0 : Track} (h : (tracksFind s t0.id).isSome = true) :
    addTrackP s t0 = s := by
  unfold addTrackP
  rw [if_pos h]

theorem addTrackP_absent_teardown {s : LP} {t0 : Track} (h : tracksFind s t0.id = none)
    (htd : s.teardown = true) :
    addTrackP s t0
      = { s with tracks := s.tracks ++ [t0], emitted := s.emitted ++ [Notif.trackAdded t0] } := by
  unfold addTrackP
  rw [h]
  simp [htd]

theorem addTrackP_absent {s : LP} {t0 : Track} (h : tracksFind s t0.id = none)
    (htd : s.teardown = false) :
    addTrackP s t0
      = { s with tracks := s.tracks ++ [t0], emitted := s.emitted ++ [Notif.trackAdded t0],
                 sigs := addSig s.sigs t0.id } := by
  unfold addTrackP
  rw [h]
  simp [htd]

theorem mem_settleAll {l : List Attempt} {rf : Nat} {o : Outcome} {x : Attempt} :
    x ∈ settleAll rf o l ↔
      ∃ a ∈ l, x = if a.attached = true ∧ a.ref = rf
        then { a with attached := false, outcome := some o } else a := by
  simp only [settleAll, List.mem_map]
  constructor
  · rintro ⟨a, ha, rfl⟩; exact ⟨a, ha, rfl⟩
  · rintro ⟨a, ha, rfl⟩; exact ⟨a, ha, rfl⟩

theorem mem_settleAll_of_unmatched {l : List Attempt} {rf : Nat} {o : Outcome} {b : Attempt}
    (hb : b ∈ l) (h : ¬(b.attached = true ∧ b.ref = rf)) : b ∈ settleAll rf o l :=
  mem_settleAll.mpr ⟨b, hb, by rw [if_neg h]⟩

theorem settle_settleAll {l : List Attempt} {rf : Nat} {o : Outcome}
    (h : ∀ a ∈ l, a.attached = true ↔ a.outcome = none) :
    ∀ x ∈ settleAll rf o l, x.attached = true ↔ x.outcome = none := by
  intro x hx
  obtain ⟨a, ha, rfl⟩ := mem_settleAll.mp hx
  by_cases hm : a.attached = true ∧ a.ref = rf
  · rw [if_pos hm]
    simp
  · rw [if_neg hm]
    exact h a ha

theorem attached_settleAll {l : List Attempt} {rf : Nat} {o : Outcome} {x : Attempt}
    (hx : x ∈ settleAll rf o l) (hat : x.attached = true) :
    x ∈ l ∧ x.ref ≠ rf := by
  obtain ⟨a, ha, rfl⟩ := mem_settleAll.mp hx
  by_cases hm : a.attached = true ∧ a.ref = rf
  · rw [if_pos hm] at hat ⊢
    simp at hat
  · rw [if_neg hm] at hat ⊢
    refine ⟨ha, ?_⟩
    intro hrr
    exact hm ⟨hat, hrr⟩

/-- The invariant with the pending-publish witness weakened to except one track
(the one a publish call is in the middle of attaching an attempt for). -/
structure PreInv (s : LP) (lt : Track) : Prop where
  pubTracks : ∀ p ∈ allPubs s, p.track ∈ s.tracks
  settle : ∀ a ∈ s.attempts, a.attached = true ↔ a.outcome = none
  attachedRec : ∀ a ∈ s.attempts, a.attached = true →
    ∃ r, sigByRef s.sigs a.ref = some r ∧ r.tid = a.track.id ∧
      (s.teardown = false → r.error = none ∧ r.sid = none ∧ r.failed = false ∧
        r.live = true ∧ a.track ∈ s.tracks)
  refBound : ∀ r ∈ s.sigs, r.ref < s.sigs.length
  refInj : ∀ r1 ∈ s.sigs, ∀ r2 ∈ s.sigs, r1.ref = r2.ref → r1 = r2
  liveUnique : ∀ r1 ∈ s.sigs, ∀ r2 ∈ s.sigs, r1.live = true → r2.live = true →
    r1.tid = r2.tid → r1 = r2
  sidUnique : ∀ p ∈ allPubs s, ∀ q ∈ allPubs s, p.trackSid = q.trackSid → p = q
  kindOk : ∀ k : Kind, ∀ p ∈ kindPubs s k, p.track.kind = k
  kindSub : ∀ k : Kind, ∀ p ∈ kindPubs s k, p ∈ s.trackPublications
  pubRec : ∀ p ∈ allPubs s, ∃ r ∈ s.sigs, r.live = true ∧ r.tid = p.track.id ∧
    r.sid = some p.trackSid
  trackIdInj : ∀ u ∈ s.tracks, ∀ v ∈ s.tracks, u.id = v.id → u = v
  pendingWitnessExc : s.teardown = false → ∀ u ∈ s.tracks,
    (∀ p ∈ s.trackPublications, p.track ≠ u) → u ≠ lt →
    ∃ a ∈ s.attempts, a.attached = true ∧ a.track = u

theorem preInv_of_inv {s : LP} (h : Inv s) (lt : Track) : PreInv s lt :=
  ⟨h.pubTracks, h.settle, h.attachedRec, h.refBound, h.refInj, h.liveUnique, h.sidUnique,
   h.kindOk, h.kindSub, h.pubRec, h.trackIdInj,
   fun htd u hu hnp _ => h.pendingWitness htd u hu hnp⟩

theorem inv_attach {s1 : LP} {lt : Track} {r : SigRec} (h : PreInv s1 lt)
    (hreg : tracksFind s1 lt.id = some lt)
    (hsig : sigLookup s1.sigs lt.id = some r)
    (hgood : s1.teardown = false → r.error = none ∧ r.sid = none ∧ r.failed = false) :
    Inv { s1 with attempts := s1.attempts ++ [⟨lt, r.ref, true, none⟩] } := by
  obtain ⟨hrm, hrl, hrt⟩ := sigLookup_some hsig
  constructor
  · exact fun p hp => h.pubTracks p hp
  · intro a ha
    rcases List.mem_append.mp ha with ha2 | ha2
    · exact h.settle a ha2
    · have : a = (⟨lt, r.ref, true, none⟩ : Attempt) := by simpa using ha2
      rw [this]
      simp
  · intro a ha hat
    rcases List.mem_append.mp ha with ha2 | ha2
    · obtain ⟨r2, h1, h2, h3⟩ := h.attachedRec a ha2 hat
      exact ⟨r2, h1, h2, h3⟩
    · have haeq : a = (⟨lt, r.ref, true, none⟩ : Attempt) := by simpa using ha2
      subst haeq
      refine ⟨r, sigByRef_of_mem h.refInj hrm, hrt, ?_⟩
      intro htd
      obtain ⟨he, hs, hf⟩ := hgood htd
      exact ⟨he, hs, hf, hrl, (tracksFind_some hreg).1⟩
  · exact h.refBound
  · exact h.refInj
  · exact h.liveUnique
  · exact h.sidUnique
  · exact h.kindOk
  · exact h.kindSub
  · exact h.pubRec
  · exact h.trackIdInj
  · intro htd u hu hnp
    by_cases hul : u = lt
    · exact ⟨⟨lt, r.ref, true, none⟩, List.mem_append.mpr (Or.inr (by simp)), rfl, hul.symm⟩
    · obtain ⟨b, hb, hb1, hb2⟩ := h.pendingWitnessExc htd u hu hnp hul
      exact ⟨b, List.mem_append.mpr (Or.inl hb), hb1, hb2⟩

theorem tracksFind_append_new {s1 : LP} {s : LP} {t0 : Track}
    (htr : s1.tracks = s.tracks ++ [t0]) (hnone : tracksFind s t0.id = none) :
    tracksFind s1 t0.id = some t0 := by
  unfold tracksFind at *
  rw [htr, find?_append_none hnone]
  simp [List.find?]

theorem preInv_absent {s : LP} (h : Inv s) {t0 : Track}
    (hnone : tracksFind s t0.id = none) (htd : s.teardown = false) :
    PreInv (addTrackP s t0) t0 := by
  rw [addTrackP_absent hnone htd]
  have hnoid : ∀ u ∈ s.tracks, u.id ≠ t0.id := tracksFind_none hnone
  constructor
  · intro p hp
    exact List.mem_append.mpr (Or.inl (h.pubTracks p hp))
  · exact h.settle
  · intro a ha hat
    obtain ⟨r2, h1, h2, h3⟩ := h.attachedRec a ha hat
    have hne : r2.tid ≠ t0.id := by
      intro heq
      obtain ⟨-, -, -, -, hmem⟩ := h3 htd
      exact hnoid a.track hmem (h2 ▸ heq)
    refine ⟨r2, ?_, h2, ?_⟩
    · have h4 := @sigByRef_addSig_old s.sigs t0.id a.ref r2 h1
      rw [if_neg hne] at h4
      exact h4
    · intro htd2
      obtain ⟨he, hs, hf, hl, hmem⟩ := h3 htd
      exact ⟨he, hs, hf, hl, List.mem_append.mpr (Or.inl hmem)⟩
  · intro r hr
    rw [addSig_length]
    rcases mem_addSig.mp hr with ⟨r2, hr2, rfl⟩ | rfl
    · rw [killSig_entry_ref]
      have := h.refBound r2 hr2
      omega
    · simp
  · intro r1 hr1 r2 hr2 heq
    rcases mem_addSig.mp hr1 with ⟨x1, hx1, rfl⟩ | rfl <;>
      rcases mem_addSig.mp hr2 with ⟨x2, hx2, rfl⟩ | h2
    · rw [killSig_entry_ref, killSig_entry_ref] at heq
      rw [h.refInj x1 hx1 x2 hx2 heq]
    · rw [killSig_entry_ref] at heq
      have := h.refBound x1 hx1
      rw [h2] at heq
      simp at heq
      omega
    · rw [killSig_entry_ref] at heq
      have := h.refBound x2 hx2
      simp at heq
      omega
    · rw [h2]
  · intro r1 hr1 r2 hr2 hl1 hl2 heq
    rcases mem_addSig.mp hr1 with ⟨x1, hx1, rfl⟩ | rfl <;>
      rcases mem_addSig.mp hr2 with ⟨x2, hx2, rfl⟩ | h2
    · obtain ⟨hlx1, hne1⟩ := killSig_entry_live hl1
      obtain ⟨hlx2, hne2⟩ := killSig_entry_live hl2
      rw [killSig_entry_tid, killSig_entry_tid] at heq
      rw [h.liveUnique x1 hx1 x2 hx2 hlx1 hlx2 heq]
    · obtain ⟨hlx1, hne1⟩ := killSig_entry_live hl1
      rw [killSig_entry_tid] at heq
      rw [h2] at heq
      simp at heq
      exact absurd heq hne1
    · obtain ⟨hlx2, hne2⟩ := killSig_entry_live hl2
      rw [killSig_entry_tid] at heq
      simp at heq
      exact absurd heq.symm hne2
    · rw [h2]
  · exact h.sidUnique
  · exact h.kindOk
  · exact h.kindSub
  · intro p hp
    obtain ⟨q, hq, hql, hqt, hqs⟩ := h.pubRec p hp
    have hne : q.tid ≠ t0.id := by
      intro heq
      exact hnoid p.track (h.pubTracks p hp) (hqt ▸ heq)
    refine ⟨q, ?_, hql, hqt, hqs⟩
    refine mem_addSig.mpr (Or.inl ⟨q, hq, ?_⟩)
    rw [if_neg hne]
  · intro u hu v hv heq
    rcases List.mem_append.mp hu with hu2 | hu2 <;>
      rcases List.mem_append.mp hv with hv2 | hv2
    · exact h.trackIdInj u hu2 v hv2 heq
    · have hv3 : v = t0 := by simpa using hv2
      exact absurd (hv3 ▸ heq) (hnoid u hu2)
    · have hu3 : u = t0 := by simpa using hu2
      exact absurd (hu3 ▸ heq).symm (hnoid v hv2)
    · have hu3 : u = t0 := by simpa using hu2
      have hv3 : v = t0 := by simpa using hv2
      rw [hu3, hv3]
  · intro htd2 u hu hnp hne
    rcases List.mem_append.mp hu with hu2 | hu2
    · exact h.pendingWitness htd u hu2 hnp
    · have hu3 : u = t0 := by simpa using hu2
      exact absurd hu3 hne

theorem inv_publish {s : LP} (h : Inv s) (a : PubArg) : Inv (publishTrackFn s a).1 := by
  unfold publishTrackFn
  cases hg : getTrackPublication s.trackPublications a with
  | some p => exact h
  | none =>
    cases hal : asLocalTrack a with
    | error e => exact h
    | ok t0 =>
      simp only []
      cases hf : tracksFind s t0.id with
      | some w =>
        have hw := tracksFind_some hf
        have hpres : addTrackP s t0 = s := addTrackP_present (by rw [hf]; rfl)
        rw [hpres, hf]
        simp only [Option.getD_some]
        cases hg2 : getTrackPublication s.trackPublications (PubArg.lt w) with
        | some p => exact h
        | none =>
          cases hsl : sigLookup s.sigs w.id with
          | none => exact h
          | some r =>
            have hregw : tracksFind s w.id = some w := by
              rw [hw.2]
              exact hf
            refine inv_attach (preInv_of_inv h w) hregw hsl ?_
            intro htd
            have hnp : ∀ p ∈ s.trackPublications, p.track ≠ w := by
              intro p hp heq
              have h2 := getTrackPublication_none hg2 p hp
              rw [pubMatches] at h2
              simp [heq] at h2
            obtain ⟨b, hb, hb1, hb2⟩ := h.pendingWitness htd w hw.1 hnp
            obtain ⟨r2, hr1, hr2, hr3⟩ := h.attachedRec b hb hb1
            obtain ⟨he, hsd, hfl, hlv, -⟩ := hr3 htd
            obtain ⟨hrm, hrl, hrt⟩ := sigLookup_some hsl
            have : r2 = r := by
              refine h.liveUnique r2 (sigByRef_some hr1).1 r hrm hlv hrl ?_
              rw [hr2, hb2, hrt]
            rw [this] at he hsd hfl
            exact ⟨he, hsd, hfl⟩
      | none =>
        cases htd : s.teardown with
        | false =>
          have hpre := preInv_absent h hf htd
          have habs := addTrackP_absent hf htd
          have hreg : tracksFind (addTrackP s t0) t0.id = some t0 :=
            tracksFind_append_new (by rw [habs]) hf
          rw [hreg]
          simp only [Option.getD_some]
          cases hg2 : getTrackPublication (addTrackP s t0).trackPublications (PubArg.lt t0) with
          | some p =>
            exfalso
            obtain ⟨hp1, hp2⟩ := getTrackPublication_some hg2
            have hp3 : p.track = t0 := by simpa [pubMatches] using hp2
            have hmem : p ∈ s.trackPublications := by rw [habs] at hp1; exact hp1
            have hmem2 := h.pubTracks p (mem_allPubs_of_flat hmem)
            exact tracksFind_none hf p.track hmem2 (by rw [hp3])
          | none =>
            have hsl : sigLookup (addTrackP s t0).sigs t0.id
                = some { ref := s.sigs.length, tid := t0.id } := by
              rw [habs]
              exact sigLookup_addSig s.sigs t0.id
            rw [hsl]
            exact inv_attach hpre hreg hsl (fun _ => ⟨rfl, rfl, rfl⟩)
        | true =>
          have habs := addTrackP_absent_teardown hf htd
          have hreg : tracksFind (addTrackP s t0) t0.id = some t0 :=
            tracksFind_append_new (by rw [habs]) hf
          rw [hreg]
          simp only [Option.getD_some]
          have hnoid : ∀ u ∈ s.tracks, u.id ≠ t0.id := tracksFind_none hf
          have hpre : PreInv (addTrackP s t0) t0 := by
            rw [habs]
            constructor
            · intro p hp
              exact List.mem_append.mpr (Or.inl (h.pubTracks p hp))
            · exact h.settle
            · intro a2 ha hat
              obtain ⟨r2, h1, h2, h3⟩ := h.attachedRec a2 ha hat
              refine ⟨r2, h1, h2, ?_⟩
              intro htd2
              simp [htd] at htd2
            · exact h.refBound
            · exact h.refInj
            · exact h.liveUnique
            · exact h.sidUnique
            · exact h.kindOk
            · exact h.kindSub
            · exact h.pubRec
            · intro u hu v hv heq
              rcases List.mem_append.mp hu with hu2 | hu2 <;>
                rcases List.mem_append.mp hv with hv2 | hv2
              · exact h.trackIdInj u hu2 v hv2 heq
              · have hv3 : v = t0 := by simpa using hv2
                exact absurd (hv3 ▸ heq) (hnoid u hu2)
              · have hu3 : u = t0 := by simpa using hu2
                exact absurd (hu3 ▸ heq).symm (hnoid v hv2)
              · have hu3 : u = t0 := by simpa using hu2
                have hv3 : v = t0 := by simpa using hv2
                rw [hu3, hv3]
            · intro htd2 u hu hnp hne
              simp [htd] at htd2
          cases hg2 : getTrackPublication (addTrackP s t0).trackPublications (PubArg.lt t0) with
          | some p =>
            exfalso
            obtain ⟨hp1, hp2⟩ := getTrackPublication_some hg2
            have hp3 : p.track = t0 := by simpa [pubMatches] using hp2
            have hmem : p ∈ s.trackPublications := by rw [habs] at hp1; exact hp1
            have := h.pubTracks p (mem_allPubs_of_flat hmem)
            exact tracksFind_none hf p.track this (by rw [hp3])
          | none =>
            cases hsl : sigLookup (addTrackP s t0).sigs t0.id with
            | none =>
              constructor
              · exact hpre.pubTracks
              · exact hpre.settle
              · exact hpre.attachedRec
              · exact hpre.refBound
              · exact hpre.refInj
              · exact hpre.liveUnique
              · exact hpre.sidUnique
              · exact hpre.kindOk
              · exact hpre.kindSub
              · exact hpre.pubRec
              · exact hpre.trackIdInj
              · intro htd2
                rw [habs] at htd2
                simp [htd] at htd2
            | some r =>
              refine inv_attach hpre hreg hsl ?_
              intro htd2
              rw [habs] at htd2
              simp [htd] at htd2

theorem removeTrackP_no_id (s : LP) (t : Track) :
    ∀ u ∈ (removeTrackP s t).tracks, u.id ≠ t.id :=
  tracksFind_none (tracksFind_removeTrackP_self s t)

theorem sig_map_invs {sigs : List SigRec} (g : SigRec → SigRec)
    (hgref : ∀ x, (g x).ref = x.ref) (hgtid : ∀ x, (g x).tid = x.tid)
    (hglive : ∀ x, (g x).live = true → x.live = true)
    (hb : ∀ r ∈ sigs, r.ref < sigs.length)
    (hi : ∀ r1 ∈ sigs, ∀ r2 ∈ sigs, r1.ref = r2.ref → r1 = r2)
    (hl : ∀ r1 ∈ sigs, ∀ r2 ∈ sigs, r1.live = true → r2.live = true →
      r1.tid = r2.tid → r1 = r2) :
    (∀ r ∈ sigs.map g, r.ref < (sigs.map g).length)
      ∧ (∀ r1 ∈ sigs.map g, ∀ r2 ∈ sigs.map g, r1.ref = r2.ref → r1 = r2)
      ∧ (∀ r1 ∈ sigs.map g, ∀ r2 ∈ sigs.map g, r1.live = true → r2.live = true →
          r1.tid = r2.tid → r1 = r2) := by
  refine ⟨?_, ?_, ?_⟩
  · intro r hr
    obtain ⟨x, hx, rfl⟩ := List.mem_map.mp hr
    rw [hgref, List.length_map]
    exact hb x hx
  · intro r1 hr1 r2 hr2 heq
    obtain ⟨x1, hx1, rfl⟩ := List.mem_map.mp hr1
    obtain ⟨x2, hx2, rfl⟩ := List.mem_map.mp hr2
    rw [hgref, hgref] at heq
    rw [hi x1 hx1 x2 hx2 heq]
  · intro r1 hr1 r2 hr2 hl1 hl2 heq
    obtain ⟨x1, hx1, rfl⟩ := List.mem_map.mp hr1
    obtain ⟨x2, hx2, rfl⟩ := List.mem_map.mp hr2
    rw [hgtid, hgtid] at heq
    rw [hl x1 hx1 x2 hx2 (hglive x1 hl1) (hglive x2 hl2) heq]

theorem sigByRef_map_some {sigs : List SigRec} {g : SigRec → SigRec}
    (hg : ∀ x, (g x).ref = x.ref) {rf : Nat} {r2 : SigRec}
    (h : sigByRef sigs rf = some r2) : sigByRef (sigs.map g) rf = some (g r2) := by
  rw [sigByRef_map hg, h]
  rfl

theorem attached_rec_eq {s : LP} (h : Inv s) {a : Attempt} {r : SigRec}
    (ha : a ∈ s.attempts) (hat : a.attached = true) (hrm : r ∈ s.sigs)
    (href : a.ref = r.ref) :
    r.tid = a.track.id ∧ (s.teardown = false → r.error = none ∧ r.sid = none
      ∧ r.failed = false ∧ r.live = true ∧ a.track ∈ s.tracks) := by
  obtain ⟨r2, h1, h2, h3⟩ := h.attachedRec a ha hat
  have h4 : sigByRef s.sigs a.ref = some r := by
    rw [href]
    exact sigByRef_of_mem h.refInj hrm
  rw [h4] at h1
  obtain rfl : r = r2 := by simpa using h1
  exact ⟨h2, h3⟩

theorem no_pub_of_sid_none {s : LP} (h : Inv s) {r : SigRec} (hrm : r ∈ s.sigs)
    (hrl : r.live = true) (hrs : r.sid = none) :
    ∀ p ∈ allPubs s, p.track.id ≠ r.tid := by
  intro p hp heq
  obtain ⟨q, hq, hql, hqt, hqs⟩ := h.pubRec p hp
  have h2 : q = r := h.liveUnique q hq r hrm hql hrl (by rw [hqt, heq])
  rw [h2, hrs] at hqs
  simp at hqs

theorem pub_sid_of_track {s : LP} (h : Inv s) {r : SigRec} (hrm : r ∈ s.sigs)
    (hrl : r.live = true) :
    ∀ p ∈ allPubs s, p.track.id = r.tid → r.sid = some p.trackSid := by
  intro p hp heq
  obtain ⟨q, hq, hql, hqt, hqs⟩ := h.pubRec p hp
  have h2 : q = r := h.liveUnique q hq r hrm hql hrl (by rw [hqt, heq])
  rw [h2] at hqs
  exact hqs

theorem no_pub_sid {s : LP} (h : Inv s) {sd : Nat} (hfr : sidFresh s sd = true) :
    ∀ p ∈ allPubs s, p.trackSid ≠ sd := by
  intro p hp heq
  obtain ⟨q, hq, -, -, hqs⟩ := h.pubRec p hp
  have h2 := List.all_eq_true.mp hfr q hq
  rw [hqs, heq] at h2
  simp at h2

theorem inv_sigSid {s : LP} (h : Inv s) (tid sd : Nat) : Inv (step s (Ev.sigSid tid sd)) := by
  unfold step
  cases htd : s.teardown with
  | true => simp only [htd, if_true]; exact h
  | false =>
    simp only [htd, Bool.false_eq_true, if_false]
    cases hsl : sigLookup s.sigs tid with
    | none => exact h
    | some r =>
      simp only []
      cases hguard : (r.error.isNone && r.sid.isNone && !r.failed && sidFresh s sd) with
      | false => simp only [hguard, Bool.false_eq_true, if_false]; exact h
      | true =>
        rw [if_pos rfl]
        have hcomps := hguard
        simp only [Bool.and_eq_true, Bool.not_eq_true', Option.isNone_iff_eq_none] at hcomps
        obtain ⟨⟨⟨herr, hsd0⟩, hfail⟩, hfr⟩ := hcomps
        obtain ⟨hrm, hrl, hrt⟩ := sigLookup_some hsl
        have hgref : ∀ x : SigRec,
            ((fun x => if x.ref = r.ref then { x with sid := some sd } else x) x).ref = x.ref := by
          intro x; by_cases hx : x.ref = r.ref <;> simp [hx]
        have hgtid : ∀ x : SigRec,
            ((fun x => if x.ref = r.ref then { x with sid := some sd } else x) x).tid = x.tid := by
          intro x; by_cases hx : x.ref = r.ref <;> simp [hx]
        have hglive : ∀ x : SigRec,
            ((fun x => if x.ref = r.ref then { x with sid := some sd } else x) x).live = true
              → x.live = true := by
          intro x; by_cases hx : x.ref = r.ref <;> simp [hx]
        have hbr : sigByRef s.sigs r.ref = some r := sigByRef_of_mem h.refInj hrm
        have hs1sigs : (updateRef s r.ref fun x => { x with sid := some sd }).sigs
            = s.sigs.map fun x => if x.ref = r.ref then { x with sid := some sd } else x := rfl
        have hbr1 : sigByRef (updateRef s r.ref fun x => { x with sid := some sd }).sigs r.ref
            = some { r with sid := some sd } := by
          rw [hs1sigs, sigByRef_map_some hgref hbr]
          simp
        have hnp : ∀ p ∈ allPubs s, p.track.id ≠ tid := by
          intro p hp
          rw [← hrt]
          exact no_pub_of_sid_none h hrm hrl hsd0 p hp
        cases hreg : tracksFind s tid with
        | none =>
          have hnomatch : ∀ a ∈ (updateRef s r.ref fun x => { x with sid := some sd }).attempts,
              a.attached = true → a.ref ≠ r.ref := by
            intro a ha hat heq
            obtain ⟨htid2, hgood⟩ := attached_rec_eq h ha hat hrm heq
            obtain ⟨-, -, -, -, hmem⟩ := hgood htd
            have h5 := tracksFind_isSome_of_mem hmem
            rw [show a.track.id = tid from by rw [← htid2, hrt], hreg] at h5
            simp at h5
          have hdel := deliverAux_nomatch (s := updateRef s r.ref fun x => { x with sid := some sd })
            hnomatch
          unfold deliver
          rw [hdel]
          constructor
          · exact h.pubTracks
          · exact h.settle
          · intro a ha hat
            obtain ⟨r2, h1, h2, h3⟩ := h.attachedRec a ha hat
            have hne : r2.ref ≠ r.ref := by
              intro heq
              exact hnomatch a ha hat ((sigByRef_some h1).2 ▸ heq)
            refine ⟨r2, ?_, h2, h3⟩
            rw [hs1sigs, sigByRef_map_some hgref h1]
            simp [hne]
          · exact (sig_map_invs _ hgref hgtid hglive h.refBound h.refInj h.liveUnique).1
          · exact (sig_map_invs _ hgref hgtid hglive h.refBound h.refInj h.liveUnique).2.1
          · exact (sig_map_invs _ hgref hgtid hglive h.refBound h.refInj h.liveUnique).2.2
          · exact h.sidUnique
          · exact h.kindOk
          · exact h.kindSub
          · intro p hp
            obtain ⟨q, hq, hql, hqt, hqs⟩ := h.pubRec p hp
            have hqne : q.ref ≠ r.ref := by
              intro heq
              have h5 : q = r := h.refInj q hq r hrm heq
              rw [h5, hsd0] at hqs
              simp at hqs
            refine ⟨q, ?_, hql, hqt, hqs⟩
            rw [hs1sigs]
            refine List.mem_map.mpr ⟨q, hq, ?_⟩
            simp [hqne]
          · exact h.trackIdInj
          · exact h.pendingWitness
        | some w =>
          have hw := tracksFind_some hreg
          have htr : ∀ a ∈ (updateRef s r.ref fun x => { x with sid := some sd }).attempts,
              a.attached = true → a.ref = r.ref → a.track = w := by
            intro a ha hat heq
            obtain ⟨htid2, hgood⟩ := attached_rec_eq h ha hat hrm heq
            obtain ⟨-, -, -, -, hmem⟩ := hgood htd
            refine h.trackIdInj a.track hmem w hw.1 ?_
            rw [← htid2, hrt, hw.2]
          have hu1 : ∃ w2, tracksFind (updateRef s r.ref fun x => { x with sid := some sd }) w.id
              = some w2 := by
            refine ⟨w, ?_⟩
            have h5 : tracksFind (updateRef s r.ref fun x => { x with sid := some sd }) w.id
                = tracksFind s w.id := tracksFind_congr rfl w.id
            rw [h5, hw.2]
            exact hreg
          have hpub1 : getTrackPublication
                (updateRef s r.ref fun x => { x with sid := some sd }).trackPublications
                (PubArg.lt w) = none
              ∨ getTrackPublication
                (updateRef s r.ref fun x => { x with sid := some sd }).trackPublications
                (PubArg.lt w) = some ⟨w, sd⟩ := by
            left
            cases hgp : getTrackPublication s.trackPublications (PubArg.lt w) with
            | none => exact hgp
            | some p =>
              exfalso
              obtain ⟨hp1, hp2⟩ := getTrackPublication_some hgp
              have hp3 : p.track = w := by simpa [pubMatches] using hp2
              exact hnp p (mem_allPubs_of_flat hp1) (by rw [hp3, hw.2])
          have hfresh1 : ∀ p ∈ allPubs (updateRef s r.ref fun x => { x with sid := some sd }),
              p.trackSid = sd → p = (⟨w, sd⟩ : Publication) := by
            intro p hp hps
            exact absurd hps (no_pub_sid h hfr p hp)
          obtain ⟨s2, heq2, h2tracks, h2sigs, h2td, h2ss, h2fU, h2fL, h2kU, h2kL, h2ks, h2mk⟩ :=
            deliverAux_sid (u := w) hbr1 (by simpa using herr) (by simp) hu1 htr hpub1
              hfresh1 h.kindSub
          have hkind1 : ∀ k : Kind,
              kindPubs (updateRef s r.ref fun x => { x with sid := some sd }) k
                = kindPubs s k := by
            intro k
            cases k <;> rfl
          have hflat1 : (updateRef s r.ref fun x => { x with sid := some sd }).trackPublications
              = s.trackPublications := rfl
          have hclass : ∀ p ∈ allPubs s2, p ∈ allPubs s ∨ p = (⟨w, sd⟩ : Publication) := by
            intro p hp
            rcases mem_allPubs.mp hp with hp2 | hp2 | hp2 | hp2
            · rcases h2fU p hp2 with h3 | h3
              · rw [hflat1] at h3
                exact Or.inl (mem_allPubs_of_flat h3)
              · exact Or.inr h3
            · rcases h2kU Kind.audio p hp2 with h3 | h3
              · rw [hkind1] at h3
                exact Or.inl (mem_allPubs_of_kind h3)
              · exact Or.inr h3.1
            · rcases h2kU Kind.video p hp2 with h3 | h3
              · rw [hkind1] at h3
                exact Or.inl (mem_allPubs_of_kind h3)
              · exact Or.inr h3.1
            · rcases h2kU Kind.data p hp2 with h3 | h3
              · rw [hkind1] at h3
                exact Or.inl (mem_allPubs_of_kind h3)
              · exact Or.inr h3.1
          have hfin : Inv { s2 with
              attempts := settleAll r.ref (Outcome.published ⟨w, sd⟩) s.attempts } := by
            constructor
            · intro p hp
              have hp2 : p ∈ allPubs s2 := hp
              have htr2 : s2.tracks = s.tracks := h2tracks
              rcases hclass p hp2 with h3 | h3
              · show p.track ∈ s2.tracks
                rw [htr2]
                exact h.pubTracks p h3
              · show p.track ∈ s2.tracks
                rw [htr2, h3]
                exact hw.1
            · exact settle_settleAll h.settle
            · intro a ha hat
              obtain ⟨haS, hneS⟩ := attached_settleAll ha hat
              obtain ⟨r2, h1, h2, h3⟩ := h.attachedRec a haS hat
              have hne : r2.ref ≠ r.ref := by
                intro heq
                exact hneS ((sigByRef_some h1).2 ▸ heq)
              refine ⟨r2, ?_, h2, ?_⟩
              · show sigByRef s2.sigs a.ref = some r2
                rw [h2sigs, hs1sigs, sigByRef_map_some hgref h1]
                simp [hne]
              · intro htd5
                have htd6 : s.teardown = false := by
                  have : s2.teardown = s.teardown := h2td
                  rw [← this]
                  exact htd5
                obtain ⟨he, hsdx, hfx, hlx, hmx⟩ := h3 htd6
                refine ⟨he, hsdx, hfx, hlx, ?_⟩
                show a.track ∈ s2.tracks
                rw [show s2.tracks = s.tracks from h2tracks]
                exact hmx
            · show ∀ x ∈ s2.sigs, x.ref < s2.sigs.length
              rw [show s2.sigs = _ from h2sigs, hs1sigs]
              exact (sig_map_invs _ hgref hgtid hglive h.refBound h.refInj h.liveUnique).1
            · show ∀ r1 ∈ s2.sigs, ∀ r2 ∈ s2.sigs, r1.ref = r2.ref → r1 = r2
              rw [show s2.sigs = _ from h2sigs, hs1sigs]
              exact (sig_map_invs _ hgref hgtid hglive h.refBound h.refInj h.liveUnique).2.1
            · show ∀ r1 ∈ s2.sigs, ∀ r2 ∈ s2.sigs, r1.live = true → r2.live = true →
                r1.tid = r2.tid → r1 = r2
              rw [show s2.sigs = _ from h2sigs, hs1sigs]
              exact (sig_map_invs _ hgref hgtid hglive h.refBound h.refInj h.liveUnique).2.2
            · intro p hp q hq heq
              have hp2 : p ∈ allPubs s2 := hp
              have hq2 : q ∈ allPubs s2 := hq
              rcases hclass p hp2 with h3 | h3 <;> rcases hclass q hq2 with h4 | h4
              · exact h.sidUnique p h3 q h4 heq
              · exfalso
                rw [h4] at heq
                exact no_pub_sid h hfr p h3 heq
              · exfalso
                rw [h3] at heq
                exact no_pub_sid h hfr q h4 heq.symm
              · rw [h3, h4]
            · intro k p hp
              have hp2 : p ∈ kindPubs s2 k := hp
              rcases h2kU k p hp2 with h3 | h3
              · exact h.kindOk k p h3
              · rw [h3.1, ← h3.2]
            · exact h2ks
            · intro p hp
              have hp2 : p ∈ allPubs s2 := hp
              rcases hclass p hp2 with h3 | h3
              · obtain ⟨q, hq, hql, hqt, hqs⟩ := h.pubRec p h3
                have hqne : q.ref ≠ r.ref := by
                  intro heq
                  have h5 : q = r := h.refInj q hq r hrm heq
                  rw [h5, hsd0] at hqs
                  simp at hqs
                refine ⟨q, ?_, hql, hqt, hqs⟩
                show q ∈ s2.sigs
                rw [show s2.sigs = _ from h2sigs, hs1sigs]
                refine List.mem_map.mpr ⟨q, hq, ?_⟩
                simp [hqne]
              · refine ⟨{ r with sid := some sd }, ?_, ?_, ?_, ?_⟩
                · show _ ∈ s2.sigs
                  rw [show s2.sigs = _ from h2sigs, hs1sigs]
                  exact List.mem_map.mpr ⟨r, hrm, by simp⟩
                · simpa using hrl
                · rw [h3]
                  show r.tid = w.id
                  rw [hrt, hw.2]
                · rw [h3]
            · intro u hu v hv heq
              have hu2 : u ∈ s2.tracks := hu
              have hv2 : v ∈ s2.tracks := hv
              rw [show s2.tracks = s.tracks from h2tracks] at hu2 hv2
              exact h.trackIdInj u hu2 v hv2 heq
            · intro htd5 u hu hnpf
              have hu2 : u ∈ s2.tracks := hu
              rw [show s2.tracks = s.tracks from h2tracks] at hu2
              have hnps : ∀ p ∈ s.trackPublications, p.track ≠ u := by
                intro p hp heq
                exact hnpf p (h2fL p hp) heq
              obtain ⟨b, hb, hb1, hb2⟩ := h.pendingWitness htd u hu2 hnps
              by_cases hbm : b.ref = r.ref
              · exfalso
                have hbw : b.track = w := htr b hb hb1 hbm
                have h5 := h2mk ⟨b, hb, hb1, hbm⟩
                refine hnpf _ h5 ?_
                show w = u
                rw [← hb2, hbw]
              · refine ⟨b, ?_, hb1, hb2⟩
                exact mem_settleAll_of_unmatched hb (fun hx => hbm hx.2)
          unfold deliver
          rw [heq2]
          exact hfin

theorem inv_sigError {s : LP} (h : Inv s) (tid e : Nat) : Inv (step s (Ev.sigError tid e)) := by
  unfold step
  cases htd : s.teardown with
  | true => simp only [htd, if_true]; exact h
  | false =>
    simp only [htd, Bool.false_eq_true, if_false]
    cases hsl : sigLookup s.sigs tid with
    | none => exact h
    | some r =>
      simp only []
      cases hguard : (r.error.isNone && r.sid.isNone && !r.failed) with
      | false => simp only [hguard, Bool.false_eq_true, if_false]; exact h
      | true =>
        rw [if_pos rfl]
        have hcomps := hguard
        simp only [Bool.and_eq_true, Bool.not_eq_true', Option.isNone_iff_eq_none] at hcomps
        obtain ⟨⟨herr, hsd0⟩, hfail⟩ := hcomps
        obtain ⟨hrm, hrl, hrt⟩ := sigLookup_some hsl
        have hgref : ∀ x : SigRec,
            ((fun x => if x.ref = r.ref then { x with error := some e } else x) x).ref = x.ref := by
          intro x; by_cases hx : x.ref = r.ref <;> simp [hx]
        have hgtid : ∀ x : SigRec,
            ((fun x => if x.ref = r.ref then { x with error := some e } else x) x).tid = x.tid := by
          intro x; by_cases hx : x.ref = r.ref <;> simp [hx]
        have hglive : ∀ x : SigRec,
            ((fun x => if x.ref = r.ref then { x with error := some e } else x) x).live = true
              → x.live = true := by
          intro x; by_cases hx : x.ref = r.ref <;> simp [hx]
        have hbr : sigByRef s.sigs r.ref = some r := sigByRef_of_mem h.refInj hrm
        have hs1sigs : (updateRef s r.ref fun x => { x with error := some e }).sigs
            = s.sigs.map fun x => if x.ref = r.ref then { x with error := some e } else x := rfl
        have hbr1 : sigByRef (updateRef s r.ref fun x => { x with error := some e }).sigs r.ref
            = some { r with error := some e } := by
          rw [hs1sigs, sigByRef_map_some hgref hbr]
          simp
        have hnp : ∀ p ∈ allPubs s, p.track.id ≠ tid := by
          intro p hp
          rw [← hrt]
          exact no_pub_of_sid_none h hrm hrl hsd0 p hp
        have htid2 : ∀ a ∈ (updateRef s r.ref fun x => { x with error := some e }).attempts,
            a.attached = true → a.ref = r.ref → a.track.id = tid := by
          intro a ha hat heq
          obtain ⟨htidx, -⟩ := attached_rec_eq h ha hat hrm heq
          rw [← htidx, hrt]
        obtain ⟨s2, heq2, hflat, hkind, hsub, hkeep, hsigs, h2td, h2ss, hmk⟩ :=
          deliverAux_error ⟨{ r with error := some e }, hbr1, rfl⟩ htid2
        have hkind1 : ∀ k : Kind,
            kindPubs (updateRef s r.ref fun x => { x with error := some e }) k
              = kindPubs s k := by
          intro k
          cases k <;> rfl
        have hflat1 : (updateRef s r.ref fun x => { x with error := some e }).trackPublications
            = s.trackPublications := rfl
        have hclass : ∀ p ∈ allPubs s2, p ∈ allPubs s := by
          intro p hp
          rcases mem_allPubs.mp hp with hp2 | hp2 | hp2 | hp2
          · rw [hflat, hflat1] at hp2
            exact mem_allPubs_of_flat hp2
          · rw [hkind Kind.audio, hkind1] at hp2
            exact mem_allPubs_of_kind hp2
          · rw [hkind Kind.video, hkind1] at hp2
            exact mem_allPubs_of_kind hp2
          · rw [hkind Kind.data, hkind1] at hp2
            exact mem_allPubs_of_kind hp2
        have htrkeep : ∀ u ∈ s.tracks, u.id ≠ tid → u ∈ s2.tracks := by
          intro u hu hne
          exact hkeep u (show u ∈ (updateRef s r.ref fun x => { x with error := some e }).tracks
            from hu) hne
        have htrsub : ∀ u ∈ s2.tracks, u ∈ s.tracks := by
          intro u hu
          exact hsub.mem hu
        have hfin : Inv { s2 with
            attempts := settleAll r.ref (Outcome.publicationFailed e) s.attempts } := by
          constructor
          · intro p hp
            have hp2 : p ∈ allPubs s2 := hp
            have h3 := hclass p hp2
            show p.track ∈ s2.tracks
            exact htrkeep p.track (h.pubTracks p h3) (hnp p h3)
          · exact settle_settleAll h.settle
          · intro a ha hat
            obtain ⟨haS, hneS⟩ := attached_settleAll ha hat
            obtain ⟨r2, h1, h2, h3⟩ := h.attachedRec a haS hat
            have hne : r2.ref ≠ r.ref := by
              intro heq
              exact hneS ((sigByRef_some h1).2 ▸ heq)
            obtain ⟨he2, hs2x, hf2, hl2, hm2⟩ := h3 htd
            have hr2tid : r2.tid ≠ tid := by
              intro heq
              have h5 : r2 = r := h.liveUnique r2 (sigByRef_some h1).1 r hrm hl2 hrl
                (by rw [heq, hrt])
              exact hne (by rw [h5])
            refine ⟨r2, ?_, h2, ?_⟩
            · show sigByRef s2.sigs a.ref = some r2
              rcases hsigs with hc | hc
              · rw [hc, hs1sigs, sigByRef_map_some hgref h1]
                simp [hne]
              · rw [hc]
                unfold killSig
                rw [hs1sigs]
                have h6 : sigByRef ((s.sigs.map fun x =>
                    if x.ref = r.ref then { x with error := some e } else x)) a.ref
                    = some r2 := by
                  rw [sigByRef_map_some hgref h1]
                  simp [hne]
                rw [sigByRef_map_some (fun x => killSig_entry_ref tid x) h6]
                rw [killSig_id_of_ne hr2tid]
            · intro htd5
              refine ⟨he2, hs2x, hf2, hl2, ?_⟩
              show a.track ∈ s2.tracks
              exact htrkeep a.track hm2 (h2 ▸ hr2tid)
          · show ∀ x ∈ s2.sigs, x.ref < s2.sigs.length
            rcases hsigs with hc | hc <;> rw [hc, hs1sigs]
            · exact (sig_map_invs _ hgref hgtid hglive h.refBound h.refInj h.liveUnique).1
            · unfold killSig
              have hbase := sig_map_invs _ hgref hgtid hglive h.refBound h.refInj h.liveUnique
              exact (sig_map_invs _ (fun x => killSig_entry_ref tid x)
                (fun x => killSig_entry_tid tid x) (fun x hx => (killSig_entry_live hx).1)
                hbase.1 hbase.2.1 hbase.2.2).1
          · show ∀ r1 ∈ s2.sigs, ∀ r2 ∈ s2.sigs, r1.ref = r2.ref → r1 = r2
            rcases hsigs with hc | hc <;> rw [hc, hs1sigs]
            · exact (sig_map_invs _ hgref hgtid hglive h.refBound h.refInj h.liveUnique).2.1
            · unfold killSig
              have hbase := sig_map_invs _ hgref hgtid hglive h.refBound h.refInj h.liveUnique
              exact (sig_map_invs _ (fun x => killSig_entry_ref tid x)
                (fun x => killSig_entry_tid tid x) (fun x hx => (killSig_entry_live hx).1)
                hbase.1 hbase.2.1 hbase.2.2).2.1
          · show ∀ r1 ∈ s2.sigs, ∀ r2 ∈ s2.sigs, r1.live = true → r2.live = true →
              r1.tid = r2.tid → r1 = r2
            rcases hsigs with hc | hc <;> rw [hc, hs1sigs]
            · exact (sig_map_invs _ hgref hgtid hglive h.refBound h.refInj h.liveUnique).2.2
            · unfold killSig
              have hbase := sig_map_invs _ hgref hgtid hglive h.refBound h.refInj h.liveUnique
              exact (sig_map_invs _ (fun x => killSig_entry_ref tid x)
                (fun x => killSig_entry_tid tid x) (fun x hx => (killSig_entry_live hx).1)
                hbase.1 hbase.2.1 hbase.2.2).2.2
          · intro p hp q hq heq
            exact h.sidUnique p (hclass p hp) q (hclass q hq) heq
          · intro k p hp
            have hp2 : p ∈ kindPubs s2 k := hp
            rw [hkind k, hkind1] at hp2
            exact h.kindOk k p hp2
          · intro k p hp
            have hp2 : p ∈ kindPubs s2 k := hp
            rw [hkind k, hkind1] at hp2
            show p ∈ s2.trackPublications
            rw [hflat, hflat1]
            exact h.kindSub k p hp2
          · intro p hp
            have h3 := hclass p hp
            obtain ⟨q, hq, hql, hqt, hqs⟩ := h.pubRec p h3
            have hqne : q.ref ≠ r.ref := by
              intro heq
              have h5 : q = r := h.refInj q hq r hrm heq
              rw [h5, hsd0] at hqs
              simp at hqs
            have hqtid : q.tid ≠ tid := by
              rw [hqt]
              exact hnp p h3
            refine ⟨q, ?_, hql, hqt, hqs⟩
            show q ∈ s2.sigs
            have hqmem1 : q ∈ (s.sigs.map fun x =>
                if x.ref = r.ref then { x with error := some e } else x) := by
              refine List.mem_map.mpr ⟨q, hq, ?_⟩
              simp [hqne]
            rcases hsigs with hc | hc
            · rw [hc, hs1sigs]
              exact hqmem1
            · rw [hc, hs1sigs]
              exact mem_killSig_of_ne hqmem1 hqtid
          · intro u hu v hv heq
            exact h.trackIdInj u (htrsub u hu) v (htrsub v hv) heq
          · intro htd5 u hu hnpf
            have hu2 : u ∈ s.tracks := htrsub u hu
            have hnps : ∀ p ∈ s.trackPublications, p.track ≠ u := by
              intro p hp heq
              refine hnpf p ?_ heq
              show p ∈ s2.trackPublications
              rw [hflat, hflat1]
              exact hp
            obtain ⟨b, hb, hb1, hb2⟩ := h.pendingWitness htd u hu2 hnps
            by_cases hbm : b.ref = r.ref
            · exfalso
              have hbt : b.track.id = tid := htid2 b hb hb1 hbm
              have h5 := hmk ⟨b, hb, hb1, hbm⟩
              exact h5 u hu (by rw [← hb2, hbt])
            · refine ⟨b, ?_, hb1, hb2⟩
              exact mem_settleAll_of_unmatched hb (fun hx => hbm hx.2)
        unfold deliver
        rw [heq2]
        exact hfin

theorem mem_allPubs_removeTrackP {sX : LP} {t : Track} {p : Publication} :
    p ∈ allPubs (removeTrackP sX t) ↔ p ∈ allPubs sX := by
  rw [mem_allPubs, mem_allPubs, removeTrackP_flat, removeTrackP_kind, removeTrackP_kind,
    removeTrackP_kind]

theorem inv_remove_clean {s sX : LP} (h : Inv s) {lt : Track}
    (hmem : lt ∈ s.tracks)
    (c1 : ∀ p ∈ allPubs sX, p ∈ allPubs s ∧ p.track ≠ lt)
    (c2 : sX.tracks = s.tracks)
    (c3 : sX.sigs = s.sigs)
    (c4 : sX.attempts = s.attempts)
    (c5 : sX.teardown = s.teardown)
    (c6 : ∀ k : Kind, ∀ p ∈ kindPubs sX k, p ∈ sX.trackPublications)
    (c7 : ∀ p ∈ s.trackPublications, p.track ≠ lt → p ∈ sX.trackPublications)
    (c8 : s.teardown = false → ∀ a ∈ s.attempts, a.attached = true → a.track.id ≠ lt.id)
    (c9 : ∀ k : Kind, ∀ p ∈ kindPubs sX k, p ∈ kindPubs s k) :
    Inv (removeTrackP sX lt) := by
  have hres_attempts : (removeTrackP sX lt).attempts = s.attempts := by
    rw [removeTrackP_attempts, c4]
  have hres_td : (removeTrackP sX lt).teardown = s.teardown := by
    rw [removeTrackP_teardown, c5]
  have hres_flat : (removeTrackP sX lt).trackPublications = sX.trackPublications :=
    removeTrackP_flat sX lt
  have hne_of_clean : ∀ p ∈ allPubs sX, p.track.id ≠ lt.id := by
    intro p hp heq
    obtain ⟨hps, hpne⟩ := c1 p hp
    exact hpne (h.trackIdInj p.track (h.pubTracks p hps) lt hmem heq)
  constructor
  · intro p hp
    have hp2 := mem_allPubs_removeTrackP.mp hp
    obtain ⟨hps, hpne⟩ := c1 p hp2
    have hid : p.track.id ≠ lt.id := hne_of_clean p hp2
    have hmem2 : p.track ∈ sX.tracks := by
      rw [c2]
      exact h.pubTracks p hps
    exact mem_removeTrackP_tracks_of_ne hmem2 hid
  · rw [hres_attempts]
    exact h.settle
  · intro a ha hat
    rw [hres_attempts] at ha
    obtain ⟨r2, h1, h2, h3⟩ := h.attachedRec a ha hat
    rcases removeTrackP_sigs_cases sX lt with hc | hc
    · refine ⟨r2, ?_, h2, ?_⟩
      · rw [hc, c3]
        exact h1
      · intro htd5
        rw [hres_td] at htd5
        obtain ⟨he, hs2, hf2, hl2, hm2⟩ := h3 htd5
        refine ⟨he, hs2, hf2, hl2, ?_⟩
        have hane := c8 htd5 a ha hat
        refine mem_removeTrackP_tracks_of_ne ?_ hane
        rw [c2]
        exact hm2
    · refine ⟨if r2.tid = lt.id then { r2 with live := false } else r2, ?_, ?_, ?_⟩
      · rw [hc, c3, sigByRef_killSig, h1]
        rfl
      · rw [killSig_entry_tid]
        exact h2
      · intro htd5
        rw [hres_td] at htd5
        obtain ⟨he, hs2, hf2, hl2, hm2⟩ := h3 htd5
        have hane := c8 htd5 a ha hat
        have hr2ne : r2.tid ≠ lt.id := by
          rw [h2]
          exact hane
        rw [if_neg hr2ne]
        refine ⟨he, hs2, hf2, hl2, ?_⟩
        refine mem_removeTrackP_tracks_of_ne ?_ hane
        rw [c2]
        exact hm2
  · rcases removeTrackP_sigs_cases sX lt with hc | hc <;> rw [hc, c3]
    · exact h.refBound
    · unfold killSig
      exact (sig_map_invs _ (fun x => killSig_entry_ref lt.id x)
        (fun x => killSig_entry_tid lt.id x) (fun x hx => (killSig_entry_live hx).1)
        h.refBound h.refInj h.liveUnique).1
  · rcases removeTrackP_sigs_cases sX lt with hc | hc <;> rw [hc, c3]
    · exact h.refInj
    · unfold killSig
      exact (sig_map_invs _ (fun x => killSig_entry_ref lt.id x)
        (fun x => killSig_entry_tid lt.id x) (fun x hx => (killSig_entry_live hx).1)
        h.refBound h.refInj h.liveUnique).2.1
  · rcases removeTrackP_sigs_cases sX lt with hc | hc <;> rw [hc, c3]
    · exact h.liveUnique
    · unfold killSig
      exact (sig_map_invs _ (fun x => killSig_entry_ref lt.id x)
        (fun x => killSig_entry_tid lt.id x) (fun x hx => (killSig_entry_live hx).1)
        h.refBound h.refInj h.liveUnique).2.2
  · intro p hp q hq heq
    have hp2 := (c1 p (mem_allPubs_removeTrackP.mp hp)).1
    have hq2 := (c1 q (mem_allPubs_removeTrackP.mp hq)).1
    exact h.sidUnique p hp2 q hq2 heq
  · intro k p hp
    rw [removeTrackP_kind] at hp
    exact h.kindOk k p (c9 k p hp)
  · intro k p hp
    rw [removeTrackP_kind] at hp
    rw [hres_flat]
    exact c6 k p hp
  · intro p hp
    have hp2 := mem_allPubs_removeTrackP.mp hp
    obtain ⟨hps, -⟩ := c1 p hp2
    have hid : p.track.id ≠ lt.id := hne_of_clean p hp2
    obtain ⟨q, hq, hql, hqt, hqs⟩ := h.pubRec p hps
    have hqne : q.tid ≠ lt.id := by
      rw [hqt]
      exact hid
    rcases removeTrackP_sigs_cases sX lt with hc | hc
    · refine ⟨q, ?_, hql, hqt, hqs⟩
      rw [hc, c3]
      exact hq
    · refine ⟨q, ?_, hql, hqt, hqs⟩
      rw [hc, c3]
      exact mem_killSig_of_ne hq hqne
  · intro u hu v hv heq
    have hu2 : u ∈ s.tracks := by
      rw [← c2]
      exact removeTrackP_tracks_subset u hu
    have hv2 : v ∈ s.tracks := by
      rw [← c2]
      exact removeTrackP_tracks_subset v hv
    exact h.trackIdInj u hu2 v hv2 heq
  · intro htd5 u hu hnpf
    rw [hres_td] at htd5
    have hu2 : u ∈ s.tracks := by
      rw [← c2]
      exact removeTrackP_tracks_subset u hu
    have huid : u.id ≠ lt.id := removeTrackP_no_id sX lt u hu
    have hune : u ≠ lt := fun he => huid (by rw [he])
    have hnps : ∀ p ∈ s.trackPublications, p.track ≠ u := by
      intro p hp heq
      refine hnpf p ?_ heq
      rw [hres_flat]
      exact c7 p hp (by rw [heq]; exact hune)
    obtain ⟨b, hb, hb1, hb2⟩ := h.pendingWitness htd5 u hu2 hnps
    refine ⟨b, ?_, hb1, hb2⟩
    rw [hres_attempts]
    exact hb

theorem inv_unpub_delete {s : LP} (h : Inv s) {lt : Track} {r : SigRec} {p0 : Publication}
    (hltm : lt ∈ s.tracks)
    (hrm : r ∈ s.sigs) (hrl : r.live = true) (hrt : r.tid = lt.id)
    (hp0f : p0 ∈ s.trackPublications) (hp0t : p0.track = lt)
    (c8 : s.teardown = false → ∀ b ∈ s.attempts, b.attached = true → b.track.id ≠ lt.id) :
    Inv (removeTrackP { withKindPubs s lt.kind (removeSid (kindPubs s lt.kind) p0.trackSid) with
        trackPublications := removeSid s.trackPublications p0.trackSid } lt) := by
  have hp0all : p0 ∈ allPubs s := mem_allPubs_of_flat hp0f
  have htrack_eq : ∀ p ∈ allPubs s, p.track = lt → p = p0 := by
    intro p hp he
    have h1 := pub_sid_of_track h hrm hrl p hp (by rw [he]; exact hrt.symm)
    have h2 := pub_sid_of_track h hrm hrl p0 hp0all (by rw [hp0t]; exact hrt.symm)
    rw [h1] at h2
    exact h.sidUnique p hp p0 hp0all (Option.some.inj h2)
  have hsid_eq : ∀ p ∈ allPubs s, p.trackSid = p0.trackSid → p = p0 := by
    intro p hp he
    exact h.sidUnique p hp p0 hp0all he
  have hkT : ∀ k : Kind,
      kindPubs { withKindPubs s lt.kind (removeSid (kindPubs s lt.kind) p0.trackSid) with
        trackPublications := removeSid s.trackPublications p0.trackSid } k
      = kindPubs (withKindPubs s lt.kind (removeSid (kindPubs s lt.kind) p0.trackSid)) k := by
    intro k
    exact kindPubs_setFlat _ _ k
  have hkmem : ∀ k : Kind, ∀ p : Publication,
      p ∈ kindPubs (withKindPubs s lt.kind (removeSid (kindPubs s lt.kind) p0.trackSid)) k →
      p ∈ kindPubs s k ∧ p.trackSid ≠ p0.trackSid := by
    intro k p hp
    by_cases hk : k = lt.kind
    · subst hk
      rw [kindPubs_withKindPubs_same] at hp
      exact mem_removeSid.mp hp
    · rw [kindPubs_withKindPubs_ne s _ hk] at hp
      refine ⟨hp, ?_⟩
      intro he
      have h5 := hsid_eq p (mem_allPubs_of_kind hp) he
      rw [h5] at hp
      have h6 := h.kindOk k p0 hp
      rw [hp0t] at h6
      exact hk h6.symm
  refine inv_remove_clean h hltm ?_ ?_ ?_ ?_ ?_ ?_ ?_ c8 ?_
  · intro p hp
    rcases mem_allPubs.mp hp with h1 | h1 | h1 | h1
    · have h1f : p ∈ removeSid s.trackPublications p0.trackSid := h1
      obtain ⟨hpf, hpne⟩ := mem_removeSid.mp h1f
      refine ⟨mem_allPubs_of_flat hpf, ?_⟩
      intro he
      exact hpne (by rw [htrack_eq p (mem_allPubs_of_flat hpf) he])
    · rw [hkT] at h1
      obtain ⟨hpk, hpne⟩ := hkmem Kind.audio p h1
      refine ⟨mem_allPubs_of_kind hpk, ?_⟩
      intro he
      exact hpne (by rw [htrack_eq p (mem_allPubs_of_kind hpk) he])
    · rw [hkT] at h1
      obtain ⟨hpk, hpne⟩ := hkmem Kind.video p h1
      refine ⟨mem_allPubs_of_kind hpk, ?_⟩
      intro he
      exact hpne (by rw [htrack_eq p (mem_allPubs_of_kind hpk) he])
    · rw [hkT] at h1
      obtain ⟨hpk, hpne⟩ := hkmem Kind.data p h1
      refine ⟨mem_allPubs_of_kind hpk, ?_⟩
      intro he
      exact hpne (by rw [htrack_eq p (mem_allPubs_of_kind hpk) he])
  · simp
  · simp
  · simp
  · simp
  · intro k p hp
    rw [hkT] at hp
    obtain ⟨hpk, hpne⟩ := hkmem k p hp
    show p ∈ removeSid s.trackPublications p0.trackSid
    exact mem_removeSid.mpr ⟨h.kindSub k p hpk, hpne⟩
  · intro p hpf hpne
    show p ∈ removeSid s.trackPublications p0.trackSid
    refine mem_removeSid.mpr ⟨hpf, ?_⟩
    intro he
    exact hpne (by rw [hsid_eq p (mem_allPubs_of_flat hpf) he, hp0t])
  · intro k p hp
    rw [hkT] at hp
    exact (hkmem k p hp).1

theorem inv_unpub {s : LP} (h : Inv s) (a : PubArg) : Inv (step s (Ev.unpub a)) := by
  simp only [step]
  cases hid : argTrackId a with
  | none =>
    simp only [unpublishTrackFn, hid]
    exact h
  | some tid0 =>
    cases hft : tracksFind s tid0 with
    | none =>
      simp only [unpublishTrackFn, hid, hft]
      exact h
    | some lt =>
      cases hsl : sigLookup s.sigs lt.id with
      | none =>
        simp only [unpublishTrackFn, hid, hft, hsl]
        exact h
      | some r =>
        obtain ⟨hltm, hlid⟩ := tracksFind_some hft
        obtain ⟨hrm, hrl, hrt⟩ := sigLookup_some hsl
        cases hfresh : (r.error.isNone && r.sid.isNone && !r.failed) with
        | false =>
          have hz : publishFailedMark s r = (s, false) := by
            simp [publishFailedMark, hfresh]
          have c8 : s.teardown = false → ∀ b ∈ s.attempts, b.attached = true →
              b.track.id ≠ lt.id := by
            intro htd b hb hat heq
            obtain ⟨r2, h1, h2, h3⟩ := h.attachedRec b hb hat
            obtain ⟨he2, hs2x, hf2, hl2, -⟩ := h3 htd
            have h5 : r2 = r := h.liveUnique r2 (sigByRef_some h1).1 r hrm hl2 hrl
              (by rw [h2, heq, hrt])
            rw [h5] at he2 hs2x hf2
            rw [he2, hs2x, hf2] at hfresh
            simp at hfresh
          cases hp : getTrackPublication s.trackPublications (PubArg.lt lt) with
          | none =>
            have hU : unpublishTrackFn s a = (removeTrackP s lt, none, UnpubRet.ret none) := by
              simp [unpublishTrackFn, hid, hft, hsl, hz, hp]
            rw [hU]
            have hnolt : ∀ p ∈ allPubs s, p ∈ allPubs s ∧ p.track ≠ lt := by
              intro p hp2
              refine ⟨hp2, ?_⟩
              intro he
              have hflatp : p ∈ s.trackPublications := by
                rcases mem_allPubs.mp hp2 with h1 | h1 | h1 | h1
                · exact h1
                · exact h.kindSub Kind.audio p h1
                · exact h.kindSub Kind.video p h1
                · exact h.kindSub Kind.data p h1
              have h2 := getTrackPublication_none hp p hflatp
              have h3 : pubMatches p (PubArg.lt lt) = true := pubMatches_lt.mpr he
              rw [h2] at h3
              simp at h3
            exact inv_remove_clean h hltm hnolt rfl rfl rfl rfl h.kindSub
              (fun p hp2 _ => hp2) c8 (fun k p hp2 => hp2)
          | some p0 =>
            obtain ⟨hp0f, hp0m⟩ := getTrackPublication_some hp
            have hp0t : p0.track = lt := pubMatches_lt.mp hp0m
            have hU : unpublishTrackFn s a
                = (removeTrackP { withKindPubs s lt.kind
                      (removeSid (kindPubs s lt.kind) p0.trackSid) with
                    trackPublications := removeSid s.trackPublications p0.trackSid } lt,
                   none, UnpubRet.ret (some p0)) := by
              simp [unpublishTrackFn, hid, hft, hsl, hz, hp]
            rw [hU]
            exact inv_unpub_delete h hltm hrm hrl hrt hp0f hp0t c8
        | true =>
          have hcomps := hfresh
          simp only [Bool.and_eq_true, Bool.not_eq_true', Option.isNone_iff_eq_none] at hcomps
          obtain ⟨⟨herr, hsd0⟩, hfail⟩ := hcomps
          have hz : publishFailedMark s r
              = (updateRef s r.ref fun x => { x with failed := true }, true) := by
            simp [publishFailedMark, hfresh]
          have hpubnone : getTrackPublication s.trackPublications (PubArg.lt lt) = none := by
            cases hp : getTrackPublication s.trackPublications (PubArg.lt lt) with
            | none => rfl
            | some p0 =>
              exfalso
              obtain ⟨hp0f, hp0m⟩ := getTrackPublication_some hp
              have hp0t : p0.track = lt := pubMatches_lt.mp hp0m
              have h2 := pub_sid_of_track h hrm hrl p0 (mem_allPubs_of_flat hp0f)
                (by rw [hp0t]; exact hrt.symm)
              rw [hsd0] at h2
              exact Option.noConfusion h2
          have hU : unpublishTrackFn s a
              = (removeTrackP (updateRef s r.ref fun x => { x with failed := true }) lt,
                 some r.ref, UnpubRet.ret none) := by
            simp [unpublishTrackFn, updateRef, hid, hft, hsl, hz, hpubnone]
          rw [hU]
          show Inv (deliver
            (removeTrackP (updateRef s r.ref fun x => { x with failed := true }) lt) r.ref)
          have hgref : ∀ x : SigRec,
              ((fun x => if x.ref = r.ref then { x with failed := true } else x) x).ref
                = x.ref := by
            intro x; by_cases hx : x.ref = r.ref <;> simp [hx]
          have hgtid : ∀ x : SigRec,
              ((fun x => if x.ref = r.ref then { x with failed := true } else x) x).tid
                = x.tid := by
            intro x; by_cases hx : x.ref = r.ref <;> simp [hx]
          have hglive : ∀ x : SigRec,
              ((fun x => if x.ref = r.ref then { x with failed := true } else x) x).live = true
                → x.live = true := by
            intro x; by_cases hx : x.ref = r.ref <;> simp [hx]
          have hbr : sigByRef s.sigs r.ref = some r := sigByRef_of_mem h.refInj hrm
          have hs1sigs : (updateRef s r.ref fun x => { x with failed := true }).sigs
              = s.sigs.map fun x => if x.ref = r.ref then { x with failed := true } else x := rfl
          have hbr1 : sigByRef (updateRef s r.ref fun x => { x with failed := true }).sigs r.ref
              = some { r with failed := true } := by
            rw [hs1sigs, sigByRef_map_some hgref hbr]
            simp
          have hs3att : (removeTrackP (updateRef s r.ref fun x =>
              { x with failed := true }) lt).attempts = s.attempts :=
            removeTrackP_attempts _ lt
          have hs3td : (removeTrackP (updateRef s r.ref fun x =>
              { x with failed := true }) lt).teardown = s.teardown :=
            removeTrackP_teardown _ lt
          have hs3flat : (removeTrackP (updateRef s r.ref fun x =>
              { x with failed := true }) lt).trackPublications = s.trackPublications :=
            removeTrackP_flat _ lt
          have hs3kind : ∀ k : Kind, kindPubs (removeTrackP (updateRef s r.ref fun x =>
              { x with failed := true }) lt) k = kindPubs s k := by
            intro k
            cases k <;> exact removeTrackP_kind _ lt _
          have hAp : ∀ p : Publication, p ∈ allPubs (removeTrackP (updateRef s r.ref fun x =>
              { x with failed := true }) lt) ↔ p ∈ allPubs s := by
            intro p
            rw [mem_allPubs, mem_allPubs, hs3flat, hs3kind, hs3kind, hs3kind]
          have hnp : ∀ p ∈ allPubs s, p.track.id ≠ lt.id := by
            intro p hp
            rw [← hrt]
            exact no_pub_of_sid_none h hrm hrl hsd0 p hp
          have htrkeep : ∀ u ∈ s.tracks, u.id ≠ lt.id → u ∈ (removeTrackP (updateRef s r.ref
              fun x => { x with failed := true }) lt).tracks := by
            intro u hu hne
            exact mem_removeTrackP_tracks_of_ne
              (show u ∈ (updateRef s r.ref fun x => { x with failed := true }).tracks from hu) hne
          have htrsub : ∀ u ∈ (removeTrackP (updateRef s r.ref fun x =>
              { x with failed := true }) lt).tracks, u ∈ s.tracks := by
            intro u hu
            have hu1 := removeTrackP_tracks_subset u hu
            exact hu1
          have hnoid : ∀ u ∈ (removeTrackP (updateRef s r.ref fun x =>
              { x with failed := true }) lt).tracks, u.id ≠ lt.id :=
            removeTrackP_no_id _ lt
          have hgone : tracksFind (removeTrackP (updateRef s r.ref fun x =>
              { x with failed := true }) lt) lt.id = none :=
            tracksFind_removeTrackP_self _ lt
          have htidl : ∀ b ∈ (removeTrackP (updateRef s r.ref fun x =>
              { x with failed := true }) lt).attempts, b.attached = true → b.ref = r.ref →
              b.track.id = lt.id := by
            intro b hb hat heq
            rw [hs3att] at hb
            obtain ⟨htidx, -⟩ := attached_rec_eq h hb hat hrm heq
            rw [← htidx, hrt]
          obtain ⟨rX, hrX, hrXerr⟩ : ∃ rX, sigByRef (removeTrackP (updateRef s r.ref fun x =>
              { x with failed := true }) lt).sigs r.ref = some rX ∧ rX.error = none := by
            rcases removeTrackP_sigs_cases (updateRef s r.ref fun x =>
                { x with failed := true }) lt with hc | hc
            · refine ⟨{ r with failed := true }, ?_, herr⟩
              rw [hc]
              exact hbr1
            · refine ⟨{ r with failed := true, live := false }, ?_, herr⟩
              rw [hc, sigByRef_killSig, hbr1]
              simp [hrt]
          have hsigsc := removeTrackP_sigs_cases (updateRef s r.ref fun x =>
            { x with failed := true }) lt
          obtain ⟨s3, hs3⟩ : ∃ x : LP, removeTrackP (updateRef s r.ref fun x =>
              { x with failed := true }) lt = x := ⟨_, rfl⟩
          rw [hs3] at hs3att hs3td hs3flat hs3kind hAp htrkeep htrsub hnoid
          rw [hs3] at hgone htidl hrX hsigsc ⊢
          have hfold := deliverAux_gone hrX hrXerr hgone htidl
          have hfin : Inv { s3 with
              attempts := settleAll r.ref Outcome.raceSuperseded s3.attempts } := by
            rw [hs3att]
            constructor
            · intro p hp
              have hp2 : p ∈ allPubs s3 := hp
              have h3 := (hAp p).mp hp2
              show p.track ∈ s3.tracks
              exact htrkeep p.track (h.pubTracks p h3) (hnp p h3)
            · exact settle_settleAll h.settle
            · intro b hb hat
              obtain ⟨hbS, hbne⟩ := attached_settleAll hb hat
              obtain ⟨r2, h1, h2, h3⟩ := h.attachedRec b hbS hat
              have hne : r2.ref ≠ r.ref := by
                intro heq
                exact hbne ((sigByRef_some h1).2 ▸ heq)
              have hmap1 : sigByRef (updateRef s r.ref fun x =>
                  { x with failed := true }).sigs b.ref = some r2 := by
                rw [hs1sigs, sigByRef_map_some hgref h1]
                simp [hne]
              rcases hsigsc with hc | hc
              · refine ⟨r2, ?_, h2, ?_⟩
                · show sigByRef s3.sigs b.ref = some r2
                  rw [hc]
                  exact hmap1
                · intro htd5
                  have htd6 : s3.teardown = false := htd5
                  have htdS : s.teardown = false := by rw [← hs3td]; exact htd6
                  obtain ⟨he2, hs2x, hf2, hl2, hm2⟩ := h3 htdS
                  have hbne2 : b.track.id ≠ lt.id := by
                    intro heq
                    have h5 : r2 = r := h.liveUnique r2 (sigByRef_some h1).1 r hrm hl2 hrl
                      (by rw [h2, heq, hrt])
                    exact hne (by rw [h5])
                  refine ⟨he2, hs2x, hf2, hl2, ?_⟩
                  show b.track ∈ s3.tracks
                  exact htrkeep b.track hm2 hbne2
              · refine ⟨if r2.tid = lt.id then { r2 with live := false } else r2, ?_, ?_, ?_⟩
                · show sigByRef s3.sigs b.ref
                    = some (if r2.tid = lt.id then { r2 with live := false } else r2)
                  rw [hc, sigByRef_killSig, hmap1]
                  rfl
                · rw [killSig_entry_tid]
                  exact h2
                · intro htd5
                  have htd6 : s3.teardown = false := htd5
                  have htdS : s.teardown = false := by rw [← hs3td]; exact htd6
                  obtain ⟨he2, hs2x, hf2, hl2, hm2⟩ := h3 htdS
                  have hbne2 : b.track.id ≠ lt.id := by
                    intro heq
                    have h5 : r2 = r := h.liveUnique r2 (sigByRef_some h1).1 r hrm hl2 hrl
                      (by rw [h2, heq, hrt])
                    exact hne (by rw [h5])
                  have hr2ne : r2.tid ≠ lt.id := by rw [h2]; exact hbne2
                  rw [if_neg hr2ne]
                  refine ⟨he2, hs2x, hf2, hl2, ?_⟩
                  show b.track ∈ s3.tracks
                  exact htrkeep b.track hm2 hbne2
            · show ∀ x ∈ s3.sigs, x.ref < s3.sigs.length
              rcases hsigsc with hc | hc <;> rw [hc, hs1sigs]
              · exact (sig_map_invs _ hgref hgtid hglive h.refBound h.refInj h.liveUnique).1
              · unfold killSig
                have hbase := sig_map_invs _ hgref hgtid hglive h.refBound h.refInj h.liveUnique
                exact (sig_map_invs _ (fun x => killSig_entry_ref lt.id x)
                  (fun x => killSig_entry_tid lt.id x) (fun x hx => (killSig_entry_live hx).1)
                  hbase.1 hbase.2.1 hbase.2.2).1
            · show ∀ r1 ∈ s3.sigs, ∀ r2 ∈ s3.sigs, r1.ref = r2.ref → r1 = r2
              rcases hsigsc with hc | hc <;> rw [hc, hs1sigs]
              · exact (sig_map_invs _ hgref hgtid hglive h.refBound h.refInj h.liveUnique).2.1
              · unfold killSig
                have hbase := sig_map_invs _ hgref hgtid hglive h.refBound h.refInj h.liveUnique
                exact (sig_map_invs _ (fun x => killSig_entry_ref lt.id x)
                  (fun x => killSig_entry_tid lt.id x) (fun x hx => (killSig_entry_live hx).1)
                  hbase.1 hbase.2.1 hbase.2.2).2.1
            · show ∀ r1 ∈ s3.sigs, ∀ r2 ∈ s3.sigs, r1.live = true → r2.live = true →
                r1.tid = r2.tid → r1 = r2
              rcases hsigsc with hc | hc <;> rw [hc, hs1sigs]
              · exact (sig_map_invs _ hgref hgtid hglive h.refBound h.refInj h.liveUnique).2.2
              · unfold killSig
                have hbase := sig_map_invs _ hgref hgtid hglive h.refBound h.refInj h.liveUnique
                exact (sig_map_invs _ (fun x => killSig_entry_ref lt.id x)
                  (fun x => killSig_entry_tid lt.id x) (fun x hx => (killSig_entry_live hx).1)
                  hbase.1 hbase.2.1 hbase.2.2).2.2
            · intro p hp q hq heq
              have hp2 : p ∈ allPubs s3 := hp
              have hq2 : q ∈ allPubs s3 := hq
              exact h.sidUnique p ((hAp p).mp hp2) q ((hAp q).mp hq2) heq
            · intro k p hp
              have hp2 : p ∈ kindPubs s3 k := hp
              rw [hs3kind] at hp2
              exact h.kindOk k p hp2
            · intro k p hp
              have hp2 : p ∈ kindPubs s3 k := hp
              rw [hs3kind] at hp2
              show p ∈ s3.trackPublications
              rw [hs3flat]
              exact h.kindSub k p hp2
            · intro p hp
              have hp2 : p ∈ allPubs s3 := hp
              have h3 := (hAp p).mp hp2
              obtain ⟨q, hq, hql, hqt, hqs⟩ := h.pubRec p h3
              have hqne : q.ref ≠ r.ref := by
                intro heq
                have h5 : q = r := h.refInj q hq r hrm heq
                rw [h5, hsd0] at hqs
                exact Option.noConfusion hqs
              have hqtid : q.tid ≠ lt.id := by
                rw [hqt]
                exact hnp p h3
              refine ⟨q, ?_, hql, hqt, hqs⟩
              show q ∈ s3.sigs
              have hqmem1 : q ∈ s.sigs.map (fun x =>
                  if x.ref = r.ref then { x with failed := true } else x) := by
                refine List.mem_map.mpr ⟨q, hq, ?_⟩
                simp [hqne]
              rcases hsigsc with hc | hc
              · rw [hc, hs1sigs]
                exact hqmem1
              · rw [hc, hs1sigs]
                exact mem_killSig_of_ne hqmem1 hqtid
            · intro u hu v hv heq
              have hu2 : u ∈ s3.tracks := hu
              have hv2 : v ∈ s3.tracks := hv
              exact h.trackIdInj u (htrsub u hu2) v (htrsub v hv2) heq
            · intro htd5 u hu hnpf
              have htd6 : s3.teardown = false := htd5
              have htdS : s.teardown = false := by rw [← hs3td]; exact htd6
              have hu2 : u ∈ s3.tracks := hu
              have hu3 : u ∈ s.tracks := htrsub u hu2
              have huid : u.id ≠ lt.id := hnoid u hu2
              have hnps : ∀ p ∈ s.trackPublications, p.track ≠ u := by
                intro p hp heq
                refine hnpf p ?_ heq
                show p ∈ s3.trackPublications
                rw [hs3flat]
                exact hp
              obtain ⟨b, hb, hb1, hb2⟩ := h.pendingWitness htdS u hu3 hnps
              have hbm : ¬(b.attached = true ∧ b.ref = r.ref) := by
                rintro ⟨-, hbr2⟩
                obtain ⟨htidx, -⟩ := attached_rec_eq h hb hb1 hrm hbr2
                exact huid (by rw [← hb2, ← htidx]; exact hrt)
              exact ⟨b, mem_settleAll_of_unmatched hb hbm, hb1, hb2⟩
          unfold deliver
          rw [hfold]
          exact hfin

theorem inv_connect {s : LP} (h : Inv s) : Inv (step s Ev.connect) := by
  simp only [step]
  cases htd : s.teardown with
  | true => simp only [htd, if_true]; exact h
  | false =>
    simp only [htd, Bool.false_eq_true, if_false]
    refine ⟨h.pubTracks, h.settle, ?_, h.refBound, h.refInj, h.liveUnique,
      h.sidUnique, fun k p hp => h.kindOk k p (by cases k <;> exact hp),
      fun k p hp => h.kindSub k p (by cases k <;> exact hp), h.pubRec, h.trackIdInj,
      fun _ => h.pendingWitness htd⟩
    intro b hb hat
    obtain ⟨r2, h1, h2, h3⟩ := h.attachedRec b hb hat
    exact ⟨r2, h1, h2, fun _ => h3 htd⟩

theorem inv_disconnect {s : LP} (h : Inv s) : Inv (step s Ev.disconnect) := by
  simp only [step]
  cases htd : s.teardown with
  | true => simp only [htd, if_true]; exact h
  | false =>
    simp only [htd, Bool.false_eq_true, if_false]
    refine ⟨h.pubTracks, h.settle, ?_, h.refBound, h.refInj, h.liveUnique, h.sidUnique,
      fun k p hp => h.kindOk k p (by cases k <;> exact hp),
      fun k p hp => h.kindSub k p (by cases k <;> exact hp), h.pubRec, h.trackIdInj, ?_⟩
    · intro b hb hat
      obtain ⟨r2, h1, h2, -⟩ := h.attachedRec b hb hat
      exact ⟨r2, h1, h2, fun htd5 => absurd htd5 (by simp)⟩
    · intro htd5
      exact absurd htd5 (by simp)

theorem inv_init : Inv init := by
  constructor
  · intro p hp
    simp [allPubs, init, kindPubs] at hp
  · intro a ha
    simp [init] at ha
  · intro a ha
    simp [init] at ha
  · intro x hx
    simp [init] at hx
  · intro r1 hr1
    simp [init] at hr1
  · intro r1 hr1
    simp [init] at hr1
  · intro p hp
    simp [allPubs, init, kindPubs] at hp
  · intro k p hp
    cases k <;> simp [kindPubs, init] at hp
  · intro k p hp
    cases k <;> simp [kindPubs, init] at hp
  · intro p hp
    simp [allPubs, init, kindPubs] at hp
  · intro u hu
    simp [init] at hu
  · intro htd u hu
    simp [init] at hu

theorem inv_step {s : LP} (h : Inv s) (e : Ev) : Inv (step s e) := by
  cases e with
  | publish a => exact inv_publish h a
  | sigSid tid sd => exact inv_sigSid h tid sd
  | sigError tid e2 => exact inv_sigError h tid e2
  | unpub a => exact inv_unpub h a
  | connect => exact inv_connect h
  | disconnect => exact inv_disconnect h

theorem inv_foldl {s : LP} (h : Inv s) (evs : List Ev) : Inv (evs.foldl step s) := by
  induction evs generalizing s with
  | nil => exact h
  | cons e rest ih => exact ih (inv_step h e)

theorem inv_run (evs : List Ev) : Inv (run evs) :=
  inv_foldl inv_init evs

theorem inv_reachable {s : LP} (h : Reachable s) : Inv s := by
  obtain ⟨evs, rfl⟩ := h
  exact inv_run evs

theorem addTrackP_attempts (s : LP) (t : Track) : (addTrackP s t).attempts = s.attempts := by
  unfold addTrackP
  by_cases h : (tracksFind s t.id).isSome = true
  · rw [if_pos h]
  · rw [if_neg h]
    by_cases htd : s.teardown = true <;> simp [htd]

theorem publishFailedMark_fst_attempts (s : LP) (r : SigRec) :
    (publishFailedMark s r).1.attempts = s.attempts := by
  unfold publishFailedMark
  split <;> rfl

theorem publishFailedMark_fst_flat (s : LP) (r : SigRec) :
    (publishFailedMark s r).1.trackPublications = s.trackPublications := by
  unfold publishFailedMark
  split <;> rfl

theorem publishFailedMark_fst_tracks (s : LP) (r : SigRec) :
    (publishFailedMark s r).1.tracks = s.tracks := by
  unfold publishFailedMark
  split <;> rfl

theorem publishFailedMark_fst_emitted (s : LP) (r : SigRec) :
    (publishFailedMark s r).1.emitted = s.emitted := by
  unfold publishFailedMark
  split <;> rfl

theorem publishFailedMark_fst_kind (s : LP) (r : SigRec) (k : Kind) :
    kindPubs (publishFailedMark s r).1 k = kindPubs s k := by
  unfold publishFailedMark
  split <;> (cases k <;> rfl)

theorem removeTrackP_emitted_of_found {s : LP} {t u : Track}
    (h : tracksFind s t.id = some u) :
    (removeTrackP s t).emitted = s.emitted ++ [Notif.trackRemoved u] := by
  unfold removeTrackP
  rw [h]
  by_cases htd : s.teardown = true <;> simp [htd]

theorem mem_removeTrackP_emitted {s : LP} {t : Track} {n : Notif}
    (hn : n ∈ (removeTrackP s t).emitted) :
    n ∈ s.emitted ∨ ∃ u, n = Notif.trackRemoved u := by
  cases h : tracksFind s t.id with
  | none =>
    unfold removeTrackP at hn
    rw [h] at hn
    exact Or.inl hn
  | some u =>
    rw [removeTrackP_emitted_of_found h] at hn
    rcases List.mem_append.mp hn with h1 | h1
    · exact Or.inl h1
    · exact Or.inr ⟨u, by simpa using h1⟩

theorem unpublishTrackFn_attempts (s : LP) (a : PubArg) :
    (unpublishTrackFn s a).1.attempts = s.attempts := by
  cases hid : argTrackId a with
  | none => simp [unpublishTrackFn, hid]
  | some tid0 =>
    cases hft : tracksFind s tid0 with
    | none => simp [unpublishTrackFn, hid, hft]
    | some lt =>
      cases hsl : sigLookup s.sigs lt.id with
      | none => simp [unpublishTrackFn, hid, hft, hsl]
      | some r =>
        simp only [unpublishTrackFn, hid, hft, hsl, removeTrackP_attempts]
        cases hp : getTrackPublication (publishFailedMark s r).1.trackPublications
            (PubArg.lt lt) with
        | none => simp [hp, publishFailedMark_fst_attempts]
        | some p => simp [hp, publishFailedMark_fst_attempts]

theorem publishTrackFn_attempts_cases (s : LP) (a : PubArg) :
    (publishTrackFn s a).1.attempts = s.attempts
    ∨ ∃ x, (publishTrackFn s a).1.attempts = s.attempts ++ [x] := by
  cases hg : getTrackPublication s.trackPublications a with
  | some p => exact Or.inl (by simp [publishTrackFn, hg])
  | none =>
    cases ha : asLocalTrack a with
    | error e => exact Or.inl (by simp [publishTrackFn, hg, ha])
    | ok t0 =>
      cases hg2 : getTrackPublication (addTrackP s t0).trackPublications
          (PubArg.lt ((tracksFind (addTrackP s t0) t0.id).getD t0)) with
      | some p =>
        refine Or.inl ?_
        simp only [publishTrackFn, hg, ha, hg2]
        exact addTrackP_attempts s t0
      | none =>
        cases hsl : sigLookup (addTrackP s t0).sigs
            ((tracksFind (addTrackP s t0) t0.id).getD t0).id with
        | none =>
          refine Or.inl ?_
          simp only [publishTrackFn, hg, ha, hg2, hsl]
          exact addTrackP_attempts s t0
        | some r =>
          refine Or.inr ⟨⟨(tracksFind (addTrackP s t0) t0.id).getD t0, r.ref, true, none⟩, ?_⟩
          simp only [publishTrackFn, hg, ha, hg2, hsl]
          rw [addTrackP_attempts s t0]

theorem getTrackPublication_bad (pubs : List Publication) :
    getTrackPublication pubs PubArg.bad = none := by
  unfold getTrackPublication
  rw [List.find?_eq_none]
  intro p hp
  simp [pubMatches]

theorem deliverAux_error_sched {rf e : Nat} {l : List Attempt} {s : LP}
    (hr : ∃ r, sigByRef s.sigs rf = some r ∧ r.error = some e) :
    (∀ n ∈ s.scheduled, n ∈ (deliverAux rf l s).1.scheduled)
    ∧ (∀ a ∈ l, a.attached = true → a.ref = rf →
        Notif.trackPublicationFailed e a.track ∈ (deliverAux rf l s).1.scheduled)
    ∧ (∀ n ∈ (deliverAux rf l s).1.emitted, n ∈ s.emitted ∨ ∃ t, n = Notif.trackRemoved t) := by
  induction l generalizing s with
  | nil =>
    refine ⟨fun n hn => hn, ?_, fun n hn => Or.inl hn⟩
    intro a ha
    simp at ha
  | cons a rest ih =>
    by_cases hm : a.attached = true ∧ a.ref = rf
    · obtain ⟨r, hrr, herr⟩ := hr
      have hhand : updatedHandler s a.track rf = _ := updatedHandler_error_spec hrr herr
      have hEsched : (updatedHandler s a.track rf).1.scheduled
          = s.scheduled ++ [Notif.trackPublicationFailed e a.track] := by
        rw [hhand]
        show (removeTrackP s a.track).scheduled ++ _ = _
        rw [removeTrackP_scheduled]
      have hEemit : ∀ n ∈ (updatedHandler s a.track rf).1.emitted,
          n ∈ s.emitted ∨ ∃ t, n = Notif.trackRemoved t := by
        intro n hn
        rw [hhand] at hn
        have hn2 : n ∈ (removeTrackP s a.track).emitted := hn
        exact mem_removeTrackP_emitted hn2
      have hrE : ∃ r2, sigByRef (updatedHandler s a.track rf).1.sigs rf = some r2
          ∧ r2.error = some e := by
        have hEsigs : (updatedHandler s a.track rf).1.sigs = (removeTrackP s a.track).sigs := by
          rw [hhand]
        rw [hEsigs]
        rcases removeTrackP_sigs_cases s a.track with hcase | hcase
        · exact ⟨r, by rw [hcase]; exact hrr, herr⟩
        · refine ⟨if r.tid = a.track.id then { r with live := false } else r, ?_, ?_⟩
          · rw [hcase, sigByRef_killSig, hrr]
            rfl
          · by_cases hrt : r.tid = a.track.id <;> simp [hrt, herr]
      obtain ⟨ihsched, ihmem, ihemit⟩ := ih (s := (updatedHandler s a.track rf).1) hrE
      have hstep : (deliverAux rf (a :: rest) s).1
          = (deliverAux rf rest (updatedHandler s a.track rf).1).1 := by
        simp [deliverAux, hm, hm.2]
      refine ⟨?_, ?_, ?_⟩
      · intro n hn
        rw [hstep]
        refine ihsched n ?_
        rw [hEsched]
        exact List.mem_append_left _ hn
      · intro b hb hat href
        rw [hstep]
        rcases List.mem_cons.mp hb with hb1 | hb1
        · refine ihsched _ ?_
          rw [hb1, hEsched]
          exact List.mem_append_right _ (by simp)
        · exact ihmem b hb1 hat href
      · intro n hn
        rw [hstep] at hn
        rcases ihemit n hn with h1 | h1
        · exact hEemit n h1
        · exact Or.inr h1
    · obtain ⟨ihsched, ihmem, ihemit⟩ := ih (s := s) hr
      have hstep : (deliverAux rf (a :: rest) s).1 = (deliverAux rf rest s).1 := by
        simp [deliverAux, hm]
      refine ⟨?_, ?_, ?_⟩
      · intro n hn
        rw [hstep]
        exact ihsched n hn
      · intro b hb hat href
        rcases List.mem_cons.mp hb with hb1 | hb1
        · exact absurd ⟨hb1 ▸ hat, hb1 ▸ href⟩ hm
        · rw [hstep]
          exact ihmem b hb1 hat href
      · intro n hn
        rw [hstep] at hn
        exact ihemit n hn

theorem all_pubs_flat {s : LP} (h : Inv s) : ∀ p ∈ allPubs s, p ∈ s.trackPublications := by
  intro p hp
  rcases mem_allPubs.mp hp with h1 | h1 | h1 | h1
  · exact h1
  · exact h.kindSub Kind.audio p h1
  · exact h.kindSub Kind.video p h1
  · exact h.kindSub Kind.data p h1

theorem no_lt_pub_after_delete {s : LP} (h : Inv s) {lt : Track} {r : SigRec} {p0 : Publication}
    (hrm : r ∈ s.sigs) (hrl : r.live = true) (hrt : r.tid = lt.id)
    (hp0f : p0 ∈ s.trackPublications) (hp0t : p0.track = lt) :
    ∀ p ∈ allPubs (removeTrackP
      { withKindPubs s lt.kind (removeSid (kindPubs s lt.kind) p0.trackSid) with
        trackPublications := removeSid s.trackPublications p0.trackSid } lt),
      p.track ≠ lt := by
  have hp0all : p0 ∈ allPubs s := mem_allPubs_of_flat hp0f
  have htrack_eq : ∀ p ∈ allPubs s, p.track = lt → p = p0 := by
    intro p hp he
    have h1 := pub_sid_of_track h hrm hrl p hp (by rw [he]; exact hrt.symm)
    have h2 := pub_sid_of_track h hrm hrl p0 hp0all (by rw [hp0t]; exact hrt.symm)
    rw [h1] at h2
    exact h.sidUnique p hp p0 hp0all (Option.some.inj h2)
  have hsid_eq : ∀ p ∈ allPubs s, p.trackSid = p0.trackSid → p = p0 := by
    intro p hp he
    exact h.sidUnique p hp p0 hp0all he
  have hkT : ∀ k : Kind,
      kindPubs { withKindPubs s lt.kind (removeSid (kindPubs s lt.kind) p0.trackSid) with
        trackPublications := removeSid s.trackPublications p0.trackSid } k
      = kindPubs (withKindPubs s lt.kind (removeSid (kindPubs s lt.kind) p0.trackSid)) k := by
    intro k
    exact kindPubs_setFlat _ _ k
  have hkmem : ∀ k : Kind, ∀ p : Publication,
      p ∈ kindPubs (withKindPubs s lt.kind (removeSid (kindPubs s lt.kind) p0.trackSid)) k →
      p ∈ kindPubs s k ∧ p.trackSid ≠ p0.trackSid := by
    intro k p hp
    by_cases hk : k = lt.kind
    · subst hk
      rw [kindPubs_withKindPubs_same] at hp
      exact mem_removeSid.mp hp
    · rw [kindPubs_withKindPubs_ne s _ hk] at hp
      refine ⟨hp, ?_⟩
      intro he
      have h5 := hsid_eq p (mem_allPubs_of_kind hp) he
      rw [h5] at hp
      have h6 := h.kindOk k p0 hp
      rw [hp0t] at h6
      exact hk h6.symm
  intro p hp
  rw [mem_allPubs_removeTrackP] at hp
  rcases mem_allPubs.mp hp with h1 | h1 | h1 | h1
  · have h1f : p ∈ removeSid s.trackPublications p0.trackSid := h1
    obtain ⟨hpf, hpne⟩ := mem_removeSid.mp h1f
    intro he
    exact hpne (by rw [htrack_eq p (mem_allPubs_of_flat hpf) he])
  · rw [hkT] at h1
    obtain ⟨hpk, hpne⟩ := hkmem Kind.audio p h1
    intro he
    exact hpne (by rw [htrack_eq p (mem_allPubs_of_kind hpk) he])
  · rw [hkT] at h1
    obtain ⟨hpk, hpne⟩ := hkmem Kind.video p h1
    intro he
    exact hpne (by rw [htrack_eq p (mem_allPubs_of_kind hpk) he])
  · rw [hkT] at h1
    obtain ⟨hpk, hpne⟩ := hkmem Kind.data p h1
    intro he
    exact hpne (by rw [htrack_eq p (mem_allPubs_of_kind hpk) he])

/-- Claim C1: exactly one settlement per publish attempt — at every reachable
state a listener is attached exactly while its attempt is unsettled, a settled
attempt is frozen by every further event (its outcome never changes and never
fires again, even under a concurrent unpublish), and the `updated` handler
detaches the listener exactly on the branches that produce a settlement
(error, track no longer registered, identifier assigned), leaving it attached
with no outcome otherwise. -/
theorem C1_settle_once {s : LP} (h : Reachable s) :
    (∀ a ∈ s.attempts, a.attached = true ↔ a.outcome = none)
    ∧ (∀ e : Ev, ∀ i : Nat, ∀ a : Attempt, s.attempts[i]? = some a → a.outcome ≠ none →
        (step s e).attempts[i]? = some a)
    ∧ (∀ lt : Track, ∀ rf : Nat,
        ((updatedHandler s lt rf).2.2 = true ↔ (updatedHandler s lt rf).2.1 ≠ none)) := by
  have hInv := inv_reachable h
  refine ⟨hInv.settle, ?_, ?_⟩
  · intro e i a hi hset
    have hdet : a.attached = false := by
      cases hat : a.attached
      · rfl
      · exact absurd ((hInv.settle a (List.getElem?_mem hi)).mp hat) hset
    cases e with
    | publish b =>
      show (publishTrackFn s b).1.attempts[i]? = some a
      rcases publishTrackFn_attempts_cases s b with hc | ⟨x, hc⟩
      · rw [hc]
        exact hi
      · rw [hc]
        have hlt : i < s.attempts.length := (List.getElem?_eq_some.mp hi).1
        rw [List.getElem?_append, if_pos hlt]
        exact hi
    | sigSid tid sd =>
      simp only [step]
      by_cases htd : s.teardown = true
      · rw [if_pos htd]
        exact hi
      · rw [if_neg htd]
        cases hsl : sigLookup s.sigs tid with
        | none => exact hi
        | some r =>
          show (if (r.error.isNone && r.sid.isNone && !r.failed && sidFresh s sd) = true then
              deliver (updateRef s r.ref fun x => { x with sid := some sd }) r.ref
            else s).attempts[i]? = some a
          by_cases hg : (r.error.isNone && r.sid.isNone && !r.failed && sidFresh s sd) = true
          · rw [if_pos hg]
            unfold deliver
            exact deliverAux_getElem_detached hi hdet
          · rw [if_neg hg]
            exact hi
    | sigError tid e2 =>
      simp only [step]
      by_cases htd : s.teardown = true
      · rw [if_pos htd]
        exact hi
      · rw [if_neg htd]
        cases hsl : sigLookup s.sigs tid with
        | none => exact hi
        | some r =>
          show (if (r.error.isNone && r.sid.isNone && !r.failed) = true then
              deliver (updateRef s r.ref fun x => { x with error := some e2 }) r.ref
            else s).attempts[i]? = some a
          by_cases hg : (r.error.isNone && r.sid.isNone && !r.failed) = true
          · rw [if_pos hg]
            unfold deliver
            exact deliverAux_getElem_detached hi hdet
          · rw [if_neg hg]
            exact hi
    | unpub b =>
      simp only [step]
      cases hz : unpublishTrackFn s b with
      | mk s1 rest =>
        cases rest with
        | mk orf ret =>
          have hatt : s1.attempts = s.attempts := by
            have h1 := unpublishTrackFn_attempts s b
            rw [hz] at h1
            exact h1
          cases orf with
          | none =>
            show s1.attempts[i]? = some a
            rw [hatt]
            exact hi
          | some rf =>
            show (deliver s1 rf).attempts[i]? = some a
            unfold deliver
            refine deliverAux_getElem_detached ?_ hdet
            rw [hatt]
            exact hi
    | connect =>
      simp only [step]
      by_cases htd : s.teardown = true
      · rw [if_pos htd]
        exact hi
      · rw [if_neg htd]
        exact hi
    | disconnect =>
      simp only [step]
      by_cases htd : s.teardown = true
      · rw [if_pos htd]
        exact hi
      · rw [if_neg htd]
        exact hi
  · intro lt rf
    cases hr : sigByRef s.sigs rf with
    | none => simp [updatedHandler, hr]
    | some ts =>
      cases herr : ts.error with
      | some e2 =>
        rw [updatedHandler_error_spec hr herr]
        simp
      | none =>
        cases hgone : tracksFind s lt.id with
        | none =>
          rw [updatedHandler_gone_spec hr herr hgone]
          simp
        | some w =>
          cases hsid : ts.sid with
          | none =>
            rw [updatedHandler_pending_spec hr herr hgone hsid]
            simp
          | some sd =>
            cases hget : getTrackPublication s.trackPublications (PubArg.lt lt) with
            | some p =>
              rw [updatedHandler_sid_reuse_spec hr herr hgone hsid hget]
              simp
            | none =>
              rw [updatedHandler_sid_create_spec hr herr hgone hsid hget]
              simp

/-- Claim C2: registry consistency — at every reachable state every publication
of the flat registry and of the kind-partitioned registries has its track
present in the track registry, and this containment is preserved by every
operation of the machine (publish, signaling resolution, unpublish,
connect and disconnect). -/
theorem C2_registry_consistency {s : LP} (h : Reachable s) :
    (∀ p ∈ allPubs s, p.track ∈ s.tracks)
    ∧ ∀ e : Ev, ∀ p ∈ allPubs (step s e), p.track ∈ (step s e).tracks :=
  ⟨(inv_reachable h).pubTracks, fun e => (inv_step (inv_reachable h) e).pubTracks⟩

/-- Claim C3: `publishTrack` is idempotent — when a Publication matching the
argument (by track identity or by underlying media-source identity) already
exists in the flat registry, the call resolves immediately with that
Publication and returns the state unchanged: no registry mutation and no
notification. -/
theorem C3_publish_idempotent {s : LP} {a : PubArg} {p : Publication}
    (h : getTrackPublication s.trackPublications a = some p) :
    publishTrackFn s a = (s, PubCallResult.resolvedExisting p) := by
  unfold publishTrackFn
  rw [h]

/-- Claim C6: when the `updated` listener runs with an assigned identifier on
the captured record (no error, track still registered), the pending result
resolves with a Publication, and a `trackPublished` notification is scheduled
for a later turn exactly when the signaling channel is currently connected;
when it is not yet connected the scheduled queue is unchanged — emission is
deferred — while the result still resolves. -/
theorem C6_published_when_connected {s : LP} {lt : Track} {rf : Nat} {r : SigRec}
    {w : Track} {sd : Nat}
    (hr : sigByRef s.sigs rf = some r) (herr : r.error = none)
    (hreg : tracksFind s lt.id = some w) (hsid : r.sid = some sd) :
    ∃ p : Publication,
      (updatedHandler s lt rf).2.1 = some (Outcome.published p)
      ∧ ((updatedHandler s lt rf).1.scheduled = s.scheduled ++ [Notif.trackPublished p]
          ↔ s.sigState = SigState.connected)
      ∧ (s.sigState ≠ SigState.connected → (updatedHandler s lt rf).1.scheduled = s.scheduled) := by
  cases hget : getTrackPublication s.trackPublications (PubArg.lt lt) with
  | some p =>
    have hh := updatedHandler_sid_reuse_spec hr herr hreg hsid hget
    refine ⟨p, ?_, ?_, ?_⟩
    · rw [hh]
    · rw [hh]
      by_cases hc : s.sigState = SigState.connected
      · simp [hc]
      · simp only [if_neg hc]
        constructor
        · intro hcontra
          have hlen := congrArg List.length hcontra
          simp at hlen
        · intro hcontra
          exact absurd hcontra hc
    · intro hnc
      rw [hh, if_neg hnc]
  | none =>
    have hh := updatedHandler_sid_create_spec hr herr hreg hsid hget
    refine ⟨⟨lt, sd⟩, ?_, ?_, ?_⟩
    · rw [hh]
    · rw [hh]
      by_cases hc : s.sigState = SigState.connected
      · simp [hc]
      · simp only [if_neg hc]
        constructor
        · intro hcontra
          simp only [withKindPubs_scheduled] at hcontra
          have hlen := congrArg List.length hcontra
          simp at hlen
        · intro hcontra
          exact absurd hcontra hc
    · intro hnc
      rw [hh, if_neg hnc]
      simp

/-- Claim C7: on the `stateChanged` transition to disconnected the controller
emits its teardown actions with every listener removal (its own `stateChanged`
listener first) strictly before any track stop, stops only tracks of the
auto-stop set, and a second invocation emits nothing (idempotent teardown). -/
theorem C7_teardown_order (ls : ListenerState) (toStop : List Track)
    (h : ls.stateChangedAttached = true) :
    (onStateChanged ls toStop SigState.disconnected).2
        = [TeardownAction.removeStateChangedListener,
           TeardownAction.removeTrackAddedListener,
           TeardownAction.removeTrackDisabledListener,
           TeardownAction.removeTrackEnabledListener,
           TeardownAction.removeTrackRemovedListener]
          ++ toStop.map TeardownAction.stopTrack
    ∧ (∀ t : Track, TeardownAction.stopTrack t
        ∈ (onStateChanged ls toStop SigState.disconnected).2 → t ∈ toStop)
    ∧ (∀ i j : Nat, ∀ x y : TeardownAction,
        (onStateChanged ls toStop SigState.disconnected).2[i]? = some x →
        (onStateChanged ls toStop SigState.disconnected).2[j]? = some y →
        x.isStop = true → y.isStop = false → j < i)
    ∧ (onStateChanged (onStateChanged ls toStop SigState.disconnected).1 toStop
        SigState.disconnected).2 = [] := by
  have hcond : (ls.stateChangedAttached
      && decide (SigState.disconnected = SigState.disconnected)) = true := by
    rw [h]
    rfl
  have hact : (onStateChanged ls toStop SigState.disconnected).2
      = [TeardownAction.removeStateChangedListener,
         TeardownAction.removeTrackAddedListener,
         TeardownAction.removeTrackDisabledListener,
         TeardownAction.removeTrackEnabledListener,
         TeardownAction.removeTrackRemovedListener]
        ++ toStop.map TeardownAction.stopTrack := by
    unfold onStateChanged
    rw [if_pos hcond]
  have hfst : (onStateChanged ls toStop SigState.disconnected).1
      = { stateChangedAttached := false, trackListenersAttached := false } := by
    unfold onStateChanged
    rw [if_pos hcond]
  have hlen5 : ([TeardownAction.removeStateChangedListener,
      TeardownAction.removeTrackAddedListener,
      TeardownAction.removeTrackDisabledListener,
      TeardownAction.removeTrackEnabledListener,
      TeardownAction.removeTrackRemovedListener] : List TeardownAction).length = 5 := rfl
  refine ⟨hact, ?_, ?_, ?_⟩
  · intro t ht
    rw [hact] at ht
    rcases List.mem_append.mp ht with h1 | h1
    · simp at h1
    · obtain ⟨u, hu, hequ⟩ := List.mem_map.mp h1
      have hut : u = t := by injection hequ
      rw [← hut]
      exact hu
  · intro i j x y hx hy hxs hys
    rw [hact] at hx hy
    have hjlt : j < 5 := by
      by_contra hcon
      push_neg at hcon
      rw [List.getElem?_append, hlen5, if_neg (by omega)] at hy
      rw [List.getElem?_map] at hy
      cases hu : toStop[j - 5]? with
      | none =>
        rw [hu] at hy
        simp at hy
      | some u =>
        rw [hu] at hy
        simp at hy
        rw [← hy] at hys
        simp [TeardownAction.isStop] at hys
    have hige : 5 ≤ i := by
      by_contra hcon
      push_neg at hcon
      rw [List.getElem?_append, hlen5, if_pos hcon] at hx
      have hxmem := List.getElem?_mem hx
      simp at hxmem
      rcases hxmem with rfl | rfl | rfl | rfl | rfl <;>
        simp [TeardownAction.isStop] at hxs
    omega
  · rw [hfst]
    unfold onStateChanged
    rw [if_neg (by simp)]

/-- Claim C9 (counterexample): the spec says a value of no accepted track type
passed to a public method raises the invalid-argument error synchronously and
is never surfaced any other way; `publishTrack` instead funnels the validation
error into a rejected promise (its try/catch returns `Promise.reject`), so the
call produces a rejection result, never a synchronous throw. -/
theorem C9_counterexample :
    publishTrackFn init PubArg.bad = (init, PubCallResult.rejectedInvalid INVALID_TYPE_ERR)
    ∧ ∀ e : Nat, publishTrackFn init PubArg.bad ≠ (init, PubCallResult.thrown e) := by
  refine ⟨by decide, ?_⟩
  intro e hc
  have h0 : publishTrackFn init PubArg.bad
      = (init, PubCallResult.rejectedInvalid INVALID_TYPE_ERR) := by decide
  rw [h0] at hc
  simp at hc

/-- Claim C9 (amended): non-array arguments to `publishTracks` and
`unpublishTracks` throw the invalid-type error synchronously, and so does
`unpublishTrack` on a value of no accepted track type; `publishTrack`,
however, surfaces the same validation error asynchronously as a rejected
promise, not as a synchronous throw. -/
theorem C9_amended :
    (∀ s : LP, publishTracksFn s TracksArg.notArr = (s, PubsCallResult.thrown INVALID_TYPE_ERR))
    ∧ (∀ s : LP, unpublishTracksFn s TracksArg.notArr = (s, UnpubsRet.thrown INVALID_TYPE_ERR))
    ∧ (∀ s : LP, unpublishTrackFn s PubArg.bad = (s, none, UnpubRet.thrown INVALID_TYPE_ERR))
    ∧ (∀ s : LP, publishTrackFn s PubArg.bad
        = (s, PubCallResult.rejectedInvalid INVALID_TYPE_ERR)) := by
  refine ⟨fun s => rfl, fun s => rfl, fun s => rfl, fun s => ?_⟩
  unfold publishTrackFn
  rw [getTrackPublication_bad]
  rfl

/-- Claim C10: the auto-stop set is a pure function of the constructor
arguments — empty when `shouldStopLocalTracks` is false (so the disconnect
teardown stops no track), and exactly the constructor-supplied non-data tracks
when it is true; it never contains a data-kind track. -/
theorem C10_tracksToStop (localTracks : List Track) :
    tracksToStop false localTracks = []
    ∧ (∀ t ∈ tracksToStop true localTracks, t ∈ localTracks ∧ t.kind ≠ Kind.data)
    ∧ (∀ t ∈ localTracks, t.kind ≠ Kind.data → t ∈ tracksToStop true localTracks)
    ∧ (∀ b : Bool, ∀ t ∈ tracksToStop b localTracks, t.kind ≠ Kind.data)
    ∧ (∀ ls : ListenerState, ∀ st : SigState,
        ∀ x ∈ (onStateChanged ls (tracksToStop false localTracks) st).2,
          x.isStop = false) := by
  refine ⟨rfl, ?_, ?_, ?_, ?_⟩
  · intro t ht
    simp [tracksToStop, List.mem_filter] at ht
    exact ⟨ht.1, ht.2⟩
  · intro t ht hk
    simp [tracksToStop, List.mem_filter]
    exact ⟨ht, hk⟩
  · intro b t ht
    cases b
    · simp [tracksToStop] at ht
    · simp [tracksToStop, List.mem_filter] at ht
      exact ht.2
  · intro ls st x hx
    unfold onStateChanged at hx
    by_cases hc : (ls.stateChangedAttached && decide (st = SigState.disconnected)) = true
    · rw [if_pos hc] at hx
      simp only [tracksToStop] at hx
      simp at hx
      rcases hx with rfl | rfl | rfl | rfl | rfl <;> rfl
    · rw [if_neg hc] at hx
      simp at hx

/-- Claim C4: when the collaborator reports an error for a pristine record with
a pending publish attempt, the track is removed from the track registry, a
`trackPublicationFailed` notification carrying the error and the attempt's
track is scheduled for a later turn and never emitted synchronously, and the
pending attempt is settled by rejecting with that same error. -/
theorem C4_error_rejects {s : LP} (h : Reachable s) {tid e : Nat} {r : SigRec} {a : Attempt}
    (htd : s.teardown = false)
    (hsl : sigLookup s.sigs tid = some r)
    (herr : r.error = none) (hsd0 : r.sid = none) (hfail : r.failed = false)
    (ha : a ∈ s.attempts) (hat : a.attached = true) (href : a.ref = r.ref) :
    (∀ u ∈ (step s (Ev.sigError tid e)).tracks, u.id ≠ tid)
    ∧ Notif.trackPublicationFailed e a.track ∈ (step s (Ev.sigError tid e)).scheduled
    ∧ (∀ e2 : Nat, ∀ t : Track,
        Notif.trackPublicationFailed e2 t ∈ (step s (Ev.sigError tid e)).emitted →
        Notif.trackPublicationFailed e2 t ∈ s.emitted)
    ∧ { a with attached := false, outcome := some (Outcome.publicationFailed e) }
        ∈ (step s (Ev.sigError tid e)).attempts := by
  have hInv := inv_reachable h
  obtain ⟨hrm, hrl, hrt⟩ := sigLookup_some hsl
  have hguard : (r.error.isNone && r.sid.isNone && !r.failed) = true := by
    rw [herr, hsd0, hfail]
    rfl
  have hstep : step s (Ev.sigError tid e)
      = deliver (updateRef s r.ref fun x => { x with error := some e }) r.ref := by
    simp [step, htd, hsl, hguard]
  have hgref : ∀ x : SigRec,
      ((fun x => if x.ref = r.ref then { x with error := some e } else x) x).ref = x.ref := by
    intro x; by_cases hx : x.ref = r.ref <;> simp [hx]
  have hbr : sigByRef s.sigs r.ref = some r := sigByRef_of_mem hInv.refInj hrm
  have hs1sigs : (updateRef s r.ref fun x => { x with error := some e }).sigs
      = s.sigs.map fun x => if x.ref = r.ref then { x with error := some e } else x := rfl
  have hbr1 : sigByRef (updateRef s r.ref fun x => { x with error := some e }).sigs r.ref
      = some { r with error := some e } := by
    rw [hs1sigs, sigByRef_map_some hgref hbr]
    simp
  have hrE : ∃ r2, sigByRef (updateRef s r.ref fun x => { x with error := some e }).sigs r.ref
      = some r2 ∧ r2.error = some e := ⟨_, hbr1, rfl⟩
  have htid2 : ∀ b ∈ (updateRef s r.ref fun x => { x with error := some e }).attempts,
      b.attached = true → b.ref = r.ref → b.track.id = tid := by
    intro b hb hbat heq
    obtain ⟨htidx, -⟩ := attached_rec_eq hInv hb hbat hrm heq
    rw [← htidx, hrt]
  obtain ⟨s2, heq2, hflat, hkind, hsub, hkeep, hsigs, h2td, h2ss, hmk⟩ :=
    deliverAux_error hrE htid2
  obtain ⟨hsched1, hsched2, hemit⟩ :=
    deliverAux_error_sched
      (l := (updateRef s r.ref fun x => { x with error := some e }).attempts) hrE
  rw [hstep]
  unfold deliver
  rw [heq2]
  refine ⟨?_, ?_, ?_, ?_⟩
  · show ∀ u ∈ s2.tracks, u.id ≠ tid
    exact hmk ⟨a, ha, hat, href⟩
  · show Notif.trackPublicationFailed e a.track ∈ s2.scheduled
    have h5 := hsched2 a ha hat href
    rw [heq2] at h5
    exact h5
  · intro e2 t hn
    have hn1 : Notif.trackPublicationFailed e2 t ∈ s2.emitted := hn
    have hn2 : Notif.trackPublicationFailed e2 t
        ∈ (deliverAux r.ref (updateRef s r.ref fun x =>
            { x with error := some e }).attempts
            (updateRef s r.ref fun x => { x with error := some e })).1.emitted := by
      rw [heq2]
      exact hn1
    rcases hemit _ hn2 with h1 | ⟨t2, ht2⟩
    · exact h1
    · exact absurd ht2 (by simp)
  · show { a with attached := false, outcome := some (Outcome.publicationFailed e) }
        ∈ settleAll r.ref (Outcome.publicationFailed e)
          (updateRef s r.ref fun x => { x with error := some e }).attempts
    refine mem_settleAll.mpr ⟨a, ha, ?_⟩
    rw [if_pos ⟨hat, href⟩]

/-- Claim C5: calling `unpublishTrack` on a track whose publish attempt is
still pending settles that attempt with the race-superseded rejection — the
`no longer present in the Track Registry` branch — and leaves the scheduled
notification queue unchanged, so no `trackPublicationFailed` is emitted for
the race. -/
theorem C5_unpublish_while_pending {s : LP} (h : Reachable s) {a : Attempt}
    (htd : s.teardown = false) (ha : a ∈ s.attempts) (hat : a.attached = true) :
    { a with attached := false, outcome := some Outcome.raceSuperseded }
        ∈ (step s (Ev.unpub (PubArg.lt a.track))).attempts
    ∧ (step s (Ev.unpub (PubArg.lt a.track))).scheduled = s.scheduled := by
  have hInv := inv_reachable h
  obtain ⟨r, h1, h2, h3⟩ := hInv.attachedRec a ha hat
  obtain ⟨herr, hsd0, hfail, hrl, hmem⟩ := h3 htd
  have hrm : r ∈ s.sigs := (sigByRef_some h1).1
  have href : a.ref = r.ref := ((sigByRef_some h1).2).symm
  have hft : tracksFind s a.track.id = some a.track :=
    tracksFind_some_of_mem hInv.trackIdInj hmem
  have hsl : sigLookup s.sigs a.track.id = some r := by
    cases hslc : sigLookup s.sigs a.track.id with
    | none => exact absurd h2 (sigLookup_none hslc r hrm hrl)
    | some r2 =>
      obtain ⟨hr2m, hr2l, hr2t⟩ := sigLookup_some hslc
      have h5 : r2 = r := hInv.liveUnique r2 hr2m r hrm hr2l hrl (by rw [hr2t, h2])
      rw [h5]
  have hfresh : (r.error.isNone && r.sid.isNone && !r.failed) = true := by
    rw [herr, hsd0, hfail]
    rfl
  have hid : argTrackId (PubArg.lt a.track) = some a.track.id := rfl
  have hz : publishFailedMark s r
      = (updateRef s r.ref fun x => { x with failed := true }, true) := by
    simp [publishFailedMark, hfresh]
  have hpubnone : getTrackPublication s.trackPublications (PubArg.lt a.track) = none := by
    cases hp : getTrackPublication s.trackPublications (PubArg.lt a.track) with
    | none => rfl
    | some p0 =>
      exfalso
      obtain ⟨hp0f, hp0m⟩ := getTrackPublication_some hp
      have hp0t : p0.track = a.track := pubMatches_lt.mp hp0m
      have hx := pub_sid_of_track hInv hrm hrl p0 (mem_allPubs_of_flat hp0f)
        (by rw [hp0t, h2])
      rw [hsd0] at hx
      exact Option.noConfusion hx
  have hU : unpublishTrackFn s (PubArg.lt a.track)
      = (removeTrackP (updateRef s r.ref fun x => { x with failed := true }) a.track,
         some r.ref, UnpubRet.ret none) := by
    simp [unpublishTrackFn, updateRef, hid, hft, hsl, hz, hpubnone]
  have hstep : step s (Ev.unpub (PubArg.lt a.track))
      = deliver (removeTrackP (updateRef s r.ref fun x =>
          { x with failed := true }) a.track) r.ref := by
    simp only [step, hU]
  have hbr1 : sigByRef (updateRef s r.ref fun x => { x with failed := true }).sigs r.ref
      = some { r with failed := true } := by
    have hgref : ∀ x : SigRec,
        ((fun x => if x.ref = r.ref then { x with failed := true } else x) x).ref = x.ref := by
      intro x; by_cases hx : x.ref = r.ref <;> simp [hx]
    have hbr : sigByRef s.sigs r.ref = some r := sigByRef_of_mem hInv.refInj hrm
    rw [show (updateRef s r.ref fun x => { x with failed := true }).sigs
        = s.sigs.map fun x => if x.ref = r.ref then { x with failed := true } else x from rfl,
      sigByRef_map_some hgref hbr]
    simp
  have hgone : tracksFind (removeTrackP (updateRef s r.ref fun x =>
      { x with failed := true }) a.track) a.track.id = none :=
    tracksFind_removeTrackP_self _ a.track
  have hs3att : (removeTrackP (updateRef s r.ref fun x =>
      { x with failed := true }) a.track).attempts = s.attempts :=
    removeTrackP_attempts _ a.track
  have htidl : ∀ b ∈ (removeTrackP (updateRef s r.ref fun x =>
      { x with failed := true }) a.track).attempts, b.attached = true → b.ref = r.ref →
      b.track.id = a.track.id := by
    intro b hb hbat heq
    rw [hs3att] at hb
    obtain ⟨htidx, -⟩ := attached_rec_eq hInv hb hbat hrm heq
    rw [← htidx, h2]
  obtain ⟨rX, hrX, hrXerr⟩ : ∃ rX, sigByRef (removeTrackP (updateRef s r.ref fun x =>
      { x with failed := true }) a.track).sigs r.ref = some rX ∧ rX.error = none := by
    rcases removeTrackP_sigs_cases (updateRef s r.ref fun x =>
        { x with failed := true }) a.track with hc | hc
    · exact ⟨{ r with failed := true }, by rw [hc]; exact hbr1, herr⟩
    · refine ⟨{ r with failed := true, live := false }, ?_, herr⟩
      rw [hc, sigByRef_killSig, hbr1]
      simp [h2]
  have hfold := deliverAux_gone hrX hrXerr hgone htidl
  rw [hstep]
  unfold deliver
  rw [hfold]
  constructor
  · show { a with attached := false, outcome := some Outcome.raceSuperseded }
        ∈ settleAll r.ref Outcome.raceSuperseded (removeTrackP (updateRef s r.ref fun x =>
            { x with failed := true }) a.track).attempts
    rw [hs3att]
    refine mem_settleAll.mpr ⟨a, ha, ?_⟩
    rw [if_pos ⟨hat, href⟩]
  · show (removeTrackP (updateRef s r.ref fun x =>
        { x with failed := true }) a.track).scheduled = s.scheduled
    exact removeTrackP_scheduled _ a.track

/-- Claim C8: `unpublishTrack` is a synchronous no-op returning null when the
track is not in the track registry; on a registered track (before teardown) it
does not throw, returns the previously created Publication — null when none
exists — removes every matching publication from the flat and
kind-partitioned registries, removes the track from the track registry, and
emits `trackRemoved` for it. -/
theorem C8_unpublish {s : LP} (h : Reachable s) (a : PubArg) (tid0 : Nat) (lt : Track)
    (hid : argTrackId a = some tid0) (htd : s.teardown = false) :
    (tracksFind s tid0 = none → unpublishTrackFn s a = (s, none, UnpubRet.ret none))
    ∧ (tracksFind s tid0 = some lt →
        (unpublishTrackFn s a).2.2
            = UnpubRet.ret (getTrackPublication s.trackPublications (PubArg.lt lt))
        ∧ (∀ u ∈ (unpublishTrackFn s a).1.tracks, u.id ≠ tid0)
        ∧ Notif.trackRemoved lt ∈ (unpublishTrackFn s a).1.emitted
        ∧ (∀ p ∈ allPubs (unpublishTrackFn s a).1, p.track ≠ lt)) := by
  have hInv := inv_reachable h
  constructor
  · intro hft
    simp [unpublishTrackFn, hid, hft]
  · intro hft
    obtain ⟨hltm, hlid⟩ := tracksFind_some hft
    have hftl : tracksFind s lt.id = some lt := by
      rw [hlid]
      exact hft
    have hsig : ∃ r0, sigLookup s.sigs lt.id = some r0 := by
      by_cases hpe : ∃ p ∈ s.trackPublications, p.track = lt
      · obtain ⟨p, hp, hpt⟩ := hpe
        obtain ⟨q, hq, hql, hqt, hqs⟩ := hInv.pubRec p (mem_allPubs_of_flat hp)
        cases hslc : sigLookup s.sigs lt.id with
        | none =>
          exfalso
          refine sigLookup_none hslc q hq hql ?_
          rw [hqt, hpt]
        | some r0 => exact ⟨r0, rfl⟩
      · push_neg at hpe
        obtain ⟨b, hb, hb1, hb2⟩ := hInv.pendingWitness htd lt hltm hpe
        obtain ⟨q, hq1, hq2, hq3⟩ := hInv.attachedRec b hb hb1
        obtain ⟨-, -, -, hql, -⟩ := hq3 htd
        cases hslc : sigLookup s.sigs lt.id with
        | none =>
          exfalso
          refine sigLookup_none hslc q (sigByRef_some hq1).1 hql ?_
          rw [hq2, hb2]
        | some r0 => exact ⟨r0, rfl⟩
    obtain ⟨r, hsl⟩ := hsig
    obtain ⟨hrm, hrl, hrt⟩ := sigLookup_some hsl
    cases hfresh : (r.error.isNone && r.sid.isNone && !r.failed) with
    | false =>
      have hz : publishFailedMark s r = (s, false) := by
        simp [publishFailedMark, hfresh]
      cases hp : getTrackPublication s.trackPublications (PubArg.lt lt) with
      | none =>
        have hU : unpublishTrackFn s a = (removeTrackP s lt, none, UnpubRet.ret none) := by
          simp [unpublishTrackFn, hid, hft, hsl, hz, hp]
        have hU1 : (unpublishTrackFn s a).1 = removeTrackP s lt := by rw [hU]
        have hU2 : (unpublishTrackFn s a).2.2 = UnpubRet.ret none := by rw [hU]
        refine ⟨?_, ?_, ?_, ?_⟩
        · rw [hU2]
        · rw [hU1]
          intro u hu
          have h5 := removeTrackP_no_id s lt u hu
          rw [← hlid]
          exact h5
        · rw [hU1]
          rw [removeTrackP_emitted_of_found hftl]
          exact List.mem_append_right _ (by simp)
        · rw [hU1]
          intro p hp2
          rw [mem_allPubs_removeTrackP] at hp2
          intro he
          have hflatp := all_pubs_flat hInv p hp2
          have h5 := getTrackPublication_none hp p hflatp
          have h6 : pubMatches p (PubArg.lt lt) = true := pubMatches_lt.mpr he
          rw [h5] at h6
          simp at h6
      | some p0 =>
        obtain ⟨hp0f, hp0m⟩ := getTrackPublication_some hp
        have hp0t : p0.track = lt := pubMatches_lt.mp hp0m
        have hU : unpublishTrackFn s a
            = (removeTrackP { withKindPubs s lt.kind
                  (removeSid (kindPubs s lt.kind) p0.trackSid) with
                trackPublications := removeSid s.trackPublications p0.trackSid } lt,
               none, UnpubRet.ret (some p0)) := by
          simp [unpublishTrackFn, hid, hft, hsl, hz, hp]
        have hU1 : (unpublishTrackFn s a).1 = removeTrackP { withKindPubs s lt.kind
              (removeSid (kindPubs s lt.kind) p0.trackSid) with
            trackPublications := removeSid s.trackPublications p0.trackSid } lt := by
          rw [hU]
        have hU2 : (unpublishTrackFn s a).2.2 = UnpubRet.ret (some p0) := by rw [hU]
        refine ⟨?_, ?_, ?_, ?_⟩
        · rw [hU2]
        · rw [hU1]
          intro u hu
          have h5 := removeTrackP_no_id _ lt u hu
          rw [← hlid]
          exact h5
        · rw [hU1]
          have htrT : ({ withKindPubs s lt.kind (removeSid (kindPubs s lt.kind) p0.trackSid) with
              trackPublications := removeSid s.trackPublications p0.trackSid } : LP).tracks
              = s.tracks := by simp
          have hftT : tracksFind { withKindPubs s lt.kind
              (removeSid (kindPubs s lt.kind) p0.trackSid) with
              trackPublications := removeSid s.trackPublications p0.trackSid } lt.id
              = some lt := by
            rw [tracksFind_congr htrT lt.id]
            exact hftl
          rw [removeTrackP_emitted_of_found hftT]
          exact List.mem_append_right _ (by simp)
        · rw [hU1]
          exact no_lt_pub_after_delete hInv hrm hrl hrt hp0f hp0t
    | true =>
      have hcomps := hfresh
      simp only [Bool.and_eq_true, Bool.not_eq_true', Option.isNone_iff_eq_none] at hcomps
      obtain ⟨⟨herr, hsd0⟩, hfail⟩ := hcomps
      have hz : publishFailedMark s r
          = (updateRef s r.ref fun x => { x with failed := true }, true) := by
        simp [publishFailedMark, hfresh]
      have hApubs : ∀ p ∈ allPubs s, p.track ≠ lt := by
        intro p hp2 he
        have hx := pub_sid_of_track hInv hrm hrl p hp2 (by rw [he]; exact hrt.symm)
        rw [hsd0] at hx
        exact Option.noConfusion hx
      have hpubnone : getTrackPublication s.trackPublications (PubArg.lt lt) = none := by
        cases hp : getTrackPublication s.trackPublications (PubArg.lt lt) with
        | none => rfl
        | some p0 =>
          exfalso
          obtain ⟨hp0f, hp0m⟩ := getTrackPublication_some hp
          exact hApubs p0 (mem_allPubs_of_flat hp0f) (pubMatches_lt.mp hp0m)
      have hU : unpublishTrackFn s a
          = (removeTrackP (updateRef s r.ref fun x => { x with failed := true }) lt,
             some r.ref, UnpubRet.ret none) := by
        simp [unpublishTrackFn, updateRef, hid, hft, hsl, hz, hpubnone]
      have hU1 : (unpublishTrackFn s a).1
          = removeTrackP (updateRef s r.ref fun x => { x with failed := true }) lt := by
        rw [hU]
      have hU2 : (unpublishTrackFn s a).2.2 = UnpubRet.ret none := by rw [hU]
      refine ⟨?_, ?_, ?_, ?_⟩
      · rw [hU2, hpubnone]
      · rw [hU1]
        intro u hu
        have h5 := removeTrackP_no_id _ lt u hu
        rw [← hlid]
        exact h5
      · rw [hU1]
        have hftT : tracksFind (updateRef s r.ref fun x =>
            { x with failed := true }) lt.id = some lt := hftl
        rw [removeTrackP_emitted_of_found hftT]
        exact List.mem_append_right _ (by simp)
      · rw [hU1]
        intro p hp2
        rw [mem_allPubs_removeTrackP] at hp2
        exact hApubs p hp2

theorem C1_settle_once_witness :
    Reachable (run [Ev.publish (PubArg.lt ⟨1, 1, Kind.audio⟩)])
    ∧ ((∀ a ∈ (run [Ev.publish (PubArg.lt ⟨1, 1, Kind.audio⟩)]).attempts,
          a.attached = true ↔ a.outcome = none)
      ∧ (∀ e : Ev, ∀ i : Nat, ∀ a : Attempt,
          (run [Ev.publish (PubArg.lt ⟨1, 1, Kind.audio⟩)]).attempts[i]? = some a →
          a.outcome ≠ none →
          (step (run [Ev.publish (PubArg.lt ⟨1, 1, Kind.audio⟩)]) e).attempts[i]? = some a)
      ∧ (∀ lt : Track, ∀ rf : Nat,
          ((updatedHandler (run [Ev.publish (PubArg.lt ⟨1, 1, Kind.audio⟩)]) lt rf).2.2 = true
            ↔ (updatedHandler (run [Ev.publish (PubArg.lt ⟨1, 1, Kind.audio⟩)]) lt rf).2.1
              ≠ none))) :=
  ⟨⟨[Ev.publish (PubArg.lt ⟨1, 1, Kind.audio⟩)], rfl⟩,
   C1_settle_once ⟨[Ev.publish (PubArg.lt ⟨1, 1, Kind.audio⟩)], rfl⟩⟩

theorem C2_registry_consistency_witness :
    Reachable (run [Ev.publish (PubArg.lt ⟨1, 1, Kind.audio⟩), Ev.sigSid 1 5])
    ∧ ((∀ p ∈ allPubs (run [Ev.publish (PubArg.lt ⟨1, 1, Kind.audio⟩), Ev.sigSid 1 5]),
          p.track ∈ (run [Ev.publish (PubArg.lt ⟨1, 1, Kind.audio⟩), Ev.sigSid 1 5]).tracks)
      ∧ ∀ e : Ev,
          ∀ p ∈ allPubs (step (run [Ev.publish (PubArg.lt ⟨1, 1, Kind.audio⟩),
              Ev.sigSid 1 5]) e),
            p.track ∈ (step (run [Ev.publish (PubArg.lt ⟨1, 1, Kind.audio⟩),
              Ev.sigSid 1 5]) e).tracks) :=
  ⟨⟨[Ev.publish (PubArg.lt ⟨1, 1, Kind.audio⟩), Ev.sigSid 1 5], rfl⟩,
   C2_registry_consistency ⟨[Ev.publish (PubArg.lt ⟨1, 1, Kind.audio⟩), Ev.sigSid 1 5], rfl⟩⟩

theorem C3_publish_idempotent_witness :
    getTrackPublication
        ({ trackPublications := [⟨⟨1, 1, Kind.audio⟩, 5⟩] } : LP).trackPublications
        (PubArg.lt ⟨1, 1, Kind.audio⟩) = some ⟨⟨1, 1, Kind.audio⟩, 5⟩
    ∧ publishTrackFn { trackPublications := [⟨⟨1, 1, Kind.audio⟩, 5⟩] }
        (PubArg.lt ⟨1, 1, Kind.audio⟩)
      = ({ trackPublications := [⟨⟨1, 1, Kind.audio⟩, 5⟩] },
         PubCallResult.resolvedExisting ⟨⟨1, 1, Kind.audio⟩, 5⟩) :=
  ⟨by decide, C3_publish_idempotent (by decide)⟩

theorem C4_error_rejects_witness :
    (run [Ev.publish (PubArg.lt ⟨1, 1, Kind.audio⟩)]).teardown = false
    ∧ sigLookup (run [Ev.publish (PubArg.lt ⟨1, 1, Kind.audio⟩)]).sigs 1
        = some ⟨0, 1, none, none, false, true⟩
    ∧ (⟨⟨1, 1, Kind.audio⟩, 0, true, none⟩ : Attempt)
        ∈ (run [Ev.publish (PubArg.lt ⟨1, 1, Kind.audio⟩)]).attempts
    ∧ ((∀ u ∈ (step (run [Ev.publish (PubArg.lt ⟨1, 1, Kind.audio⟩)])
          (Ev.sigError 1 7)).tracks, u.id ≠ 1)
      ∧ Notif.trackPublicationFailed 7 ⟨1, 1, Kind.audio⟩
          ∈ (step (run [Ev.publish (PubArg.lt ⟨1, 1, Kind.audio⟩)])
              (Ev.sigError 1 7)).scheduled
      ∧ (∀ e2 : Nat, ∀ t : Track,
          Notif.trackPublicationFailed e2 t
              ∈ (step (run [Ev.publish (PubArg.lt ⟨1, 1, Kind.audio⟩)])
                  (Ev.sigError 1 7)).emitted →
          Notif.trackPublicationFailed e2 t
              ∈ (run [Ev.publish (PubArg.lt ⟨1, 1, Kind.audio⟩)]).emitted)
      ∧ (⟨⟨1, 1, Kind.audio⟩, 0, false, some (Outcome.publicationFailed 7)⟩ : Attempt)
          ∈ (step (run [Ev.publish (PubArg.lt ⟨1, 1, Kind.audio⟩)])
              (Ev.sigError 1 7)).attempts) :=
  ⟨rfl, rfl, by decide,
   C4_error_rejects ⟨[Ev.publish (PubArg.lt ⟨1, 1, Kind.audio⟩)], rfl⟩ rfl
     (rfl : sigLookup (run [Ev.publish (PubArg.lt ⟨1, 1, Kind.audio⟩)]).sigs 1
        = some ⟨0, 1, none, none, false, true⟩)
     rfl rfl rfl
     (by decide : (⟨⟨1, 1, Kind.audio⟩, 0, true, none⟩ : Attempt)
        ∈ (run [Ev.publish (PubArg.lt ⟨1, 1, Kind.audio⟩)]).attempts)
     rfl rfl⟩

theorem C5_unpublish_while_pending_witness :
    (run [Ev.publish (PubArg.lt ⟨1, 1, Kind.audio⟩)]).teardown = false
    ∧ (⟨⟨1, 1, Kind.audio⟩, 0, true, none⟩ : Attempt)
        ∈ (run [Ev.publish (PubArg.lt ⟨1, 1, Kind.audio⟩)]).attempts
    ∧ ((⟨⟨1, 1, Kind.audio⟩, 0, false, some Outcome.raceSuperseded⟩ : Attempt)
        ∈ (step (run [Ev.publish (PubArg.lt ⟨1, 1, Kind.audio⟩)])
            (Ev.unpub (PubArg.lt ⟨1, 1, Kind.audio⟩))).attempts
      ∧ (step (run [Ev.publish (PubArg.lt ⟨1, 1, Kind.audio⟩)])
            (Ev.unpub (PubArg.lt ⟨1, 1, Kind.audio⟩))).scheduled
          = (run [Ev.publish (PubArg.lt ⟨1, 1, Kind.audio⟩)]).scheduled) :=
  ⟨rfl, by decide,
   C5_unpublish_while_pending ⟨[Ev.publish (PubArg.lt ⟨1, 1, Kind.audio⟩)], rfl⟩ rfl
     (by decide : (⟨⟨1, 1, Kind.audio⟩, 0, true, none⟩ : Attempt)
        ∈ (run [Ev.publish (PubArg.lt ⟨1, 1, Kind.audio⟩)]).attempts)
     rfl⟩

theorem C6_published_when_connected_witness :
    sigByRef ({ tracks := [⟨1, 1, Kind.audio⟩], sigs := [⟨0, 1, none, some 5, false, true⟩], sigState := SigState.connected } : LP).sigs 0
      = some ⟨0, 1, none, some 5, false, true⟩
    ∧ tracksFind { tracks := [⟨1, 1, Kind.audio⟩], sigs := [⟨0, 1, none, some 5, false, true⟩], sigState := SigState.connected } 1 = some ⟨1, 1, Kind.audio⟩
    ∧ (∃ p : Publication,
        (updatedHandler { tracks := [⟨1, 1, Kind.audio⟩], sigs := [⟨0, 1, none, some 5, false, true⟩], sigState := SigState.connected } ⟨1, 1, Kind.audio⟩ 0).2.1
          = some (Outcome.published p)
        ∧ ((updatedHandler { tracks := [⟨1, 1, Kind.audio⟩], sigs := [⟨0, 1, none, some 5, false, true⟩], sigState := SigState.connected } ⟨1, 1, Kind.audio⟩ 0).1.scheduled
            = ({ tracks := [⟨1, 1, Kind.audio⟩], sigs := [⟨0, 1, none, some 5, false, true⟩], sigState := SigState.connected } : LP).scheduled ++ [Notif.trackPublished p]
            ↔ ({ tracks := [⟨1, 1, Kind.audio⟩], sigs := [⟨0, 1, none, some 5, false, true⟩], sigState := SigState.connected } : LP).sigState = SigState.connected)
        ∧ (({ tracks := [⟨1, 1, Kind.audio⟩], sigs := [⟨0, 1, none, some 5, false, true⟩], sigState := SigState.connected } : LP).sigState ≠ SigState.connected →
            (updatedHandler { tracks := [⟨1, 1, Kind.audio⟩], sigs := [⟨0, 1, none, some 5, false, true⟩], sigState := SigState.connected } ⟨1, 1, Kind.audio⟩ 0).1.scheduled
            = ({ tracks := [⟨1, 1, Kind.audio⟩], sigs := [⟨0, 1, none, some 5, false, true⟩], sigState := SigState.connected } : LP).scheduled)) :=
  ⟨rfl, rfl,
   C6_published_when_connected
     (rfl : sigByRef ({ tracks := [⟨1, 1, Kind.audio⟩], sigs := [⟨0, 1, none, some 5, false, true⟩], sigState := SigState.connected } : LP).sigs 0 = some ⟨0, 1, none, some 5, false, true⟩)
     rfl
     (rfl : tracksFind { tracks := [⟨1, 1, Kind.audio⟩], sigs := [⟨0, 1, none, some 5, false, true⟩], sigState := SigState.connected } 1 = some ⟨1, 1, Kind.audio⟩)
     rfl⟩

theorem C7_teardown_order_witness :
    ({} : ListenerState).stateChangedAttached = true
    ∧ ((onStateChanged {} [⟨1, 1, Kind.audio⟩] SigState.disconnected).2
        = [TeardownAction.removeStateChangedListener,
           TeardownAction.removeTrackAddedListener,
           TeardownAction.removeTrackDisabledListener,
           TeardownAction.removeTrackEnabledListener,
           TeardownAction.removeTrackRemovedListener]
          ++ [(⟨1, 1, Kind.audio⟩ : Track)].map TeardownAction.stopTrack
      ∧ (∀ t : Track, TeardownAction.stopTrack t
          ∈ (onStateChanged {} [⟨1, 1, Kind.audio⟩] SigState.disconnected).2 →
            t ∈ [(⟨1, 1, Kind.audio⟩ : Track)])
      ∧ (∀ i j : Nat, ∀ x y : TeardownAction,
          (onStateChanged {} [⟨1, 1, Kind.audio⟩] SigState.disconnected).2[i]? = some x →
          (onStateChanged {} [⟨1, 1, Kind.audio⟩] SigState.disconnected).2[j]? = some y →
          x.isStop = true → y.isStop = false → j < i)
      ∧ (onStateChanged (onStateChanged {} [⟨1, 1, Kind.audio⟩] SigState.disconnected).1
          [⟨1, 1, Kind.audio⟩] SigState.disconnected).2 = []) :=
  ⟨rfl, C7_teardown_order {} [⟨1, 1, Kind.audio⟩] rfl⟩

theorem C8_unpublish_witness :
    argTrackId (PubArg.lt ⟨1, 1, Kind.audio⟩) = some 1
    ∧ (run [Ev.publish (PubArg.lt ⟨1, 1, Kind.audio⟩)]).teardown = false
    ∧ ((tracksFind (run [Ev.publish (PubArg.lt ⟨1, 1, Kind.audio⟩)]) 1 = none →
          unpublishTrackFn (run [Ev.publish (PubArg.lt ⟨1, 1, Kind.audio⟩)])
              (PubArg.lt ⟨1, 1, Kind.audio⟩)
            = (run [Ev.publish (PubArg.lt ⟨1, 1, Kind.audio⟩)], none, UnpubRet.ret none))
      ∧ (tracksFind (run [Ev.publish (PubArg.lt ⟨1, 1, Kind.audio⟩)]) 1
            = some ⟨1, 1, Kind.audio⟩ →
          (unpublishTrackFn (run [Ev.publish (PubArg.lt ⟨1, 1, Kind.audio⟩)])
              (PubArg.lt ⟨1, 1, Kind.audio⟩)).2.2
            = UnpubRet.ret (getTrackPublication
                (run [Ev.publish (PubArg.lt ⟨1, 1, Kind.audio⟩)]).trackPublications
                (PubArg.lt ⟨1, 1, Kind.audio⟩))
          ∧ (∀ u ∈ (unpublishTrackFn (run [Ev.publish (PubArg.lt ⟨1, 1, Kind.audio⟩)])
              (PubArg.lt ⟨1, 1, Kind.audio⟩)).1.tracks, u.id ≠ 1)
          ∧ Notif.trackRemoved ⟨1, 1, Kind.audio⟩
              ∈ (unpublishTrackFn (run [Ev.publish (PubArg.lt ⟨1, 1, Kind.audio⟩)])
                  (PubArg.lt ⟨1, 1, Kind.audio⟩)).1.emitted
          ∧ (∀ p ∈ allPubs (unpublishTrackFn (run [Ev.publish (PubArg.lt ⟨1, 1, Kind.audio⟩)])
              (PubArg.lt ⟨1, 1, Kind.audio⟩)).1, p.track ≠ ⟨1, 1, Kind.audio⟩))) :=
  ⟨rfl, rfl,
   C8_unpublish ⟨[Ev.publish (PubArg.lt ⟨1, 1, Kind.audio⟩)], rfl⟩
     (PubArg.lt ⟨1, 1, Kind.audio⟩) 1 ⟨1, 1, Kind.audio⟩ rfl rfl⟩

end TwilioVideo
